import Mathlib

/-!
# openclaw-cost-calculator: a shallow embedding of `src/data.js` and `src/app.js`

JavaScript numbers are IEEE-754 binary64 values.  They are modelled by `Num`:
`nan`, the two infinities, and `fin q` where `q : ℚ` is the exact value of a
finite double.  Every arithmetic operation computes the exact rational result
and rounds it with `rnd` (round to nearest, ties to even, overflow to an
infinity), as the hardware does.

The sign of zero is not represented: the program never divides by a variable,
and `toFixed`, number-to-string conversion, comparison, `Math.abs`, `Math.min`
and `Number.isFinite` do not distinguish `-0` from `+0`.

JavaScript strings are modelled as `List Char` (`Str`).
-/

namespace CostCalc

/-! ## Numbers -/

/-- A JavaScript number: a binary64 value with its exact rational value. -/
inductive Num where
  | nan : Num
  | pinf : Num
  | ninf : Num
  | fin (q : ℚ) : Num
  deriving DecidableEq

/-- Number of binary digits of `n` with the given fuel (`0` for `n = 0`). -/
def bitLenAux : Nat → Nat → Nat
  | 0, _ => 0
  | fuel + 1, n => if n = 0 then 0 else bitLenAux fuel (n / 2) + 1

/-- Number of binary digits of `n`. -/
def bitLen (n : Nat) : Nat := bitLenAux n n

/-- The power of two `2 ^ e` for an integer exponent. -/
def pow2 (e : Int) : ℚ :=
  if 0 ≤ e then ((2 ^ e.toNat : Nat) : ℚ) else 1 / ((2 ^ (-e).toNat : Nat) : ℚ)

/-- Binary exponent of a positive rational: `2 ^ ilog2 q ≤ q < 2 ^ (ilog2 q + 1)`. -/
def ilog2 (q : ℚ) : Int :=
  let k : Int := (bitLen q.num.natAbs : Int) - (bitLen q.den : Int)
  if pow2 k ≤ q then k else k - 1

/-- Nearest integer to a non-negative rational, ties to the even neighbour. -/
def roundHalfEven (q : ℚ) : Int :=
  let f : Int := ⌊q⌋
  let r : ℚ := q - f
  if r < 1 / 2 then f
  else if 1 / 2 < r then f + 1
  else if f % 2 = 0 then f else f + 1

/-- Exponent of the unit in the last place of the binade holding the positive
rational `q`: 53-bit significands, subnormals below `2 ^ (-1022)`. -/
def ulpExp (q : ℚ) : Int := max (ilog2 q - 52) (-1074)

/-- The positive rational `q` rounded to the binary64 grid, before the
overflow check. -/
def rndAbs (q : ℚ) : ℚ := (roundHalfEven (q / pow2 (ulpExp q)) : ℚ) * pow2 (ulpExp q)

/-- Round an exact result to binary64: nearest, ties to even, overflow to an
infinity. -/
def rnd (q : ℚ) : Num :=
  if q = 0 then Num.fin 0
  else
    let r := rndAbs |q|
    if pow2 1024 ≤ r then (if 0 < q then Num.pinf else Num.ninf)
    else Num.fin (if 0 < q then r else -r)

/-- The rational `q` is the value of a finite double. -/
def IsDouble (q : ℚ) : Prop := rnd q = Num.fin q

instance (q : ℚ) : Decidable (IsDouble q) := by
  unfold IsDouble; infer_instance

namespace Num

/-- The JavaScript `+` on numbers. -/
def add : Num → Num → Num
  | nan, _ => nan
  | _, nan => nan
  | pinf, ninf => nan
  | ninf, pinf => nan
  | pinf, _ => pinf
  | _, pinf => pinf
  | ninf, _ => ninf
  | _, ninf => ninf
  | fin a, fin b => rnd (a + b)

/-- Unary minus. -/
def neg : Num → Num
  | nan => nan
  | pinf => ninf
  | ninf => pinf
  | fin a => fin (-a)

/-- The JavaScript binary `-`. -/
def sub (x y : Num) : Num := add x (neg y)

/-- Sign of an infinity times the sign of a finite factor. -/
def infTimes (positive : Bool) (a : ℚ) : Num :=
  if a = 0 then nan
  else if (0 < a) = positive then pinf else ninf

/-- The JavaScript `*`. -/
def mul : Num → Num → Num
  | nan, _ => nan
  | _, nan => nan
  | pinf, pinf => pinf
  | pinf, ninf => ninf
  | ninf, pinf => ninf
  | ninf, ninf => pinf
  | pinf, fin a => infTimes true a
  | ninf, fin a => infTimes false a
  | fin a, pinf => infTimes true a
  | fin a, ninf => infTimes false a
  | fin a, fin b => rnd (a * b)

/-- The JavaScript `/`; a zero divisor is taken as `+0`. -/
def div : Num → Num → Num
  | nan, _ => nan
  | _, nan => nan
  | pinf, pinf => nan
  | pinf, ninf => nan
  | ninf, pinf => nan
  | ninf, ninf => nan
  | pinf, fin b => if 0 ≤ b then pinf else ninf
  | ninf, fin b => if 0 ≤ b then ninf else pinf
  | fin _, pinf => fin 0
  | fin _, ninf => fin 0
  | fin a, fin b =>
    if b = 0 then (if a = 0 then nan else if 0 < a then pinf else ninf)
    else rnd (a / b)

/-- The JavaScript `x >= y` (false when either side is `NaN`). -/
def ge : Num → Num → Bool
  | nan, _ => false
  | _, nan => false
  | pinf, _ => true
  | _, ninf => true
  | ninf, _ => false
  | _, pinf => false
  | fin a, fin b => decide (b ≤ a)

/-- The JavaScript `x < y` (false when either side is `NaN`). -/
def lt : Num → Num → Bool
  | nan, _ => false
  | _, nan => false
  | _, ninf => false
  | pinf, _ => false
  | ninf, _ => true
  | _, pinf => true
  | fin a, fin b => decide (a < b)

/-- `Math.abs`. -/
def abs : Num → Num
  | nan => nan
  | pinf => pinf
  | ninf => pinf
  | fin a => fin |a|

/-- `Math.min` of two numbers. -/
def min : Num → Num → Num
  | nan, _ => nan
  | _, nan => nan
  | ninf, _ => ninf
  | _, ninf => ninf
  | pinf, y => y
  | x, pinf => x
  | fin a, fin b => fin (if a ≤ b then a else b)

/-- `Number.isFinite`. -/
def isFinite : Num → Bool
  | fin _ => true
  | _ => false

/-- A number written as an integer literal in the source. -/
def ofNat (n : Nat) : Num := rnd (n : ℚ)

end Num

/-! ## Records and the cost computation (`src/app.js`) -/

/-- JavaScript strings. -/
abbrev Str := List Char

/-- A pricing record `{ provider, model, input_per_1m, output_per_1m }`. -/
structure PricingRecord where
  provider : Str
  model : Str
  input_per_1m : Num
  output_per_1m : Num
  deriving DecidableEq

/-- A cost breakdown `{ inputCost, outputCost, total }`. -/
structure CostBreakdown where
  inputCost : Num
  outputCost : Num
  total : Num
  deriving DecidableEq

/-- `computeCost(modelRow, inputTokens, outputTokens)`, app.js lines 130-135. -/
def computeCost (modelRow : PricingRecord) (inputTokens outputTokens : Num) : CostBreakdown :=
  let inputCost := Num.mul (Num.div inputTokens (Num.ofNat 1000000)) modelRow.input_per_1m
  let outputCost := Num.mul (Num.div outputTokens (Num.ofNat 1000000)) modelRow.output_per_1m
  let total := Num.add inputCost outputCost
  { inputCost := inputCost, outputCost := outputCost, total := total }


/-- A number whose finite value is a double: every number the program computes
or parses. -/
def Num.WF : Num → Prop
  | Num.fin q => IsDouble q
  | _ => True

/-- A finite, non-negative number whose value is a double: what a token
count or a list price is. -/
def Num.IsNonnegDouble : Num → Prop
  | Num.fin q => 0 ≤ q ∧ IsDouble q
  | _ => False

instance (x : Num) : Decidable x.IsNonnegDouble := by
  cases x <;> unfold Num.IsNonnegDouble <;> infer_instance

/-! ## Strings and number formatting -/

/-- The characters removed by `String.prototype.trim` (and skipped by
`Number(string)`): ECMAScript `WhiteSpace` and `LineTerminator`. -/
def isJsSpace (c : Char) : Bool :=
  let n := c.toNat
  n = 9 || n = 10 || n = 11 || n = 12 || n = 13 || n = 32 || n = 160 || n = 5760
    || (8192 ≤ n && n ≤ 8202) || n = 8232 || n = 8233 || n = 8239 || n = 8287
    || n = 12288 || n = 65279

/-- Put a character in front of the first string of a list of strings. -/
def consHead (c : Char) : List Str → List Str
  | [] => [[c]]
  | f :: fs => (c :: f) :: fs

/-- `String.prototype.trim`. -/
def trim (s : Str) : Str := (s.dropWhile isJsSpace).rdropWhile isJsSpace

/-- Decimal digits of a natural number, most significant first (`"0"` for 0). -/
def natToStr (n : Nat) : Str := Nat.toDigits 10 n

/-- Number of decimal digits of `n` with the given fuel (`0` for `n = 0`). -/
def decLenAux : Nat → Nat → Nat
  | 0, _ => 0
  | fuel + 1, n => if n = 0 then 0 else decLenAux fuel (n / 10) + 1

/-- Number of decimal digits of `n` (`0` for `n = 0`). -/
def decLen (n : Nat) : Nat := decLenAux n n

/-- The power of ten `10 ^ e` for an integer exponent. -/
def pow10 (e : Int) : ℚ :=
  if 0 ≤ e then ((10 ^ e.toNat : Nat) : ℚ) else 1 / ((10 ^ (-e).toNat : Nat) : ℚ)

/-- Decimal exponent of a positive rational: `10 ^ ilog10 q ≤ q < 10 ^ (ilog10 q + 1)`. -/
def ilog10 (q : ℚ) : Int :=
  if 1 ≤ q then (decLen ⌊q⌋.toNat : Int) - 1
  else -(decLen (⌈1 / q⌉.toNat - 1) : Int)

/-- The candidate with `k` significant digits for the shortest decimal that
rounds to the positive double `q`: the digit string as a number `s` and the
position `n` of the decimal point (`s × 10 ^ (n - k)` rounds to `q`), when one
exists.  Of the two neighbours of `q` the closer one is taken, the even one on
a tie. -/
def shortestAt (q : ℚ) (k : Nat) : Option (Nat × Int) :=
  let n : Int := ilog10 q + 1
  let scale : ℚ := pow10 (n - k)
  let lo : Nat := ⌊q / scale⌋.toNat
  let hi : Nat := lo + 1
  let okLo : Bool := decide (rnd (lo * scale) = Num.fin q)
  let okHi : Bool := decide (rnd (hi * scale) = Num.fin q)
  let dLo : ℚ := q - lo * scale
  let dHi : ℚ := hi * scale - q
  let pick (s : Nat) : Option (Nat × Int) :=
    if s = 10 ^ k then some (10 ^ (k - 1), n + 1) else some (s, n)
  if okLo && okHi then
    (if dLo < dHi then pick lo else if dHi < dLo then pick hi
     else if lo % 2 = 0 then pick lo else pick hi)
  else if okLo then pick lo
  else if okHi then pick hi
  else none

/-- Search `k = from, from + 1, ...` for the shortest round-tripping decimal. -/
def shortestFrom (q : ℚ) : Nat → Nat → Option (Nat × Nat × Int)
  | 0, _ => none
  | fuel + 1, k =>
    match shortestAt q k with
    | some (s, n) => some (k, s, n)
    | none => shortestFrom q fuel (k + 1)

/-- The triple `(k, s, n)` of `Number::toString`: `k` digits `s`, decimal point
after `n` digits.  Seventeen digits always suffice for a double; the fallback
is for rationals that are not doubles. -/
def shortest (q : ℚ) : Nat × Nat × Int :=
  match shortestFrom q 17 1 with
  | some r => r
  | none => (17, ⌊q / pow10 (ilog10 q + 1 - 17)⌋.toNat, ilog10 q + 1)

/-- `Number::toString` of a positive finite number. -/
def posToString (q : ℚ) : Str :=
  let (k, s, n) := shortest q
  let ds := natToStr s
  if (k : Int) ≤ n ∧ n ≤ 21 then ds ++ List.replicate (n.toNat - k) '0'
  else if 0 < n ∧ n ≤ 21 then ds.take n.toNat ++ '.' :: ds.drop n.toNat
  else if -6 < n ∧ n ≤ 0 then '0' :: '.' :: (List.replicate (-n).toNat '0' ++ ds)
  else
    let e : Int := n - 1
    let tail : Str := 'e' :: (if e < 0 then '-' else '+') :: natToStr e.natAbs
    if k = 1 then ds ++ tail else ds.take 1 ++ '.' :: (ds.drop 1 ++ tail)

/-- `Number::toString(x)` with radix 10: what string concatenation, template
literals and `Array.prototype.join` apply to a number. -/
def numToString : Num → Str
  | Num.nan => "NaN".toList
  | Num.pinf => "Infinity".toList
  | Num.ninf => "-Infinity".toList
  | Num.fin q =>
    if q = 0 then "0".toList
    else if q < 0 then '-' :: posToString (-q)
    else posToString q

/-- `x.toFixed(2)` for a finite `x ≥ 0` below `10 ^ 21`: the integer `n` nearest
to `100 x` (the larger on a tie), written with at least three digits and a
point before the last two. -/
def fixed2Pos (q : ℚ) : Str :=
  let n : Nat := ⌊q * 100 + 1 / 2⌋.toNat
  let m := natToStr n
  let m := List.replicate (3 - m.length) '0' ++ m
  m.take (m.length - 2) ++ '.' :: m.drop (m.length - 2)

/-- `Number.prototype.toFixed(2)`. -/
def toFixed2 : Num → Str
  | Num.nan => "NaN".toList
  | Num.pinf => "Infinity".toList
  | Num.ninf => "-Infinity".toList
  | Num.fin q =>
    if q < 0 then
      '-' :: (if (10 : ℚ) ^ 21 ≤ -q then numToString (Num.fin (-q)) else fixed2Pos (-q))
    else
      (if (10 : ℚ) ^ 21 ≤ q then numToString (Num.fin q) else fixed2Pos q)

/-- `money(n)`, app.js lines 82-84. -/
def money (n : Num) : Str := '$' :: toFixed2 n

/-- `periodLabel(isAnnual)`, app.js lines 86-88. -/
def periodLabel (isAnnual : Bool) : Str :=
  if isAnnual then " / year".toList else " / month".toList

/-! ## `Number(string)` -/

/-- Value of a decimal digit character. -/
def digitVal (c : Char) : Nat := c.toNat - 48

/-- Value of a string of decimal digits. -/
def digitsVal (ds : Str) : Nat := ds.foldl (fun acc c => 10 * acc + digitVal c) 0

/-- Value of a digit character in the given radix (2, 8 or 16), if it is one. -/
def radixDigit (radix : Nat) (c : Char) : Option Nat :=
  let n := c.toNat
  let v : Option Nat :=
    if 48 ≤ n ∧ n ≤ 57 then some (n - 48)
    else if 97 ≤ n ∧ n ≤ 102 then some (n - 87)
    else if 65 ≤ n ∧ n ≤ 70 then some (n - 55)
    else none
  match v with
  | some d => if d < radix then some d else none
  | none => none

/-- Value of a non-empty string of digits in the given radix. -/
def radixVal (radix : Nat) (ds : Str) : Option Nat :=
  if ds = [] then none
  else ds.foldl (fun acc c =>
    match acc, radixDigit radix c with
    | some a, some d => some (radix * a + d)
    | _, _ => none) (some 0)

/-- `NonDecimalIntegerLiteral`: `0x`, `0o`, `0b` (either case) and digits. -/
def parseNonDecimal (t : Str) : Option Nat :=
  match t with
  | '0' :: 'x' :: ds => radixVal 16 ds
  | '0' :: 'X' :: ds => radixVal 16 ds
  | '0' :: 'o' :: ds => radixVal 8 ds
  | '0' :: 'O' :: ds => radixVal 8 ds
  | '0' :: 'b' :: ds => radixVal 2 ds
  | '0' :: 'B' :: ds => radixVal 2 ds
  | _ => none

/-- `ExponentPart` after its `e`/`E`: an optional sign and at least one digit. -/
def parseExponent (r : Str) : Option Int :=
  let (negative, ds) : Bool × Str :=
    match r with
    | '+' :: ds => (false, ds)
    | '-' :: ds => (true, ds)
    | _ => (false, r)
  if ds ≠ [] ∧ ds.all Char.isDigit then
    some (if negative then -(digitsVal ds : Int) else (digitsVal ds : Int))
  else none

/-- `StrUnsignedDecimalLiteral` other than `Infinity`: its exact value. -/
def parseUnsignedDecimal (u : Str) : Option ℚ :=
  let ip := u.takeWhile Char.isDigit
  let r1 := u.dropWhile Char.isDigit
  let (fp, r2) : Str × Str :=
    match r1 with
    | '.' :: r => (r.takeWhile Char.isDigit, r.dropWhile Char.isDigit)
    | _ => ([], r1)
  if ip = [] ∧ fp = [] then none
  else
    let mant : Nat := digitsVal (ip ++ fp)
    match r2 with
    | [] => some ((mant : ℚ) * pow10 (-(fp.length : Int)))
    | c :: r3 =>
      if c = 'e' ∨ c = 'E' then
        match parseExponent r3 with
        | some e => some ((mant : ℚ) * pow10 (e - (fp.length : Int)))
        | none => none
      else none

/-- `Number(s)` for a string `s` (`StringToNumber`), rounding the decimal value
correctly. -/
def parseNumber (s : Str) : Num :=
  let t := trim s
  if t = [] then Num.fin 0
  else
    match parseNonDecimal t with
    | some n => rnd (n : ℚ)
    | none =>
      let (negative, u) : Bool × Str :=
        match t with
        | '+' :: r => (false, r)
        | '-' :: r => (true, r)
        | _ => (false, t)
      if u = "Infinity".toList then (if negative then Num.ninf else Num.pinf)
      else
        match parseUnsignedDecimal u with
        | some q => if negative then rnd (-q) else rnd q
        | none => Num.nan

/-! ## The pricing table loader (`src/data.js`) -/

/-- `s.split(/\r?\n/)`. -/
def splitLines : Str → List Str
  | [] => [[]]
  | '\r' :: '\n' :: rest => [] :: splitLines rest
  | '\n' :: rest => [] :: splitLines rest
  | c :: rest => consHead c (splitLines rest)

/-- `s.split("\t")`: the cells between the tab characters. -/
def splitTabs : Str → List Str
  | [] => [[]]
  | c :: rest => if c = '\t' then [] :: splitTabs rest else consHead c (splitTabs rest)

/-- Search for `name` from position `i` on: the first position, or `-1`. -/
def indexOfFrom (name : Str) : List Str → Nat → Int
  | [], _ => -1
  | h :: t, i => if h = name then (i : Int) else indexOfFrom name t (i + 1)

/-- `header.indexOf(name)`: the first position of `name`, or `-1`. -/
def indexOfName (header : List Str) (name : Str) : Int := indexOfFrom name header 0

/-- `(cols[idx] || "")` for an index found by `indexOf`. -/
def colAt (cols : List Str) (idx : Int) : Str :=
  if 0 ≤ idx then cols.getD idx.toNat [] else []

/-- `raw.replace("$", "").replace(",", "")`: a string pattern replaces the
first occurrence only. -/
def stripMoney (raw : Str) : Str := (raw.erase '$').erase ','

/-- One iteration of the row loop, data.js lines 31-51: the record pushed for
the line, or `none` when the loop `continue`s. -/
def parseRow (idxProvider idxModel idxInput idxOutput : Int) (line : Str) :
    Option PricingRecord :=
  let cols := splitTabs line
  let provider := trim (colAt cols idxProvider)
  let model := trim (colAt cols idxModel)
  let inputRaw := trim (colAt cols idxInput)
  let outputRaw := trim (colAt cols idxOutput)
  let input_per_1m := parseNumber (stripMoney inputRaw)
  let output_per_1m := parseNumber (stripMoney outputRaw)
  if provider = [] ∨ model = [] then none
  else if ¬ input_per_1m.isFinite ∨ ¬ output_per_1m.isFinite then none
  else some { provider := provider, model := model,
              input_per_1m := input_per_1m, output_per_1m := output_per_1m }

deriving instance DecidableEq for Except

/-- The body of `loadPricingTSV` from the length check on, data.js lines 11-60,
on the array `lines`: the rows, or the message of the thrown error. -/
def loadFromLines (lines : List Str) : Except Str (List PricingRecord) :=
  if lines.length < 2 then
    Except.error "pricing.tsv looks empty. Paste your dataset including the header row.".toList
  else
    let header := (splitTabs (lines.headD [])).map trim
    let idxProvider := indexOfName header "Provider".toList
    let idxModel := indexOfName header "Model".toList
    let idxInput := indexOfName header "Input $/1M".toList
    let idxOutput := indexOfName header "Output $/1M".toList
    if idxProvider = -1 ∨ idxModel = -1 ∨ idxInput = -1 ∨ idxOutput = -1 then
      Except.error
        "pricing.tsv missing required headers. Must include: Provider, Model, Input $/1M, Output $/1M".toList
    else
      let rows := lines.tail.filterMap (parseRow idxProvider idxModel idxInput idxOutput)
      if rows.length = 0 then
        Except.error
          "No valid rows found. Check that Input $/1M and Output $/1M are numeric (like $1.25).".toList
      else Except.ok rows

/-- The part of `loadPricingTSV` after the fetch, data.js lines 8-60, on the
response text: `lines = text.trim().split(/\r?\n/)` and the rest of the body. -/
def loadPricingTSV (text : Str) : Except Str (List PricingRecord) :=
  loadFromLines (splitLines (trim text))

/-! ## Result builders (`src/app.js`) -/

/-- A template literal: the concatenation of its pieces. -/
def tpl (parts : List Str) : Str := parts.foldr (fun p acc => p ++ acc) []

/-- `parts.join(sep)`. -/
def joinWith (sep : Str) (parts : List Str) : Str := sep.intercalate parts

/-- The bundle `{ html, copyText, markdown, csv }` returned by a builder. -/
structure Rendered where
  html : Str
  copyText : Str
  markdown : Str
  csv : Str
  deriving DecidableEq

/-- The discounted estimate `total * (1 - discountPct / 100)`, app.js line 204. -/
def discountedTotal (total discountPct : Num) : Num :=
  Num.mul total (Num.sub (Num.ofNat 1) (Num.div discountPct (Num.ofNat 100)))

/-- `buildSingleResult`, app.js lines 195-285.  `toLocaleString` is the host's
`Number.prototype.toLocaleString()` in its default locale. -/
def buildSingleResult (toLocaleString : Num → Str) (selected : PricingRecord)
    (inputTokens outputTokens : Num) (costs : CostBreakdown) (showAisa : Bool)
    (discountPct : Num) (isAnnual : Bool) : Rendered :=
  let discounted := discountedTotal costs.total discountPct
  let aisaTile : Str :=
    if showAisa then
      tpl ["\n".toList, "      <div class=\"tile\">\n".toList,
        "        <div class=\"k\">AIsa estimate</div>\n".toList,
        "        <div class=\"v\">".toList, money discounted, periodLabel isAnnual,
        "</div>\n".toList,
        "        <div class=\"s\">Illustrative only, assumes ".toList, numToString discountPct,
        "% discount.</div>\n".toList, "      </div>\n".toList, "    ".toList]
    else []
  let aisaCopyLine : Str :=
    if showAisa then
      tpl ["\n".toList, "AIsa estimate (illustrative, ".toList, numToString discountPct,
        "%): ".toList, money discounted, periodLabel isAnnual]
    else []
  let aisaMd : Str :=
    if showAisa then
      tpl ["\n".toList, "- **AIsa estimate (illustrative, ".toList, numToString discountPct,
        "%)**: ".toList, money discounted, periodLabel isAnnual]
    else []
  let aisaCsv : Str :=
    if showAisa then tpl [",".toList, toFixed2 discounted, ",".toList, numToString discountPct]
    else []
  let titleLine : Str :=
    if isAnnual then "Model Cost Estimate (Annual)".toList
    else "Model Cost Estimate (Monthly)".toList
  let copyText : Str :=
    joinWith "\n".toList [
      titleLine,
      tpl ["Provider: ".toList, selected.provider],
      tpl ["Model: ".toList, selected.model],
      tpl ["Monthly input tokens: ".toList, toLocaleString inputTokens],
      tpl ["Monthly output tokens: ".toList, toLocaleString outputTokens],
      tpl ["Input cost: ".toList, money costs.inputCost, periodLabel isAnnual],
      tpl ["Output cost: ".toList, money costs.outputCost, periodLabel isAnnual],
      tpl ["Total: ".toList, money costs.total, periodLabel isAnnual]]
    ++ aisaCopyLine
  let markdown : Str :=
    joinWith "\n".toList [
      tpl ["### ".toList, titleLine],
      tpl ["- **Provider**: ".toList, selected.provider],
      tpl ["- **Model**: ".toList, selected.model],
      tpl ["- **Monthly input tokens**: ".toList, toLocaleString inputTokens],
      tpl ["- **Monthly output tokens**: ".toList, toLocaleString outputTokens],
      tpl ["- **Input cost**: **".toList, money costs.inputCost, periodLabel isAnnual,
        "**".toList],
      tpl ["- **Output cost**: **".toList, money costs.outputCost, periodLabel isAnnual,
        "**".toList],
      tpl ["- **Total**: **".toList, money costs.total, periodLabel isAnnual, "**".toList]]
    ++ aisaMd
  let csv : Str :=
    joinWith ",".toList [
      tpl ["\"".toList, selected.provider, "\"".toList],
      tpl ["\"".toList, selected.model, "\"".toList],
      numToString inputTokens,
      numToString outputTokens,
      numToString selected.input_per_1m,
      numToString selected.output_per_1m,
      toFixed2 costs.inputCost,
      toFixed2 costs.outputCost,
      toFixed2 costs.total]
    ++ (if showAisa then aisaCsv else ",,".toList)
    ++ tpl [",\"".toList, (if isAnnual then "year".toList else "month".toList), "\"".toList]
  let html : Str :=
    tpl ["\n".toList, "    <div class=\"badge\">".toList, selected.provider, " | ".toList,
      selected.model, "</div>\n".toList, "\n".toList, "    <div class=\"tiles\">\n".toList,
      "      <div class=\"tile\">\n".toList,
      "        <div class=\"k\">Input cost</div>\n".toList,
      "        <div class=\"v\">".toList, money costs.inputCost, periodLabel isAnnual,
      "</div>\n".toList,
      "        <div class=\"s\">".toList, toLocaleString inputTokens,
      " monthly tokens × $".toList, numToString selected.input_per_1m, "/1M</div>\n".toList,
      "      </div>\n".toList, "\n".toList, "      <div class=\"tile\">\n".toList,
      "        <div class=\"k\">Output cost</div>\n".toList,
      "        <div class=\"v\">".toList, money costs.outputCost, periodLabel isAnnual,
      "</div>\n".toList,
      "        <div class=\"s\">".toList, toLocaleString outputTokens,
      " monthly tokens × $".toList, numToString selected.output_per_1m, "/1M</div>\n".toList,
      "      </div>\n".toList, "\n".toList, "      <div class=\"tile big\">\n".toList,
      "        <div class=\"k\">Total estimate</div>\n".toList,
      "        <div class=\"v\">".toList, money costs.total, periodLabel isAnnual,
      "</div>\n".toList,
      "        <div class=\"s\">Token-based estimate using official list pricing.</div>\n".toList,
      "      </div>\n".toList, "\n".toList, "      ".toList, aisaTile, "\n".toList,
      "    </div>\n".toList, "  ".toList]
  { html := html, copyText := copyText, markdown := markdown, csv := csv }

/-- The signed delta text of `buildCompareResult`, app.js line 289. -/
def deltaText (delta : Num) : Str :=
  if Num.ge delta (Num.fin 0) then tpl ["+".toList, money delta]
  else tpl ["-".toList, money (Num.abs delta)]

/-- `buildCompareResult`, app.js lines 287-346. -/
def buildCompareResult (toLocaleString : Num → Str) (a b : PricingRecord)
    (inputTokens outputTokens : Num) (ca cb : CostBreakdown) (isAnnual : Bool) : Rendered :=
  let delta := Num.sub cb.total ca.total
  let deltaText : Str := deltaText delta
  let titleLine : Str :=
    if isAnnual then "Model Compare (Annual)".toList else "Model Compare (Monthly)".toList
  let copyText : Str :=
    joinWith "\n".toList [
      titleLine,
      tpl ["Monthly tokens: Input ".toList, toLocaleString inputTokens, ", Output ".toList,
        toLocaleString outputTokens],
      tpl [],
      tpl ["A: ".toList, a.provider, " | ".toList, a.model, " => ".toList, money ca.total,
        periodLabel isAnnual],
      tpl ["B: ".toList, b.provider, " | ".toList, b.model, " => ".toList, money cb.total,
        periodLabel isAnnual],
      tpl ["Delta (B - A): ".toList, deltaText, periodLabel isAnnual]]
  let markdown : Str :=
    joinWith "\n".toList [
      tpl ["### ".toList, titleLine],
      tpl ["- **Monthly tokens**: Input ".toList, toLocaleString inputTokens,
        ", Output ".toList, toLocaleString outputTokens],
      tpl ["- **A**: ".toList, a.provider, " | ".toList, a.model, " = **".toList,
        money ca.total, periodLabel isAnnual, "**".toList],
      tpl ["- **B**: ".toList, b.provider, " | ".toList, b.model, " = **".toList,
        money cb.total, periodLabel isAnnual, "**".toList],
      tpl ["- **Delta (B - A)**: **".toList, deltaText, periodLabel isAnnual, "**".toList]]
  let csv : Str :=
    joinWith ",".toList [
      tpl ["\"".toList, a.provider, "\"".toList],
      tpl ["\"".toList, a.model, "\"".toList],
      toFixed2 ca.total,
      tpl ["\"".toList, b.provider, "\"".toList],
      tpl ["\"".toList, b.model, "\"".toList],
      toFixed2 cb.total,
      toFixed2 delta,
      tpl ["\"".toList, (if isAnnual then "year".toList else "month".toList), "\"".toList]]
  let html : Str :=
    tpl ["\n".toList, "    <div class=\"badge\">Compare Mode</div>\n".toList, "\n".toList,
      "    <div class=\"tiles\">\n".toList, "      <div class=\"tile\">\n".toList,
      "        <div class=\"k\">Model A</div>\n".toList,
      "        <div class=\"v\">".toList, money ca.total, periodLabel isAnnual,
      "</div>\n".toList,
      "        <div class=\"s\">".toList, a.provider, " | ".toList, a.model, "</div>\n".toList,
      "      </div>\n".toList, "\n".toList, "      <div class=\"tile\">\n".toList,
      "        <div class=\"k\">Model B</div>\n".toList,
      "        <div class=\"v\">".toList, money cb.total, periodLabel isAnnual,
      "</div>\n".toList,
      "        <div class=\"s\">".toList, b.provider, " | ".toList, b.model, "</div>\n".toList,
      "      </div>\n".toList, "\n".toList, "      <div class=\"tile big\">\n".toList,
      "        <div class=\"k\">Delta (B - A)</div>\n".toList,
      "        <div class=\"v\">".toList, deltaText, periodLabel isAnnual, "</div>\n".toList,
      "        <div class=\"s\">Positive means B is more expensive than A.</div>\n".toList,
      "      </div>\n".toList, "    </div>\n".toList, "  ".toList]
  { html := html, copyText := copyText, markdown := markdown, csv := csv }

/-! ## Input sanitising and `calculate` (`src/app.js`) -/

/-- `stripCommas(s)`, app.js lines 43-45, on a string. -/
def stripCommas (s : Str) : Str := trim (s.filter (fun c => c ≠ ','))

/-- `sanitizeNumber(value)`, app.js lines 77-80, on a string.  The call
`sanitizeNumber(0)` of line 371 equals `sanitizeNumber("")`, since
`String(0 || "")` is the empty string. -/
def sanitizeNumber (value : Str) : Num :=
  let n := parseNumber (stripCommas value)
  if n.isFinite && Num.ge n (Num.fin 0) then n else Num.fin 0

/-- `xs[n]` for an array `xs` and a number `n`: defined exactly when `n` is an
integer index below the length. -/
def arrayAt {α : Type} (xs : List α) (n : Num) : Option α :=
  match n with
  | Num.fin q => if q.den = 1 ∧ 0 ≤ q.num then xs.get? q.num.toNat else none
  | _ => none

/-- What `calculate` reads: the view and the state of the page elements.  An
element is `none` when `document.getElementById` found nothing. -/
structure Page where
  resultsEl : Bool
  VIEW_MODELS : List PricingRecord
  inputTokensEl : Option Str
  outputTokensEl : Option Str
  showAisaEl : Option Bool
  aisaDiscountEl : Option Str
  annualModeEl : Option Bool
  compareModeEl : Option Bool
  modelSelect : Option Str
  modelSelectA : Option Str
  modelSelectB : Option Str

/-- The scaled breakdown `{ inputCost: m.inputCost * mult, outputCost:
m.outputCost * mult, total: m.total * mult }`, app.js lines 399-403, 429-433
and 435-439. -/
def scaleCosts (monthly : CostBreakdown) (mult : Num) : CostBreakdown :=
  { inputCost := Num.mul monthly.inputCost mult,
    outputCost := Num.mul monthly.outputCost mult,
    total := Num.mul monthly.total mult }

/-- The formatter call made by `calculate` with its arguments. -/
inductive FormatterCall where
  | single (selected : PricingRecord) (inputTokens outputTokens : Num) (costs : CostBreakdown)
      (showAisa : Bool) (discountPct : Num) (isAnnual : Bool)
  | compare (a b : PricingRecord) (inputTokens outputTokens : Num) (ca cb : CostBreakdown)
      (isAnnual : Bool)
  deriving DecidableEq

/-- What a run of `calculate` does: nothing, `setHint(title, body)`, or a
formatter call whose result is displayed. -/
inductive Step where
  | nothing
  | hint (title body : Str)
  | call (c : FormatterCall)
  deriving DecidableEq

/-- The body of `calculate(isAuto)`, app.js lines 351-447, up to the formatter
call.  `isAuto` is not read by the source. -/
def calculateStep (p : Page) : Step :=
  if ¬ p.resultsEl then Step.nothing
  else if p.VIEW_MODELS.length = 0 then
    Step.hint "No models loaded.".toList "Check your pricing.tsv and refresh.".toList
  else
    let rawIn := trim (p.inputTokensEl.getD [])
    let rawOut := trim (p.outputTokensEl.getD [])
    if rawIn = [] ∨ rawOut = [] then
      Step.hint "Enter your token usage.".toList
        "Fill monthly input and output tokens, or use a preset.".toList
    else
      let inputTokens := sanitizeNumber rawIn
      let outputTokens := sanitizeNumber rawOut
      let showAisa := p.showAisaEl.getD false
      let discountPct := Num.min (Num.ofNat 100) (sanitizeNumber (p.aisaDiscountEl.getD []))
      let isAnnual := p.annualModeEl.getD false
      let mult := if isAnnual then Num.ofNat 12 else Num.ofNat 1
      let isCompare := p.compareModeEl.getD false
      if ¬ isCompare then
        match p.modelSelect with
        | none =>
          Step.hint "Select a model to begin.".toList
            "Choose a provider and model, then calculate.".toList
        | some v =>
          if v = [] then
            Step.hint "Select a model to begin.".toList
              "Choose a provider and model, then calculate.".toList
          else
            match arrayAt p.VIEW_MODELS (parseNumber v) with
            | none =>
              Step.hint "Invalid selection.".toList "Re-select the model and try again.".toList
            | some selected =>
              let monthly := computeCost selected inputTokens outputTokens
              let costs := scaleCosts monthly mult
              Step.call (FormatterCall.single selected inputTokens outputTokens costs showAisa
                discountPct isAnnual)
      else
        match p.modelSelectA, p.modelSelectB with
        | some va, some vb =>
          if va = [] ∨ vb = [] then
            Step.hint "Select Model A and Model B.".toList "Pick two models, then calculate.".toList
          else
            match arrayAt p.VIEW_MODELS (parseNumber va), arrayAt p.VIEW_MODELS (parseNumber vb) with
            | some a, some b =>
              let caMonthly := computeCost a inputTokens outputTokens
              let cbMonthly := computeCost b inputTokens outputTokens
              let ca := scaleCosts caMonthly mult
              let cb := scaleCosts cbMonthly mult
              Step.call (FormatterCall.compare a b inputTokens outputTokens ca cb isAnnual)
            | _, _ =>
              Step.hint "Could not load selected models.".toList
                "Try re-selecting both models, then calculate again.".toList
        | _, _ =>
          Step.hint "Select Model A and Model B.".toList "Pick two models, then calculate.".toList

/-- The bundle a formatter call returns. -/
def FormatterCall.run (toLocaleString : Num → Str) : FormatterCall → Rendered
  | FormatterCall.single selected inputTokens outputTokens costs showAisa discountPct isAnnual =>
    buildSingleResult toLocaleString selected inputTokens outputTokens costs showAisa
      discountPct isAnnual
  | FormatterCall.compare a b inputTokens outputTokens ca cb isAnnual =>
    buildCompareResult toLocaleString a b inputTokens outputTokens ca cb isAnnual

/-- What the results element shows after `calculate`. -/
inductive Outcome where
  | unchanged
  | hint (title body : Str)
  | result (r : Rendered)
  deriving DecidableEq

/-- `calculate(isAuto)`, app.js lines 351-447. -/
def calculate (toLocaleString : Num → Str) (p : Page) (_isAuto : Bool) : Outcome :=
  match calculateStep p with
  | Step.nothing => Outcome.unchanged
  | Step.hint title body => Outcome.hint title body
  | Step.call c => Outcome.result (c.run toLocaleString)

/-! ## Example inputs -/

/-- A page in annual single mode: one record with rates 0.1 and 0.6, token
fields `1,000,000` and `500,000`. -/
def annualPage : Page :=
  { resultsEl := true,
    VIEW_MODELS := [⟨"A".toList, "m".toList, rnd (1 / 10), rnd (6 / 10)⟩],
    inputTokensEl := some "1,000,000".toList, outputTokensEl := some "500,000".toList,
    showAisaEl := some false, aisaDiscountEl := some "20".toList,
    annualModeEl := some true, compareModeEl := some false,
    modelSelect := some "0".toList, modelSelectA := some [], modelSelectB := some [] }

/-- The scenario of the specification: `OpenAI | gpt-5` at 1.25 and 10.00 with
1,000,000 and 500,000 tokens, annual mode. -/
def gpt5AnnualPage : Page :=
  { resultsEl := true,
    VIEW_MODELS := [⟨"OpenAI".toList, "gpt-5".toList, Num.fin (5 / 4), Num.fin 10⟩],
    inputTokensEl := some "1,000,000".toList, outputTokensEl := some "500,000".toList,
    showAisaEl := some false, aisaDiscountEl := some "20".toList,
    annualModeEl := some true, compareModeEl := some false,
    modelSelect := some "0".toList, modelSelectA := some [], modelSelectB := some [] }

/-! ## Vocabulary of the specification -/

/-- Drop a leading minus sign. -/
def stripMinus : Str → Str
  | '-' :: r => r
  | s => s

/-- At least one digit, a point and two digits. -/
def twoDecimalBody (u : Str) : Bool :=
  match u.reverse with
  | d2 :: d1 :: '.' :: ip => d1.isDigit && d2.isDigit && !ip.isEmpty && ip.all Char.isDigit
  | _ => false

/-- A number written with exactly two decimal places: an optional minus sign,
at least one digit, a point and two digits. -/
def isTwoDecimal (s : Str) : Bool := twoDecimalBody (stripMinus s)

/-- The fields of a CSV row: the row is cut at every comma that stands outside
a double-quoted stretch; quotes stay in the field text. -/
def csvSplit : Bool → Str → List Str
  | _, [] => [[]]
  | inQuote, c :: rest =>
    if c = '"' then consHead c (csvSplit (!inQuote) rest)
    else if c = ',' ∧ inQuote = false then [] :: csvSplit false rest
    else consHead c (csvSplit inQuote rest)

/-- The fields of a CSV row. -/
def csvFields (row : Str) : List Str := csvSplit false row

/-- A character that can occur in the output of `Number::toString` or
`toFixed`. -/
def isNumChar (c : Char) : Bool :=
  c.isDigit || c = '.' || c = 'e' || c = '+' || c = '-' || c = 'N' || c = 'a' || c = 'I'
    || c = 'n' || c = 'f' || c = 'i' || c = 't' || c = 'y'

/-- Put a string in front of the first field of a list of fields. -/
def prependHead (s : Str) : List Str → List Str
  | [] => [s]
  | f :: fs => (s ++ f) :: fs

/-- A CSV field that is plain (no comma, no double quote) or double-quoted
without an inner double quote. -/
def IsCsvField (f : Str) : Prop :=
  (∀ c ∈ f, c ≠ ',' ∧ c ≠ '"') ∨ (∃ p : Str, f = '"' :: (p ++ ['"']) ∧ '"' ∉ p)

/-- The signed money text that a two-decimal field denotes: `-x` reads `-$x`
and `x` reads `+$x`. -/
def signedMoney (field : Str) : Str :=
  match field with
  | '-' :: r => '-' :: '$' :: r
  | _ => '+' :: '$' :: field

/-- The twelve fields of the single-mode CSV row. -/
def singleCsvFields (selected : PricingRecord) (inputTokens outputTokens : Num)
    (costs : CostBreakdown) (showAisa : Bool) (discountPct : Num) (isAnnual : Bool) : List Str :=
  [tpl ["\"".toList, selected.provider, "\"".toList],
   tpl ["\"".toList, selected.model, "\"".toList],
   numToString inputTokens, numToString outputTokens,
   numToString selected.input_per_1m, numToString selected.output_per_1m,
   toFixed2 costs.inputCost, toFixed2 costs.outputCost, toFixed2 costs.total,
   (if showAisa then toFixed2 (discountedTotal costs.total discountPct) else []),
   (if showAisa then numToString discountPct else []),
   tpl ["\"".toList, (if isAnnual then "year".toList else "month".toList), "\"".toList]]


/-- The eight fields of the compare-mode CSV row. -/
def compareCsvFields (a b : PricingRecord) (ca cb : CostBreakdown) (isAnnual : Bool) : List Str :=
  [tpl ["\"".toList, a.provider, "\"".toList],
   tpl ["\"".toList, a.model, "\"".toList],
   toFixed2 ca.total,
   tpl ["\"".toList, b.provider, "\"".toList],
   tpl ["\"".toList, b.model, "\"".toList],
   toFixed2 cb.total,
   toFixed2 (Num.sub cb.total ca.total),
   tpl ["\"".toList, (if isAnnual then "year".toList else "month".toList), "\"".toList]]

/-- The record of the scenario, with a comma in the provider name. -/
def commaRecord : PricingRecord :=
  ⟨"Open,AI".toList, "gpt-5".toList, Num.fin (5 / 4), Num.fin 10⟩

/-- The monthly breakdown of the scenario: 1.25, 5.00 and 6.25. -/
def scenarioCosts : CostBreakdown :=
  { inputCost := Num.fin (5 / 4), outputCost := Num.fin 5, total := Num.fin (25 / 4) }

/-- A finite number of magnitude below `10 ^ 21`: the range in which
`toFixed` writes plain decimal digits. -/
def Num.Below1e21 : Num → Prop
  | Num.fin q => |q| < 10 ^ 21
  | _ => False

instance (x : Num) : Decidable x.Below1e21 := by
  cases x <;> unfold Num.Below1e21 <;> infer_instance

/-! ## Vocabulary of the loader claims -/

/-- The header cells of a pricing text: the first line of the trimmed text,
split on tab, each cell trimmed. -/
def headerCells (text : Str) : List Str :=
  (splitTabs ((splitLines (trim text)).headD [])).map trim

/-- The data lines of a pricing text: the lines of the trimmed text after the
first. -/
def dataLines (text : Str) : List Str := (splitLines (trim text)).tail

/-- The trimmed cell of a data line in the column that the header of the text
gives to `name`. -/
def cellOf (text : Str) (name : Str) (line : Str) : Str :=
  trim (colAt (splitTabs line) (indexOfName (headerCells text) name))

/-- The rate that a trimmed monetary cell denotes for the loader. -/
def rateOf (raw : Str) : Num := parseNumber (stripMoney raw)

/-- A data line survives validation: provider and model are non-empty after
trimming and both rate cells parse as finite numbers. -/
def rowSurvives (text : Str) (line : Str) : Bool :=
  decide (cellOf text "Provider".toList line ≠ [])
    && decide (cellOf text "Model".toList line ≠ [])
    && (rateOf (cellOf text "Input $/1M".toList line)).isFinite
    && (rateOf (cellOf text "Output $/1M".toList line)).isFinite

/-- The record that a surviving data line denotes. -/
def rowRecord (text : Str) (line : Str) : PricingRecord :=
  { provider := cellOf text "Provider".toList line,
    model := cellOf text "Model".toList line,
    input_per_1m := rateOf (cellOf text "Input $/1M".toList line),
    output_per_1m := rateOf (cellOf text "Output $/1M".toList line) }

/-- The three ways in which parsing a pricing text fails. -/
def LoadFailure (text : Str) : Prop :=
  (splitLines (trim text)).length < 2
  ∨ ("Provider".toList ∉ headerCells text ∨ "Model".toList ∉ headerCells text
      ∨ "Input $/1M".toList ∉ headerCells text ∨ "Output $/1M".toList ∉ headerCells text)
  ∨ ∀ line ∈ dataLines text, rowSurvives text line = false

/-- A dataset of three rows whose second row has the input rate `N/A`. -/
def naDataset : Str :=
  "Provider\tModel\tInput $/1M\tOutput $/1M\nOpenAI\tgpt-5\t1.25\t10.00\nAcme\tfoo\tN/A\t2.00\nAcme\tbar\t$0.625\t5\n".toList

instance (text : Str) : Decidable (LoadFailure text) := by
  unfold LoadFailure; infer_instance

/-! ## Datasets with rearranged columns -/

/-- Append a character to the last string of a list of strings. -/
def snocLast : List Str → Char → List Str
  | [], w => [[w]]
  | [f], w => [f ++ [w]]
  | f :: g :: fs, w => f :: snocLast (g :: fs) w

/-- The four required column names in the canonical order. -/
def columnName : Fin 4 → Str
  | 0 => "Provider".toList
  | 1 => "Model".toList
  | 2 => "Input $/1M".toList
  | 3 => "Output $/1M".toList

/-- The line of a row (its cells given by canonical column) in the column
arrangement `σ`: position `j` holds the cell of canonical column `σ j`. -/
def lineOf (σ : Equiv.Perm (Fin 4)) (cells : Fin 4 → Str) : Str :=
  joinWith "\t".toList (List.ofFn (fun j => cells (σ j)))

/-- The text of a dataset in the column arrangement `σ`: the header line and
one line per row, separated by line feeds. -/
def datasetText (σ : Equiv.Perm (Fin 4)) (rows : List (Fin 4 → Str)) : Str :=
  joinWith "\n".toList (lineOf σ columnName :: rows.map (lineOf σ))

/-- A cell text: no tab and no line break inside. -/
def CleanCell (c : Str) : Prop := '\t' ∉ c ∧ '\n' ∉ c ∧ '\r' ∉ c

instance (c : Str) : Decidable (CleanCell c) := by
  unfold CleanCell; infer_instance

/-- The record of a row given by its cells, if the row survives validation. -/
def recordOfCells (cells : Fin 4 → Str) : Option PricingRecord :=
  let provider := trim (cells 0)
  let model := trim (cells 1)
  let input_per_1m := parseNumber (stripMoney (trim (cells 2)))
  let output_per_1m := parseNumber (stripMoney (trim (cells 3)))
  if provider = [] ∨ model = [] then none
  else if ¬ input_per_1m.isFinite ∨ ¬ output_per_1m.isFinite then none
  else some { provider := provider, model := model,
              input_per_1m := input_per_1m, output_per_1m := output_per_1m }

/-- The arrangement of the specification's example: `Model`, `Provider`,
`Output $/1M`, `Input $/1M`. -/
def swappedColumns : Equiv.Perm (Fin 4) := Equiv.swap 0 1 * Equiv.swap 2 3

/-- Three rows by canonical column; the second has a non-numeric rate and the
third a blank output cell. -/
def exampleRows : List (Fin 4 → Str) :=
  [![ "OpenAI".toList, "gpt-5".toList, "1.25".toList, "10.00".toList],
   ![ "Acme".toList, "foo".toList, "N/A".toList, "2.00".toList],
   ![ "Acme".toList, " bar ".toList, "$0.625".toList, " ".toList]]

/-- The body of `loadPricingTSV` after the length check, for the header line
`h` and the data lines `R`. -/
def loadRows (h : Str) (R : List Str) : Except Str (List PricingRecord) :=
  let header := (splitTabs h).map trim
  let idxProvider := indexOfName header "Provider".toList
  let idxModel := indexOfName header "Model".toList
  let idxInput := indexOfName header "Input $/1M".toList
  let idxOutput := indexOfName header "Output $/1M".toList
  if idxProvider = -1 ∨ idxModel = -1 ∨ idxInput = -1 ∨ idxOutput = -1 then
    Except.error
      "pricing.tsv missing required headers. Must include: Provider, Model, Input $/1M, Output $/1M".toList
  else
    let rows := R.filterMap (parseRow idxProvider idxModel idxInput idxOutput)
    if rows.length = 0 then
      Except.error
        "No valid rows found. Check that Input $/1M and Output $/1M are numeric (like $1.25).".toList
    else Except.ok rows

/-- A row all of whose cells are blank. -/
def blankRow (cells : Fin 4 → Str) : Bool :=
  decide (∀ i : Fin 4, (cells i).all isJsSpace = true)

/-- The result of the loader on a dataset given by its rows: it does not
depend on the arrangement of the columns. -/
def loadDataset (rows : List (Fin 4 → Str)) : Except Str (List PricingRecord) :=
  if rows.all blankRow = true then
    Except.error "pricing.tsv looks empty. Paste your dataset including the header row.".toList
  else if (rows.filterMap recordOfCells).length = 0 then
    Except.error
      "No valid rows found. Check that Input $/1M and Output $/1M are numeric (like $1.25).".toList
  else Except.ok (rows.filterMap recordOfCells)

/-! ## Catalog order and search (`src/app.js`) -/

/-- The comparator of `sortModels`, app.js lines 91-94.  `localeCompare` is the
host's `String.prototype.localeCompare`. -/
def compareModels (localeCompare : Str → Str → Int) (a b : PricingRecord) : Int :=
  if a.provider ≠ b.provider then localeCompare a.provider b.provider
  else localeCompare a.model b.model

/-- `sortModels(models)`, app.js lines 90-95: a sorted copy of the argument.
`Array.prototype.sort` is stable; for a consistent comparator its result is the
stable sorted arrangement, which insertion sort computes. -/
def sortModels (localeCompare : Str → Str → Int) (models : List PricingRecord) :
    List PricingRecord :=
  models.insertionSort (fun a b => compareModels localeCompare a b ≤ 0)

/-- `hay.includes(q)`. -/
def includes (hay q : Str) : Bool := decide (q <:+: hay)

/-- `filterModels(query)`, app.js lines 97-105, on the catalog `ALL_MODELS`.
`toLowerCase` is the host's `String.prototype.toLowerCase`. -/
def filterModels (toLowerCase : Str → Str) (ALL_MODELS : List PricingRecord) (query : Str) :
    List PricingRecord :=
  let q := toLowerCase (trim query)
  if q = [] then ALL_MODELS
  else ALL_MODELS.filter (fun m =>
    let hay := toLowerCase (tpl [m.provider, " ".toList, m.model])
    includes hay q)

/-- The comparison `localeCompare` is a consistent comparator, as ECMAScript
requires of `String.prototype.localeCompare`: a string compares equal to
itself, the sign flips with the arguments, and the comparison is transitive.
Different strings may compare equal: canonically equivalent strings do. -/
def IsConsistentComparator (localeCompare : Str → Str → Int) : Prop :=
  (∀ a, localeCompare a a = 0)
  ∧ (∀ a b, localeCompare a b < 0 ↔ 0 < localeCompare b a)
  ∧ (∀ a b c, localeCompare a b ≤ 0 → localeCompare b c ≤ 0 → localeCompare a c ≤ 0)

/-- The order of the catalog: by provider under `localeCompare`, and by model
among providers that compare equal. -/
def catalogLe (localeCompare : Str → Str → Int) (a b : PricingRecord) : Prop :=
  localeCompare a.provider b.provider < 0
  ∨ (localeCompare a.provider b.provider = 0 ∧ localeCompare a.model b.model ≤ 0)

instance (localeCompare : Str → Str → Int) : DecidableRel (catalogLe localeCompare) :=
  fun a b => by unfold catalogLe; infer_instance

/-- No two different provider strings of the list compare equal under
`localeCompare`. -/
def ProvidersDistinct (localeCompare : Str → Str → Int) (models : List PricingRecord) : Prop :=
  ∀ a ∈ models, ∀ b ∈ models, localeCompare a.provider b.provider = 0 → a.provider = b.provider

instance (localeCompare : Str → Str → Int) (models : List PricingRecord) :
    Decidable (ProvidersDistinct localeCompare models) := by
  unfold ProvidersDistinct; infer_instance

/-- Comparison of strings by their code units. -/
def codeUnitCompare : Str → Str → Int
  | [], [] => 0
  | [], _ :: _ => -1
  | _ :: _, [] => 1
  | a :: as, b :: bs =>
    if a.toNat < b.toNat then -1 else if b.toNat < a.toNat then 1 else codeUnitCompare as bs

/-- Canonical composition of `e` followed by the combining acute accent U+0301
into U+00E9, the one canonical equivalence of the examples. -/
def composeAcute : Str → Str
  | [] => []
  | [c] => [c]
  | c :: d :: rest =>
    if c = 'e' ∧ d.toNat = 769 then Char.ofNat 233 :: composeAcute rest
    else c :: composeAcute (d :: rest)

/-- A comparison that, like `localeCompare`, returns 0 on the canonically
equivalent strings U+00E9 and `e` U+0301: by code units after composition. -/
def canonCompare (a b : Str) : Int := codeUnitCompare (composeAcute a) (composeAcute b)

/-! ## The page state machine (`src/app.js`) -/

/-- The functions of the host that the page calls. -/
structure Host where
  localeCompare : Str → Str → Int
  toLowerCase : Str → Str
  toLocaleString : Num → Str

/-- What the results element shows. -/
inductive Display where
  | placeholder
  | hint (title body : Str)
  | result (r : Rendered)
  deriving DecidableEq

/-- The state of the page: the module variables `ALL_MODELS`, `VIEW_MODELS`
(in `page`), `hasCalculatedOnce` and `calcTimer`, the elements, the content of
the results element, the pending debounce timeouts `(id, due time)`, the next
timeout id of the host and the host clock. -/
structure App where
  ALL_MODELS : List PricingRecord
  page : Page
  compareBlocks : Bool
  hasCalculatedOnce : Bool
  calcTimer : Option Nat
  timers : List (Nat × Nat)
  nextId : Nat
  now : Nat
  results : Display

/-- The results element after a run of `calculate`. -/
def showOutcome (d : Display) : Outcome → Display
  | Outcome.unchanged => d
  | Outcome.hint title body => Display.hint title body
  | Outcome.result r => Display.result r

/-- `setHint(title, body)`, app.js lines 157-168. -/
def setHint (s : App) (title body : Str) : App :=
  if s.page.resultsEl then { s with results := Display.hint title body } else s

/-- `markDirty(title, body)`, app.js lines 170-173. -/
def markDirty (s : App) (title body : Str) : App :=
  if ¬ s.hasCalculatedOnce then s else setHint s title body

/-- `clearTimeout(id)` on the pending debounce timeouts. -/
def clearTimeout (timers : List (Nat × Nat)) (id : Option Nat) : List (Nat × Nat) :=
  match id with
  | none => timers
  | some i => timers.filter (fun t => t.1 ≠ i)

/-- `scheduleAutoCalc()`, app.js lines 176-183: the timeout armed calls
`calculate(true)` after 650 ms. -/
def scheduleAutoCalc (s : App) : App :=
  if ¬ s.hasCalculatedOnce then s
  else
    { s with
      timers := clearTimeout s.timers s.calcTimer ++ [(s.nextId, s.now + 650)],
      calcTimer := some s.nextId,
      nextId := s.nextId + 1 }

/-- `populateAllDropdowns(models)`, app.js lines 186-192: `fillSelect` leaves
every select that exists without a selection. -/
def populateAllDropdowns (p : Page) (models : List PricingRecord) : Page :=
  { p with
    VIEW_MODELS := models,
    modelSelect := p.modelSelect.map (fun _ => []),
    modelSelectA := p.modelSelectA.map (fun _ => []),
    modelSelectB := p.modelSelectB.map (fun _ => []) }

/-- A change of one of the tracked inputs (`changeTriggers`, app.js lines
492-501) to a new value. -/
inductive PageEdit where
  | modelSelect (v : Str)
  | modelSelectA (v : Str)
  | modelSelectB (v : Str)
  | inputTokens (v : Str)
  | outputTokens (v : Str)
  | showAisa (checked : Bool)
  | aisaDiscount (v : Str)
  | annualMode (checked : Bool)

/-- The page after an edit, or `none` when the element does not exist (no
listener was attached). -/
def PageEdit.apply (p : Page) : PageEdit → Option Page
  | PageEdit.modelSelect v => p.modelSelect.map (fun _ => { p with modelSelect := some v })
  | PageEdit.modelSelectA v => p.modelSelectA.map (fun _ => { p with modelSelectA := some v })
  | PageEdit.modelSelectB v => p.modelSelectB.map (fun _ => { p with modelSelectB := some v })
  | PageEdit.inputTokens v => p.inputTokensEl.map (fun _ => { p with inputTokensEl := some v })
  | PageEdit.outputTokens v => p.outputTokensEl.map (fun _ => { p with outputTokensEl := some v })
  | PageEdit.showAisa b => p.showAisaEl.map (fun _ => { p with showAisaEl := some b })
  | PageEdit.aisaDiscount v => p.aisaDiscountEl.map (fun _ => { p with aisaDiscountEl := some v })
  | PageEdit.annualMode b => p.annualModeEl.map (fun _ => { p with annualModeEl := some b })

/-- The events of the page after start-up. -/
inductive Event where
  | searchInput (query : Str)
  | compareChange (checked : Bool)
  | change (edit : PageEdit)
  | preset7030
  | preset5050
  | calculateClick
  | timerFire (id : Nat)
  | advance (dt : Nat)
  | copy

/-- The `input` listener of the search box, app.js lines 453-472. -/
def onSearchInput (host : Host) (s : App) (query : Str) : App :=
  let filtered := sortModels host.localeCompare (filterModels host.toLowerCase s.ALL_MODELS query)
  let s1 : App := { s with page := populateAllDropdowns s.page filtered }
  let isCompare := s1.page.compareModeEl.getD false
  if ¬ isCompare ∧ filtered.length = 1 ∧ s1.page.modelSelect.isSome then
    let s2 : App := { s1 with page := { s1.page with modelSelect := some "0".toList } }
    scheduleAutoCalc
      (markDirty s2 "1 match found.".toList
        "Model selected. Click Calculate or keep typing.".toList)
  else if filtered.length = 0 then
    markDirty s1 "No matches found.".toList "Try a different keyword.".toList
  else
    markDirty s1 (tpl [natToStr filtered.length, " matches found.".toList])
      "Pick a model, then click Calculate.".toList

/-- The `change` listener of the compare-mode box, app.js lines 476-489. -/
def onCompareChange (s : App) (checked : Bool) : App :=
  if s.page.compareModeEl.isSome ∧ s.compareBlocks then
    let p : Page :=
      { s.page with
        compareModeEl := some checked,
        modelSelect := s.page.modelSelect.map (fun _ => []),
        modelSelectA := s.page.modelSelectA.map (fun _ => []),
        modelSelectB := s.page.modelSelectB.map (fun _ => []) }
    markDirty { s with page := p } "Mode changed.".toList
      "Pick your model(s), then calculate.".toList
  else s

/-- The listener of a tracked input, app.js lines 503-509. -/
def onChange (s : App) (edit : PageEdit) : App :=
  match edit.apply s.page with
  | none => s
  | some p =>
    scheduleAutoCalc
      (markDirty { s with page := p } "Updating…".toList
        "Results refresh automatically when you pause, or click Calculate.".toList)

/-- The `click` listener of a preset button, app.js lines 512-528, with the
two token values it assigns. -/
def onPreset (s : App) (inputValue outputValue : Str) : App :=
  let p : Page :=
    { s.page with
      inputTokensEl := s.page.inputTokensEl.map (fun _ => inputValue),
      outputTokensEl := s.page.outputTokensEl.map (fun _ => outputValue) }
  scheduleAutoCalc (markDirty { s with page := p } "Preset applied.".toList
    "Refreshing estimate…".toList)

/-- The `click` listener of the calculate button, app.js lines 531-546: the
timeout that ends the shimmer takes the next timeout id. -/
def onCalculateClick (host : Host) (s : App) : App :=
  let s1 : App := { s with hasCalculatedOnce := true }
  { s1 with
    results := showOutcome s1.results (calculate host.toLocaleString s1.page false),
    nextId := s1.nextId + 1 }

/-- The callback of a debounce timeout, app.js lines 180-182: it runs when the
timeout is pending and due, and calls `calculate(true)`. -/
def onTimerFire (host : Host) (s : App) (id : Nat) : App :=
  if s.timers.any (fun t => t.1 = id ∧ t.2 ≤ s.now) then
    { s with
      timers := s.timers.filter (fun t => t.1 ≠ id),
      results := showOutcome s.results (calculate host.toLocaleString s.page true) }
  else s

/-- The `click` listener of a copy button, app.js lines 549-589: with a result
displayed the copied text is not empty, and `copyAny` arms a timeout that
restores the label of the button; it takes the next timeout id. -/
def onCopy (s : App) : App :=
  match s.results with
  | Display.result _ => { s with nextId := s.nextId + 1 }
  | _ => s

/-- One event of the page. -/
def step (host : Host) (s : App) : Event → App
  | Event.searchInput query => onSearchInput host s query
  | Event.compareChange checked => onCompareChange s checked
  | Event.change edit => onChange s edit
  | Event.preset7030 => onPreset s "7000000".toList "3000000".toList
  | Event.preset5050 => onPreset s "5000000".toList "5000000".toList
  | Event.calculateClick => onCalculateClick host s
  | Event.timerFire id => onTimerFire host s id
  | Event.advance dt => { s with now := s.now + dt }
  | Event.copy => onCopy s

/-- The state after `init()`, app.js lines 592-609, when the load returned
`models`: the catalog is the sorted list, the view is the catalog, the results
element shows the placeholder. -/
def initApp (host : Host) (models : List PricingRecord) (page : Page) (compareBlocks : Bool)
    (now : Nat) : App :=
  { ALL_MODELS := sortModels host.localeCompare models,
    page := populateAllDropdowns page (sortModels host.localeCompare models),
    compareBlocks := compareBlocks,
    hasCalculatedOnce := false,
    calcTimer := none,
    timers := [],
    nextId := 0,
    now := now,
    results := Display.placeholder }

/-- The state after a sequence of events. -/
def run (host : Host) (s : App) (events : List Event) : App :=
  events.foldl (step host) s

/-! ## Vocabulary of the controller claims -/

/-- A select value that stands for a chosen option: it exists and is not the
empty string. -/
def chosen (v : Option Str) : Bool :=
  match v with
  | some x => decide (x ≠ [])
  | none => false

/-- The record that a select value resolves to in the view, if any. -/
def resolves (p : Page) (v : Option Str) : Option PricingRecord :=
  arrayAt p.VIEW_MODELS (parseNumber (v.getD []))

/-- The conditions under which `calculate` shows a validation hint. -/
def HintCondition (p : Page) : Prop :=
  p.VIEW_MODELS = []
  ∨ trim (p.inputTokensEl.getD []) = []
  ∨ trim (p.outputTokensEl.getD []) = []
  ∨ (p.compareModeEl.getD false = false ∧ chosen p.modelSelect = false)
  ∨ (p.compareModeEl.getD false = true
      ∧ (chosen p.modelSelectA = false ∨ chosen p.modelSelectB = false))
  ∨ (p.compareModeEl.getD false = false ∧ resolves p p.modelSelect = none)
  ∨ (p.compareModeEl.getD false = true
      ∧ (resolves p p.modelSelectA = none ∨ resolves p p.modelSelectB = none))

instance (p : Page) : Decidable (HintCondition p) := by
  unfold HintCondition; infer_instance

/-- A page with a one-record view, token fields filled and nothing selected. -/
def freshPage : Page :=
  { resultsEl := true,
    VIEW_MODELS := [⟨"OpenAI".toList, "gpt-5".toList, Num.fin (5 / 4), Num.fin 10⟩],
    inputTokensEl := some "1,000,000".toList, outputTokensEl := some "500,000".toList,
    showAisaEl := some false, aisaDiscountEl := some "20".toList,
    annualModeEl := some false, compareModeEl := some false,
    modelSelect := some [], modelSelectA := some [], modelSelectB := some [] }

/-- A host whose string comparison is by code units, whose lower-casing is
that of ASCII letters and whose default number format is `Number::toString`. -/
def asciiHost : Host :=
  { localeCompare := codeUnitCompare,
    toLowerCase := fun s => s.map Char.toLower,
    toLocaleString := numToString }

/-- A host like `asciiHost` whose string comparison honours the canonical
equivalence of U+00E9. -/
def canonHost : Host :=
  { localeCompare := canonCompare,
    toLowerCase := fun s => s.map Char.toLower,
    toLocaleString := numToString }

/-- A state that the page reaches from `init()` by a sequence of events. -/
def Reachable (host : Host) (s : App) : Prop :=
  ∃ models page compareBlocks now events,
    s = run host (initApp host models page compareBlocks now) events

/-- The bookkeeping of the debounce timeout: at most one timeout is pending,
a pending timeout carries the id held in `calcTimer`, every id handed out is
below the next id of the host, and nothing is pending before the first
calculation. -/
def TimerInv (s : App) : Prop :=
  s.timers.length ≤ 1
  ∧ (∀ t ∈ s.timers, s.calcTimer = some t.1)
  ∧ (∀ t ∈ s.timers, t.1 < s.nextId)
  ∧ (s.hasCalculatedOnce = false → s.timers = [])

/-- Every pending timeout was handed out at or after the id `k`. -/
def IdsFrom (k : Nat) (s : App) : Prop :=
  k ≤ s.nextId ∧ ∀ t ∈ s.timers, k ≤ t.1

/-- The state of the scenario page after `init()` with an empty catalog, a
click on the calculate button and a click on a preset: a debounce timeout is
pending. -/
def pendingState : App :=
  run asciiHost (initApp asciiHost [] gpt5AnnualPage true 0)
    [Event.calculateClick, Event.preset7030]

/-- Three loaded records, not in catalog order. -/
def exampleCatalog : List PricingRecord :=
  [⟨"OpenAI".toList, "gpt-5".toList, Num.fin (5 / 4), Num.fin 10⟩,
   ⟨"Anthropic".toList, "claude".toList, Num.fin 3, Num.fin 15⟩,
   ⟨"OpenAI".toList, "gpt-4o".toList, Num.fin (5 / 2), Num.fin 10⟩]

/-- Three loaded records whose providers are U+00E9, `e` U+0301 and U+00E9:
the first two providers are canonically equivalent and differ as strings. -/
def accentCatalog : List PricingRecord :=
  [⟨[Char.ofNat 233], "b".toList, Num.fin 1, Num.fin 2⟩,
   ⟨['e', Char.ofNat 769], "a".toList, Num.fin 1, Num.fin 2⟩,
   ⟨[Char.ofNat 233], "a".toList, Num.fin 1, Num.fin 2⟩]

/-! ## The comma formatter of the token fields (`src/app.js`) -/

/-- Digits, least significant first, with a comma after every third digit that
has a digit after it. -/
def groupRev : Str → Str
  | a :: b :: c :: d :: rest => a :: b :: c :: ',' :: groupRev (d :: rest)
  | ds => ds

/-- Digits grouped in threes from the right: `1234567` becomes `1,234,567`. -/
def groupThousands (ds : Str) : Str := (groupRev ds.reverse).reverse

/-- The fraction digits of `m` thousandths (`m < 1000`): three digits with the
trailing zeros removed. -/
def fractionDigits (m : Nat) : Str :=
  (List.replicate (3 - (natToStr m).length) '0' ++ natToStr m).rdropWhile (fun c => c = '0')

/-- The decimal that number formatting starts from: the shortest decimal that
rounds to the positive double `q`, that is `s × 10 ^ (n - k)` for the digits
`s` of `Number::toString`. -/
def shortestDecimal (q : ℚ) : ℚ :=
  let (k, s, n) := shortest q
  (s : ℚ) * pow10 (n - k)

/-- `Number.prototype.toLocaleString("en-US")` with the default options of
`Intl.NumberFormat`: the shortest decimal of the number in decimal style,
groups of three separated by commas, at most three fraction digits, rounded
half away from zero. -/
def toLocaleStringEnUS : Num → Str
  | Num.nan => "NaN".toList
  | Num.pinf => "∞".toList
  | Num.ninf => "-∞".toList
  | Num.fin q =>
    let d : ℚ := if q = 0 then 0 else shortestDecimal |q|
    let n : Nat := ⌊d * 1000 + 1 / 2⌋.toNat
    let ip := groupThousands (natToStr (n / 1000))
    let fp := fractionDigits (n % 1000)
    let body := if fp = [] then ip else ip ++ '.' :: fp
    if q < 0 then '-' :: body else body

/-- `formatWithCommas(value)`, app.js lines 47-51, on a string: `\d` matches
the ASCII digits. -/
def formatWithCommas (value : Str) : Str :=
  let digits := value.filter Char.isDigit
  if digits = [] then [] else toLocaleStringEnUS (parseNumber digits)

theorem bitLenAux_spec (fuel n : Nat) (h : n ≤ fuel) (hn : n ≠ 0) :
    2 ^ (bitLenAux fuel n - 1) ≤ n ∧ n < 2 ^ bitLenAux fuel n := by
  induction fuel generalizing n with
  | zero => omega
  | succ f ih =>
    simp only [bitLenAux, hn, if_false]
    by_cases h2 : n / 2 = 0
    · have : n = 1 := by omega
      subst this
      cases f <;> simp [bitLenAux]
    · have hle : n / 2 ≤ f := by omega
      obtain ⟨h1, h3⟩ := ih (n / 2) hle h2
      have hpos : 1 ≤ bitLenAux f (n / 2) := by
        rcases Nat.eq_zero_or_pos (bitLenAux f (n / 2)) with h0 | h0
        · rw [h0] at h3; omega
        · exact h0
      constructor
      · simp only [Nat.add_sub_cancel]
        obtain ⟨k, hk⟩ : ∃ k, bitLenAux f (n / 2) = k + 1 := ⟨_, (Nat.succ_pred_eq_of_pos hpos).symm⟩
        rw [hk] at h1 ⊢
        simp only [Nat.add_sub_cancel] at h1
        rw [pow_succ]; omega
      · rw [pow_succ]; omega

theorem bitLen_spec (n : Nat) (hn : n ≠ 0) :
    2 ^ (bitLen n - 1) ≤ n ∧ n < 2 ^ bitLen n :=
  bitLenAux_spec n n le_rfl hn

theorem bitLen_pos (n : Nat) (hn : n ≠ 0) : 1 ≤ bitLen n := by
  rcases Nat.eq_zero_or_pos (bitLen n) with h0 | h0
  · have := (bitLen_spec n hn).2; rw [h0] at this; omega
  · exact h0

theorem pow2_eq (e : Int) : pow2 e = (2 : ℚ) ^ e := by
  unfold pow2
  split
  · next h =>
    obtain ⟨n, rfl⟩ := Int.eq_ofNat_of_zero_le h
    simp
  · next h =>
    have h' : 0 ≤ -e := by omega
    obtain ⟨n, hn⟩ := Int.eq_ofNat_of_zero_le h'
    have he : e = -(n : Int) := by omega
    subst he
    simp

theorem pow2_pos (e : Int) : 0 < pow2 e := by
  rw [pow2_eq]; positivity

theorem pow2_add (a b : Int) : pow2 (a + b) = pow2 a * pow2 b := by
  simp only [pow2_eq]; exact zpow_add₀ (by norm_num) a b

theorem pow2_le_pow2 {a b : Int} (h : a ≤ b) : pow2 a ≤ pow2 b := by
  simp only [pow2_eq]; exact zpow_le_zpow_right₀ (by norm_num) h

theorem pow2_lt_pow2_iff {a b : Int} : pow2 a < pow2 b ↔ a < b := by
  simp only [pow2_eq]; exact zpow_lt_zpow_iff_right₀ (by norm_num)

theorem pow2_natCast (n : Nat) : pow2 (n : Int) = ((2 ^ n : Nat) : ℚ) := by
  simp [pow2]

theorem ilog2_spec (q : ℚ) (hq : 0 < q) :
    pow2 (ilog2 q) ≤ q ∧ q < pow2 (ilog2 q + 1) := by
  have hnum : 0 < q.num := Rat.num_pos.mpr hq
  have hn0 : q.num.natAbs ≠ 0 := by omega
  have hd0 : q.den ≠ 0 := q.den_nz
  obtain ⟨n1, n2⟩ := bitLen_spec _ hn0
  obtain ⟨d1, d2⟩ := bitLen_spec _ hd0
  have hbn := bitLen_pos _ hn0
  have hbd := bitLen_pos _ hd0
  have hqe : q = (q.num.natAbs : ℚ) / (q.den : ℚ) := by
    have h1 : (q.num.natAbs : ℚ) = (q.num : ℚ) := by
      have h2 : (q.num.natAbs : Int) = q.num := Int.natAbs_of_nonneg hnum.le
      calc (q.num.natAbs : ℚ) = (((q.num.natAbs : Nat) : Int) : ℚ) := (Int.cast_natCast _).symm
        _ = (q.num : ℚ) := by rw [h2]
    rw [h1]; exact (Rat.num_div_den q).symm
  have hdpos : (0 : ℚ) < (q.den : ℚ) := by exact_mod_cast Nat.pos_of_ne_zero hd0
  set a := bitLen q.num.natAbs
  set b := bitLen q.den
  set n := q.num.natAbs
  set d := q.den
  have N1 : pow2 ((a : Int) - 1) ≤ (n : ℚ) := by
    have : ((a : Int) - 1) = ((a - 1 : Nat) : Int) := by omega
    rw [this, pow2_natCast]; exact_mod_cast n1
  have N2 : (n : ℚ) < pow2 (a : Int) := by
    rw [pow2_natCast]; exact_mod_cast n2
  have D1 : pow2 ((b : Int) - 1) ≤ (d : ℚ) := by
    have : ((b : Int) - 1) = ((b - 1 : Nat) : Int) := by omega
    rw [this, pow2_natCast]; exact_mod_cast d1
  have D2 : (d : ℚ) < pow2 (b : Int) := by
    rw [pow2_natCast]; exact_mod_cast d2
  -- q < pow2 (a - b + 1), pow2 (a - b - 1) < q
  have U : q < pow2 ((a : Int) - b + 1) := by
    rw [hqe, div_lt_iff₀ hdpos]
    calc (n : ℚ) < pow2 a := N2
      _ = pow2 ((a : Int) - b + 1) * pow2 ((b : Int) - 1) := by
          rw [← pow2_add]; congr 1; ring
      _ ≤ pow2 ((a : Int) - b + 1) * d := by
          exact mul_le_mul_of_nonneg_left D1 (pow2_pos _).le
  have L : pow2 ((a : Int) - b - 1) < q := by
    rw [hqe, lt_div_iff₀ hdpos]
    calc pow2 ((a : Int) - b - 1) * d < pow2 ((a : Int) - b - 1) * pow2 b :=
          mul_lt_mul_of_pos_left D2 (pow2_pos _)
      _ = pow2 ((a : Int) - 1) := by rw [← pow2_add]; congr 1; ring
      _ ≤ n := N1
  unfold ilog2
  simp only []
  split
  · next h => exact ⟨h, U⟩
  · next h =>
    refine ⟨L.le, ?_⟩
    have : (a : Int) - b - 1 + 1 = a - b := by ring
    rw [this]; exact lt_of_not_le h

theorem ilog2_mono {q r : ℚ} (hq : 0 < q) (h : q ≤ r) : ilog2 q ≤ ilog2 r := by
  have h1 := (ilog2_spec q hq).1
  have h2 := (ilog2_spec r (lt_of_lt_of_le hq h)).2
  have : pow2 (ilog2 q) < pow2 (ilog2 r + 1) := lt_of_le_of_lt (h1.trans h) h2
  have := pow2_lt_pow2_iff.mp this
  omega


theorem roundHalfEven_cases (q : ℚ) :
    roundHalfEven q = ⌊q⌋ ∨ roundHalfEven q = ⌊q⌋ + 1 := by
  unfold roundHalfEven
  simp only []
  split
  · exact Or.inl rfl
  · split
    · exact Or.inr rfl
    · split
      · exact Or.inl rfl
      · exact Or.inr rfl

theorem roundHalfEven_intCast (n : Int) : roundHalfEven (n : ℚ) = n := by
  unfold roundHalfEven
  simp

theorem roundHalfEven_mono {q r : ℚ} (h : q ≤ r) : roundHalfEven q ≤ roundHalfEven r := by
  have hf : ⌊q⌋ ≤ ⌊r⌋ := Int.floor_le_floor h
  rcases lt_or_eq_of_le hf with hlt | heq
  · rcases roundHalfEven_cases q with h1 | h1 <;> rcases roundHalfEven_cases r with h2 | h2 <;>
      omega
  · have hfr : (q - (⌊q⌋ : ℚ)) ≤ (r - (⌊r⌋ : ℚ)) := by rw [heq]; linarith
    unfold roundHalfEven
    simp only []
    rw [heq] at hfr ⊢
    by_cases c1 : q - (⌊r⌋ : ℚ) < 1 / 2
    · rw [if_pos c1]
      split
      · exact le_rfl
      · split
        · omega
        · split
          · exact le_rfl
          · omega
    · rw [if_neg c1]
      have c1' : ¬ (r - (⌊r⌋ : ℚ) < 1 / 2) := by
        intro hc; exact c1 (lt_of_le_of_lt hfr hc)
      rw [if_neg c1']
      by_cases c2 : 1 / 2 < q - (⌊r⌋ : ℚ)
      · rw [if_pos c2, if_pos (lt_of_lt_of_le c2 hfr)]
      · rw [if_neg c2]
        by_cases c3 : ⌊r⌋ % 2 = 0
        · rw [if_pos c3]
          split
          · omega
          · exact le_rfl
        · rw [if_neg c3]
          split
          · exact le_rfl
          · exact le_rfl

theorem roundHalfEven_nonneg {q : ℚ} (h : 0 ≤ q) : 0 ≤ roundHalfEven q := by
  have := roundHalfEven_mono h
  rwa [show (0 : ℚ) = ((0 : Int) : ℚ) by simp, roundHalfEven_intCast] at this

theorem ulpExp_mono {q r : ℚ} (hq : 0 < q) (h : q ≤ r) : ulpExp q ≤ ulpExp r := by
  unfold ulpExp
  have := ilog2_mono hq h
  omega

theorem pow2_53_int : pow2 53 = ((9007199254740992 : Int) : ℚ) := by
  rw [pow2_eq]; norm_num

theorem pow2_52_int : pow2 52 = ((4503599627370496 : Int) : ℚ) := by
  rw [pow2_eq]; norm_num

theorem scaled_lt (q : ℚ) (hq : 0 < q) : q / pow2 (ulpExp q) < pow2 53 := by
  rw [div_lt_iff₀ (pow2_pos _), ← pow2_add]
  have h := (ilog2_spec q hq).2
  refine lt_of_lt_of_le h (pow2_le_pow2 ?_)
  unfold ulpExp; omega

theorem rndAbs_le_top (q : ℚ) (hq : 0 < q) : rndAbs q ≤ pow2 (ulpExp q + 53) := by
  unfold rndAbs
  have h1 : roundHalfEven (q / pow2 (ulpExp q)) ≤ 9007199254740992 := by
    have := roundHalfEven_mono (scaled_lt q hq).le
    rwa [pow2_53_int, roundHalfEven_intCast] at this
  have h2 : ((roundHalfEven (q / pow2 (ulpExp q)) : Int) : ℚ) ≤ pow2 53 := by
    rw [pow2_53_int]; exact_mod_cast h1
  calc (roundHalfEven (q / pow2 (ulpExp q)) : ℚ) * pow2 (ulpExp q)
      ≤ pow2 53 * pow2 (ulpExp q) := mul_le_mul_of_nonneg_right h2 (pow2_pos _).le
    _ = pow2 (ulpExp q + 53) := by rw [← pow2_add]; congr 1; ring

theorem rndAbs_ge_bot (q : ℚ) (hq : 0 < q) (he : -1074 < ulpExp q) :
    pow2 (ulpExp q + 52) ≤ rndAbs q := by
  have hu : ulpExp q = ilog2 q - 52 := by unfold ulpExp at he ⊢; omega
  have hs : pow2 52 ≤ q / pow2 (ulpExp q) := by
    rw [le_div_iff₀ (pow2_pos _), ← pow2_add]
    have h := (ilog2_spec q hq).1
    refine le_trans (pow2_le_pow2 ?_) h
    omega
  unfold rndAbs
  have h1 : 4503599627370496 ≤ roundHalfEven (q / pow2 (ulpExp q)) := by
    have := roundHalfEven_mono hs
    rwa [pow2_52_int, roundHalfEven_intCast] at this
  have h2 : pow2 52 ≤ ((roundHalfEven (q / pow2 (ulpExp q)) : Int) : ℚ) := by
    rw [pow2_52_int]; exact_mod_cast h1
  calc pow2 (ulpExp q + 52) = pow2 52 * pow2 (ulpExp q) := by
        rw [← pow2_add]; congr 1; ring
    _ ≤ (roundHalfEven (q / pow2 (ulpExp q)) : ℚ) * pow2 (ulpExp q) :=
        mul_le_mul_of_nonneg_right h2 (pow2_pos _).le

theorem rndAbs_mono {q r : ℚ} (hq : 0 < q) (h : q ≤ r) : rndAbs q ≤ rndAbs r := by
  have hr : 0 < r := lt_of_lt_of_le hq h
  rcases lt_or_eq_of_le (ulpExp_mono hq h) with hlt | heq
  · have he : -1074 < ulpExp r := by
      have : -1074 ≤ ulpExp q := by unfold ulpExp; omega
      omega
    calc rndAbs q ≤ pow2 (ulpExp q + 53) := rndAbs_le_top q hq
      _ ≤ pow2 (ulpExp r + 52) := pow2_le_pow2 (by omega)
      _ ≤ rndAbs r := rndAbs_ge_bot r hr he
  · unfold rndAbs
    rw [heq]
    apply mul_le_mul_of_nonneg_right _ (pow2_pos _).le
    have : q / pow2 (ulpExp r) ≤ r / pow2 (ulpExp r) :=
      div_le_div_of_nonneg_right h (pow2_pos _).le
    exact_mod_cast roundHalfEven_mono this

theorem rndAbs_nonneg (q : ℚ) (hq : 0 < q) : 0 ≤ rndAbs q := by
  unfold rndAbs
  apply mul_nonneg _ (pow2_pos _).le
  have : 0 ≤ roundHalfEven (q / pow2 (ulpExp q)) :=
    roundHalfEven_nonneg (div_nonneg hq.le (pow2_pos _).le)
  exact_mod_cast this

/-- A positive double is a fixed point of the rounding and lies below `2 ^ 1024`. -/
theorem IsDouble.rndAbs_eq {t : ℚ} (ht : IsDouble t) (hpos : 0 < t) :
    rndAbs t = t ∧ t < pow2 1024 := by
  unfold IsDouble rnd at ht
  rw [if_neg hpos.ne'] at ht
  simp only [abs_of_pos hpos, if_pos hpos] at ht
  by_cases c : pow2 1024 ≤ rndAbs t
  · rw [if_pos c] at ht; cases ht
  · rw [if_neg c] at ht
    have : rndAbs t = t := by injection ht
    exact ⟨this, by rw [this] at c; exact lt_of_not_le c⟩

/-- Rounding a non-negative exact result that does not exceed a double `t`
gives a finite non-negative number that does not exceed `t`. -/
theorem rnd_le_of_le {q t : ℚ} (h0 : 0 ≤ q) (h : q ≤ t) (ht : IsDouble t) :
    ∃ r, rnd q = Num.fin r ∧ 0 ≤ r ∧ r ≤ t := by
  rcases eq_or_lt_of_le h0 with hz | hpos
  · subst hz; exact ⟨0, by simp [rnd], le_rfl, h⟩
  · have htpos : 0 < t := lt_of_lt_of_le hpos h
    obtain ⟨e1, e2⟩ := ht.rndAbs_eq htpos
    have hm : rndAbs q ≤ t := by
      have := rndAbs_mono hpos h
      rwa [e1] at this
    refine ⟨rndAbs q, ?_, rndAbs_nonneg q hpos, hm⟩
    unfold rnd
    rw [if_neg hpos.ne']
    simp only [abs_of_pos hpos, if_pos hpos]
    rw [if_neg (not_le.mpr (lt_of_le_of_lt hm e2))]

/-- Rounding a non-negative exact result never gives a negative number or `NaN`. -/
theorem rnd_nonneg {q : ℚ} (h0 : 0 ≤ q) :
    rnd q = Num.pinf ∨ ∃ r, rnd q = Num.fin r ∧ 0 ≤ r := by
  rcases eq_or_lt_of_le h0 with hz | hpos
  · subst hz; exact Or.inr ⟨0, by simp [rnd], le_rfl⟩
  · unfold rnd
    rw [if_neg hpos.ne']
    simp only [abs_of_pos hpos, if_pos hpos]
    by_cases c : pow2 1024 ≤ rndAbs q
    · rw [if_pos c]; exact Or.inl rfl
    · rw [if_neg c]; exact Or.inr ⟨_, rfl, rndAbs_nonneg q hpos⟩


theorem Num.IsNonnegDouble.exists {x : Num} (h : x.IsNonnegDouble) :
    ∃ q, x = Num.fin q ∧ 0 ≤ q ∧ IsDouble q := by
  cases x with
  | fin q => exact ⟨q, rfl, h.1, h.2⟩
  | nan => exact absurd h (by simp [Num.IsNonnegDouble])
  | pinf => exact absurd h (by simp [Num.IsNonnegDouble])
  | ninf => exact absurd h (by simp [Num.IsNonnegDouble])

theorem ofNat_million : Num.ofNat 1000000 = Num.fin 1000000 := by decide!

/-- The cost of a finite non-negative token count at a finite non-negative
rate is `+Infinity` or a finite non-negative number. -/
theorem cost_nonneg (t rate : ℚ) (ht : 0 ≤ t) (hd : IsDouble t) (hr : 0 ≤ rate) :
    Num.ge (Num.mul (Num.div (Num.fin t) (Num.ofNat 1000000)) (Num.fin rate)) (Num.fin 0)
      = true := by
  rw [ofNat_million]
  have hdiv : Num.div (Num.fin t) (Num.fin 1000000) = rnd (t / 1000000) := by
    simp [Num.div]
  rw [hdiv]
  have hle : t / 1000000 ≤ t := by
    rw [div_le_iff₀ (by norm_num)]; nlinarith
  obtain ⟨a, ha, ha0, _⟩ := rnd_le_of_le (div_nonneg ht (by norm_num)) hle hd
  rw [ha]
  have hmul : Num.mul (Num.fin a) (Num.fin rate) = rnd (a * rate) := rfl
  rw [hmul]
  rcases rnd_nonneg (mul_nonneg ha0 hr) with h | ⟨r, h, hr0⟩
  · rw [h]; rfl
  · rw [h]; simp [Num.ge, hr0]

/-- C1: `computeCost` returns `inputCost = inputTokens / 1,000,000 * input rate`,
`outputCost = outputTokens / 1,000,000 * output rate` and
`total = inputCost + outputCost`, each with the double arithmetic of the source
and for every record and token counts; with finite non-negative token counts and
rates both costs are `>= 0`; rates 1.25 and 10.00 with 1,000,000 and 500,000
tokens give 1.25, 5.00 and 6.25. -/
theorem computeCost_spec (modelRow : PricingRecord) (inputTokens outputTokens : Num) :
    (computeCost modelRow inputTokens outputTokens).inputCost
        = Num.mul (Num.div inputTokens (Num.ofNat 1000000)) modelRow.input_per_1m
    ∧ (computeCost modelRow inputTokens outputTokens).outputCost
        = Num.mul (Num.div outputTokens (Num.ofNat 1000000)) modelRow.output_per_1m
    ∧ (computeCost modelRow inputTokens outputTokens).total
        = Num.add (computeCost modelRow inputTokens outputTokens).inputCost
            (computeCost modelRow inputTokens outputTokens).outputCost
    ∧ (inputTokens.IsNonnegDouble → outputTokens.IsNonnegDouble →
        modelRow.input_per_1m.IsNonnegDouble → modelRow.output_per_1m.IsNonnegDouble →
        Num.ge (computeCost modelRow inputTokens outputTokens).inputCost (Num.fin 0) = true
        ∧ Num.ge (computeCost modelRow inputTokens outputTokens).outputCost (Num.fin 0) = true)
    ∧ computeCost { modelRow with input_per_1m := Num.fin (5 / 4), output_per_1m := Num.fin 10 }
          (Num.fin 1000000) (Num.fin 500000)
        = { inputCost := Num.fin (5 / 4), outputCost := Num.fin 5, total := Num.fin (25 / 4) } := by
  refine ⟨rfl, rfl, rfl, ?_, ?_⟩
  · intro hi ho hri hro
    obtain ⟨ti, rfl, hi0, hid⟩ := hi.exists
    obtain ⟨tout, rfl, ho0, hod⟩ := ho.exists
    obtain ⟨ri, hri', hri0, _⟩ := hri.exists
    obtain ⟨ro, hro', hro0, _⟩ := hro.exists
    simp only [computeCost, hri', hro']
    exact ⟨cost_nonneg _ _ hi0 hid hri0, cost_nonneg _ _ ho0 hod hro0⟩
  · have h1 : Num.mul (Num.div (Num.fin 1000000) (Num.ofNat 1000000)) (Num.fin (5 / 4))
        = Num.fin (5 / 4) := by decide!
    have h2 : Num.mul (Num.div (Num.fin 500000) (Num.ofNat 1000000)) (Num.fin 10)
        = Num.fin 5 := by decide!
    have h3 : Num.add (Num.fin (5 / 4)) (Num.fin 5) = Num.fin (25 / 4) := by decide!
    simp only [computeCost, h1, h2, h3]

/-- C1 at a concrete record: 7,000,000 and 3,000,000 tokens at rates 0.1 and 0.6. -/
theorem computeCost_spec_witness :
    Num.ge (computeCost ⟨"OpenAI".toList, "gpt-5".toList, rnd (1 / 10), rnd (6 / 10)⟩
        (Num.fin 7000000) (Num.fin 3000000)).inputCost (Num.fin 0) = true
    ∧ Num.ge (computeCost ⟨"OpenAI".toList, "gpt-5".toList, rnd (1 / 10), rnd (6 / 10)⟩
        (Num.fin 7000000) (Num.fin 3000000)).outputCost (Num.fin 0) = true :=
  (computeCost_spec ⟨"OpenAI".toList, "gpt-5".toList, rnd (1 / 10), rnd (6 / 10)⟩
    (Num.fin 7000000) (Num.fin 3000000)).2.2.2.1
    (by decide!) (by decide!) (by decide!) (by decide!)


/-! ### Results of the rounding are doubles -/

theorem ilog2_lt_of_lt {r : ℚ} {k : Int} (hr : 0 < r) (h : r < pow2 k) : ilog2 r < k := by
  have h1 := (ilog2_spec r hr).1
  exact pow2_lt_pow2_iff.mp (lt_of_le_of_lt h1 h)

theorem le_ilog2_of_le {r : ℚ} {k : Int} (hr : 0 < r) (h : pow2 k ≤ r) : k ≤ ilog2 r := by
  have h2 := (ilog2_spec r hr).2
  have := pow2_lt_pow2_iff.mp (lt_of_le_of_lt h h2)
  omega

theorem pow2_nonneg_int {e : Int} (he : 0 ≤ e) : pow2 e = (((2 : Int) ^ e.toNat : Int) : ℚ) := by
  unfold pow2
  rw [if_pos he]
  push_cast
  rfl

theorem ulpExp_ge (q : ℚ) : -1074 ≤ ulpExp q := by
  unfold ulpExp; omega

/-- A positive multiple `m * 2 ^ e` of a unit in the last place, with at most
53 significant bits, is a fixed point of the rounding. -/
theorem rndAbs_grid (m : Int) (e : Int) (hm : 0 < m) (hm53 : m ≤ 9007199254740992)
    (he : -1074 ≤ e) : rndAbs ((m : ℚ) * pow2 e) = (m : ℚ) * pow2 e := by
  have hmq : (0 : ℚ) < (m : ℚ) := by exact_mod_cast hm
  have hr : 0 < (m : ℚ) * pow2 e := mul_pos hmq (pow2_pos e)
  rcases lt_or_eq_of_le hm53 with hlt | heq
  · -- fewer than 54 bits: the exponent of the value is at most `e`
    have hub : (m : ℚ) * pow2 e < pow2 (e + 53) := by
      rw [add_comm, pow2_add, pow2_53_int]
      apply mul_lt_mul_of_pos_right _ (pow2_pos e)
      exact_mod_cast hlt
    have h1 := ilog2_lt_of_lt hr hub
    have hle : ulpExp ((m : ℚ) * pow2 e) ≤ e := by unfold ulpExp; omega
    set e' := ulpExp ((m : ℚ) * pow2 e) with he'
    have hsplit : pow2 e = pow2 (e - e') * pow2 e' := by rw [← pow2_add]; congr 1; ring
    have hint : (m : ℚ) * pow2 e / pow2 e' = ((m * (2 : Int) ^ (e - e').toNat : Int) : ℚ) := by
      rw [hsplit, ← mul_assoc, mul_div_assoc, div_self (pow2_pos e').ne', mul_one,
        pow2_nonneg_int (by omega)]
      push_cast; rfl
    unfold rndAbs
    rw [← he', hint, roundHalfEven_intCast, ← hint]
    field_simp [(pow2_pos e').ne']
  · -- exactly `2 ^ 53`: the value is `2 ^ (e + 53)`, one binade up
    subst heq
    have hval : ((9007199254740992 : Int) : ℚ) * pow2 e = pow2 (e + 53) := by
      rw [add_comm, pow2_add, pow2_53_int]
    rw [hval]
    have hr' : 0 < pow2 (e + 53) := pow2_pos _
    have h1 : ilog2 (pow2 (e + 53)) < e + 54 :=
      ilog2_lt_of_lt hr' (pow2_lt_pow2_iff.mpr (by omega))
    have h2 : e + 53 ≤ ilog2 (pow2 (e + 53)) := le_ilog2_of_le hr' le_rfl
    have hu : ulpExp (pow2 (e + 53)) = e + 1 := by unfold ulpExp; omega
    have hint : pow2 (e + 53) / pow2 (e + 1) = ((4503599627370496 : Int) : ℚ) := by
      rw [div_eq_iff (pow2_pos _).ne', ← pow2_52_int, ← pow2_add]; congr 1; ring
    unfold rndAbs
    rw [hu, hint, roundHalfEven_intCast, ← pow2_52_int, ← pow2_add]
    congr 1; ring

theorem roundHalfEven_scaled_le (q : ℚ) (hq : 0 < q) :
    roundHalfEven (q / pow2 (ulpExp q)) ≤ 9007199254740992 := by
  have := roundHalfEven_mono (scaled_lt q hq).le
  rwa [pow2_53_int, roundHalfEven_intCast] at this

/-- Rounding is idempotent on positive values. -/
theorem rndAbs_idem (q : ℚ) (hq : 0 < q) (hpos : 0 < rndAbs q) :
    rndAbs (rndAbs q) = rndAbs q := by
  have hm0 : 0 ≤ roundHalfEven (q / pow2 (ulpExp q)) :=
    roundHalfEven_nonneg (div_nonneg hq.le (pow2_pos _).le)
  have hm : 0 < roundHalfEven (q / pow2 (ulpExp q)) := by
    rcases lt_or_eq_of_le hm0 with h | h
    · exact h
    · exfalso
      unfold rndAbs at hpos
      rw [← h] at hpos
      simp at hpos
  show rndAbs ((roundHalfEven (q / pow2 (ulpExp q)) : ℚ) * pow2 (ulpExp q)) = _
  exact rndAbs_grid _ _ hm (roundHalfEven_scaled_le q hq) (ulpExp_ge q)

theorem isDouble_zero : IsDouble 0 := by
  unfold IsDouble rnd; simp

theorem isDouble_neg {q : ℚ} (h : IsDouble q) : IsDouble (-q) := by
  unfold IsDouble rnd at h ⊢
  by_cases hz : q = 0
  · subst hz; simp
  · have hnz : -q ≠ 0 := neg_ne_zero.mpr hz
    rw [if_neg hz] at h
    rw [if_neg hnz]
    simp only [abs_neg] at h ⊢
    by_cases c : pow2 1024 ≤ rndAbs |q|
    · rw [if_pos c] at h; split at h <;> cases h
    · rw [if_neg c] at h ⊢
      rcases lt_or_gt_of_ne hz with hneg | hpos
      · have h1 : ¬ (0 < q) := not_lt.mpr hneg.le
        have h2 : 0 < -q := neg_pos.mpr hneg
        rw [if_neg h1] at h
        rw [if_pos h2]
        have : -rndAbs |q| = q := by injection h
        congr 1; linarith
      · have h2 : ¬ (0 < -q) := by simp [hpos.le]
        rw [if_pos hpos] at h
        rw [if_neg h2]
        have : rndAbs |q| = q := by injection h
        rw [this]

/-- Every result of the rounding is a double. -/
theorem rnd_wf (q : ℚ) : (rnd q).WF := by
  by_cases hz : q = 0
  · subst hz
    have : rnd 0 = Num.fin 0 := by simp [rnd]
    rw [this]; exact isDouble_zero
  · have habs : 0 < |q| := abs_pos.mpr hz
    by_cases c : pow2 1024 ≤ rndAbs |q|
    · have : rnd q = Num.pinf ∨ rnd q = Num.ninf := by
        unfold rnd; rw [if_neg hz]; simp only [if_pos c]
        split
        · exact Or.inl rfl
        · exact Or.inr rfl
      rcases this with h | h <;> rw [h] <;> trivial
    · -- the positive value is a double, and so is its negation
      have hposd : IsDouble (rndAbs |q|) := by
        rcases eq_or_lt_of_le (rndAbs_nonneg _ habs) with h0 | hpos
        · rw [← h0]; exact isDouble_zero
        · unfold IsDouble rnd
          rw [if_neg hpos.ne']
          simp only [abs_of_pos hpos, if_pos hpos, rndAbs_idem _ habs hpos, if_neg c]
      have : rnd q = Num.fin (rndAbs |q|) ∨ rnd q = Num.fin (-rndAbs |q|) := by
        unfold rnd; rw [if_neg hz]; simp only [if_neg c]
        split
        · exact Or.inl rfl
        · exact Or.inr rfl
      rcases this with h | h <;> rw [h]
      · exact hposd
      · exact isDouble_neg hposd

theorem Num.mul_wf (x y : Num) : (Num.mul x y).WF := by
  cases x <;> cases y <;> simp only [Num.mul, Num.infTimes] <;>
    first
      | trivial
      | exact rnd_wf _
      | (split <;> [trivial; (split <;> trivial)])

theorem Num.add_wf (x y : Num) : (Num.add x y).WF := by
  cases x <;> cases y <;> simp only [Num.add] <;>
    first
      | trivial
      | exact rnd_wf _

theorem Num.mul_one_of_wf (x : Num) (h : x.WF) : Num.mul x (Num.ofNat 1) = x := by
  have h1 : Num.ofNat 1 = Num.fin 1 := by decide!
  rw [h1]
  cases x with
  | nan => rfl
  | pinf => simp [Num.mul, Num.infTimes]
  | ninf => simp [Num.mul, Num.infTimes]
  | fin q =>
    show rnd (q * 1) = Num.fin q
    rw [mul_one]; exact h

/-! ### C2: scaling in `calculate` -/

theorem computeCost_wf (r : PricingRecord) (i o : Num) :
    (computeCost r i o).inputCost.WF ∧ (computeCost r i o).outputCost.WF
      ∧ (computeCost r i o).total.WF :=
  ⟨Num.mul_wf _ _, Num.mul_wf _ _, Num.add_wf _ _⟩

theorem scaleCosts_one (r : PricingRecord) (i o : Num) :
    scaleCosts (computeCost r i o) (Num.ofNat 1) = computeCost r i o := by
  obtain ⟨h1, h2, h3⟩ := computeCost_wf r i o
  unfold scaleCosts
  rw [Num.mul_one_of_wf _ h1, Num.mul_one_of_wf _ h2, Num.mul_one_of_wf _ h3]

/-- The formatter call of `calculate` carries `scaleCosts` of a fresh
`computeCost`, with the factor chosen by the annual flag. -/
theorem calculateStep_call (p : Page) (c : FormatterCall) (h : calculateStep p = Step.call c) :
    (∃ sel sa pct, c = FormatterCall.single sel (sanitizeNumber (trim (p.inputTokensEl.getD [])))
        (sanitizeNumber (trim (p.outputTokensEl.getD [])))
        (scaleCosts (computeCost sel (sanitizeNumber (trim (p.inputTokensEl.getD [])))
            (sanitizeNumber (trim (p.outputTokensEl.getD []))))
          (if p.annualModeEl.getD false then Num.ofNat 12 else Num.ofNat 1))
        sa pct (p.annualModeEl.getD false))
    ∨ (∃ a b, c = FormatterCall.compare a b (sanitizeNumber (trim (p.inputTokensEl.getD [])))
        (sanitizeNumber (trim (p.outputTokensEl.getD [])))
        (scaleCosts (computeCost a (sanitizeNumber (trim (p.inputTokensEl.getD [])))
            (sanitizeNumber (trim (p.outputTokensEl.getD []))))
          (if p.annualModeEl.getD false then Num.ofNat 12 else Num.ofNat 1))
        (scaleCosts (computeCost b (sanitizeNumber (trim (p.inputTokensEl.getD [])))
            (sanitizeNumber (trim (p.outputTokensEl.getD []))))
          (if p.annualModeEl.getD false then Num.ofNat 12 else Num.ofNat 1))
        (p.annualModeEl.getD false)) := by
  unfold calculateStep at h
  simp only [] at h
  split at h
  · cases h
  split at h
  · cases h
  split at h
  · cases h
  split at h
  · split at h
    · cases h
    · split at h
      · cases h
      · split at h
        · cases h
        · injection h with h
          exact Or.inl ⟨_, _, _, h.symm⟩
  · split at h
    · split at h
      · cases h
      · split at h
        · injection h with h
          exact Or.inr ⟨_, _, h.symm⟩
        · cases h
    · cases h

/-- C2 (as stated) fails: in annual mode with rates 0.1 and 0.6 and 1,000,000 /
500,000 tokens, the breakdown handed to the formatter has total
4.800000000000001 but inputCost + outputCost = 4.8. -/
theorem calculate_annual_total_counterexample :
    calculateStep annualPage =
        Step.call (FormatterCall.single
          ⟨"A".toList, "m".toList, rnd (1 / 10), rnd (6 / 10)⟩ (Num.fin 1000000) (Num.fin 500000)
          { inputCost := Num.fin (1351079888211149 / 1125899906842624),
            outputCost := Num.fin (2026619832316723 / 562949953421312),
            total := Num.fin (1351079888211149 / 281474976710656) }
          false (Num.fin 20) true)
    ∧ Num.add (Num.fin (1351079888211149 / 1125899906842624))
          (Num.fin (2026619832316723 / 562949953421312))
        ≠ Num.fin (1351079888211149 / 281474976710656) := by
  constructor
  · decide!
  · decide!

theorem computeCost_total (r : PricingRecord) (i o : Num) :
    (computeCost r i o).total
      = Num.add (computeCost r i o).inputCost (computeCost r i o).outputCost := rfl

theorem scaleCosts_inputCost (m : CostBreakdown) (k : Num) :
    (scaleCosts m k).inputCost = Num.mul m.inputCost k := rfl

theorem scaleCosts_outputCost (m : CostBreakdown) (k : Num) :
    (scaleCosts m k).outputCost = Num.mul m.outputCost k := rfl

theorem scaleCosts_total (m : CostBreakdown) (k : Num) :
    (scaleCosts m k).total = Num.mul m.total k := rfl

/-- C2 (amended): every formatter call of `calculate` carries, for each model,
the fresh `computeCost` breakdown with each field multiplied by 12 when the
annual flag is set and by 1 otherwise; when the flag is not set the scaled
breakdown is the monthly one and its total is exactly inputCost + outputCost;
the monthly breakdown 1.25 / 5.00 / 6.25 scales to the annual total 75.00. -/
theorem calculate_scaling (p : Page) (c : FormatterCall) (h : calculateStep p = Step.call c) :
    (∀ sel it ot costs sa pct an, c = FormatterCall.single sel it ot costs sa pct an →
        an = p.annualModeEl.getD false
        ∧ costs.inputCost
            = Num.mul (computeCost sel it ot).inputCost (if an then Num.ofNat 12 else Num.ofNat 1)
        ∧ costs.outputCost
            = Num.mul (computeCost sel it ot).outputCost (if an then Num.ofNat 12 else Num.ofNat 1)
        ∧ costs.total
            = Num.mul (computeCost sel it ot).total (if an then Num.ofNat 12 else Num.ofNat 1)
        ∧ (an = false → costs = computeCost sel it ot
            ∧ costs.total = Num.add costs.inputCost costs.outputCost))
    ∧ (∀ a b it ot ca cb an, c = FormatterCall.compare a b it ot ca cb an →
        an = p.annualModeEl.getD false
        ∧ ca = scaleCosts (computeCost a it ot) (if an then Num.ofNat 12 else Num.ofNat 1)
        ∧ cb = scaleCosts (computeCost b it ot) (if an then Num.ofNat 12 else Num.ofNat 1)
        ∧ (an = false → ca = computeCost a it ot ∧ cb = computeCost b it ot
            ∧ ca.total = Num.add ca.inputCost ca.outputCost
            ∧ cb.total = Num.add cb.inputCost cb.outputCost))
    ∧ scaleCosts { inputCost := Num.fin (5 / 4), outputCost := Num.fin 5, total := Num.fin (25 / 4) }
          (Num.ofNat 12)
        = { inputCost := Num.fin 15, outputCost := Num.fin 60, total := Num.fin 75 } := by
  refine ⟨?_, ?_, by decide!⟩
  · intro sel it ot costs sa pct an hc
    rcases calculateStep_call p c h with ⟨sel1, sa1, pct1, hc1⟩ | ⟨a1, b1, hc1⟩
    · rw [hc] at hc1
      injection hc1 with e1 e2 e3 e4 e5 e6 e7
      subst e1 e2 e3 e4 e5 e6
      rw [e7]
      refine ⟨rfl, scaleCosts_inputCost _ _, scaleCosts_outputCost _ _,
        scaleCosts_total _ _, ?_⟩
      intro han
      rw [han]
      simp only [Bool.false_eq_true, if_false]
      rw [scaleCosts_one]
      exact ⟨rfl, computeCost_total _ _ _⟩
    · rw [hc] at hc1; cases hc1
  · intro a b it ot ca cb an hc
    rcases calculateStep_call p c h with ⟨sel1, sa1, pct1, hc1⟩ | ⟨a1, b1, hc1⟩
    · rw [hc] at hc1; cases hc1
    · rw [hc] at hc1
      injection hc1 with e1 e2 e3 e4 e5 e6 e7
      subst e1 e2 e3 e4 e5 e6
      rw [e7]
      refine ⟨rfl, rfl, rfl, ?_⟩
      intro han
      rw [han]
      simp only [Bool.false_eq_true, if_false]
      rw [scaleCosts_one, scaleCosts_one]
      exact ⟨rfl, rfl, computeCost_total _ _ _, computeCost_total _ _ _⟩

/-- C2 at the scenario of the specification: the annual breakdown of
`OpenAI | gpt-5` is 15.00 / 60.00 / 75.00, twelve times 1.25 / 5.00 / 6.25. -/
theorem calculate_scaling_witness :
    calculateStep gpt5AnnualPage
        = Step.call (FormatterCall.single
            ⟨"OpenAI".toList, "gpt-5".toList, Num.fin (5 / 4), Num.fin 10⟩
            (Num.fin 1000000) (Num.fin 500000)
            { inputCost := Num.fin 15, outputCost := Num.fin 60, total := Num.fin 75 }
            false (Num.fin 20) true)
    ∧ Num.fin 75 = Num.mul (computeCost ⟨"OpenAI".toList, "gpt-5".toList, Num.fin (5 / 4), Num.fin 10⟩
          (Num.fin 1000000) (Num.fin 500000)).total (Num.ofNat 12) :=
  ⟨by decide!,
   (calculate_scaling gpt5AnnualPage
      (FormatterCall.single ⟨"OpenAI".toList, "gpt-5".toList, Num.fin (5 / 4), Num.fin 10⟩
        (Num.fin 1000000) (Num.fin 500000)
        { inputCost := Num.fin 15, outputCost := Num.fin 60, total := Num.fin 75 }
        false (Num.fin 20) true)
      (by decide!)).1 _ _ _ _ _ _ _ rfl |>.2.2.2.1⟩

/-! ### Characters of the number formats -/

theorem digitChar_isDigit (d : Nat) (h : d < 10) : (Nat.digitChar d).isDigit = true := by
  interval_cases d <;> decide

theorem toDigitsCore_isDigit (fuel n : Nat) (ds : List Char)
    (h : ∀ c ∈ ds, c.isDigit = true) :
    ∀ c ∈ Nat.toDigitsCore 10 fuel n ds, c.isDigit = true := by
  induction fuel generalizing n ds with
  | zero => simpa [Nat.toDigitsCore] using h
  | succ f ih =>
    have hd : (Nat.digitChar (n % 10)).isDigit = true :=
      digitChar_isDigit _ (Nat.mod_lt _ (by norm_num))
    have hcons : ∀ c ∈ Nat.digitChar (n % 10) :: ds, c.isDigit = true := by
      intro c hc
      rcases List.mem_cons.mp hc with rfl | hc
      · exact hd
      · exact h c hc
    simp only [Nat.toDigitsCore]
    split
    · exact hcons
    · exact ih _ _ hcons

theorem toDigitsCore_ne_nil (fuel n : Nat) (ds : List Char) (h : 0 < fuel ∨ ds ≠ []) :
    Nat.toDigitsCore 10 fuel n ds ≠ [] := by
  induction fuel generalizing n ds with
  | zero =>
    rcases h with h | h
    · omega
    · simpa [Nat.toDigitsCore] using h
  | succ f ih =>
    simp only [Nat.toDigitsCore]
    split
    · simp
    · exact ih _ _ (Or.inr (by simp))

theorem natToStr_isDigit (n : Nat) : ∀ c ∈ natToStr n, c.isDigit = true :=
  toDigitsCore_isDigit _ _ _ (by simp)

theorem natToStr_ne_nil (n : Nat) : natToStr n ≠ [] :=
  toDigitsCore_ne_nil _ _ _ (Or.inl (Nat.succ_pos n))

theorem isDigit_not_minus {c : Char} (h : c.isDigit = true) : c ≠ '-' := by
  rintro rfl; exact absurd h (by decide)

theorem stripMinus_cons_of_ne {c : Char} (r : Str) (h : c ≠ '-') :
    stripMinus (c :: r) = c :: r := by
  unfold stripMinus
  split
  · next heq => simp only [List.cons.injEq] at heq; exact absurd heq.1 h
  · rfl

theorem twoDecimalBody_shape (ip : Str) (d1 d2 : Char) (hne : ip ≠ [])
    (hip : ∀ c ∈ ip, c.isDigit = true) (h1 : d1.isDigit = true) (h2 : d2.isDigit = true) :
    twoDecimalBody (ip ++ ['.', d1, d2]) = true := by
  unfold twoDecimalBody
  have hrev : (ip ++ ['.', d1, d2]).reverse = d2 :: d1 :: '.' :: ip.reverse := by simp
  rw [hrev]
  simp only [h1, h2, Bool.true_and, List.all_reverse, Bool.and_eq_true, Bool.not_eq_true',
    List.isEmpty_eq_false, List.all_eq_true]
  exact ⟨by simpa using hne, hip⟩

/-- The shape test accepts `digits.dd`. -/
theorem isTwoDecimal_shape (ip : Str) (d1 d2 : Char) (hne : ip ≠ [])
    (hip : ∀ c ∈ ip, c.isDigit = true) (h1 : d1.isDigit = true) (h2 : d2.isDigit = true) :
    isTwoDecimal (ip ++ ['.', d1, d2]) = true := by
  have hb := twoDecimalBody_shape ip d1 d2 hne hip h1 h2
  obtain ⟨c, ip', rfl⟩ := List.exists_cons_of_ne_nil hne
  have hc : c ≠ '-' := isDigit_not_minus (hip c (by simp))
  unfold isTwoDecimal
  rw [List.cons_append, stripMinus_cons_of_ne _ hc]
  exact hb

/-- The shape test accepts `-digits.dd`. -/
theorem isTwoDecimal_shape_neg (ip : Str) (d1 d2 : Char) (hne : ip ≠ [])
    (hip : ∀ c ∈ ip, c.isDigit = true) (h1 : d1.isDigit = true) (h2 : d2.isDigit = true) :
    isTwoDecimal ('-' :: (ip ++ ['.', d1, d2])) = true :=
  twoDecimalBody_shape ip d1 d2 hne hip h1 h2

/-- `fixed2Pos` writes digits, a point and two digits. -/
theorem fixed2Pos_shape (q : ℚ) :
    ∃ ip d1 d2, fixed2Pos q = ip ++ ['.', d1, d2] ∧ ip ≠ []
      ∧ (∀ c ∈ ip, c.isDigit = true) ∧ d1.isDigit = true ∧ d2.isDigit = true := by
  unfold fixed2Pos
  simp only []
  set n : Nat := ⌊q * 100 + 1 / 2⌋.toNat
  set m : Str := List.replicate (3 - (natToStr n).length) '0' ++ natToStr n with hm
  have hdig : ∀ c ∈ m, c.isDigit = true := by
    intro c hc
    rw [hm] at hc
    rcases List.mem_append.mp hc with h | h
    · rw [List.eq_of_mem_replicate h]; decide
    · exact natToStr_isDigit n c h
  have hlen : 3 ≤ m.length := by
    rw [hm, List.length_append, List.length_replicate]; omega
  have hdrop : (m.drop (m.length - 2)).length = 2 := by
    rw [List.length_drop]; omega
  obtain ⟨d1, d2, hd⟩ := List.length_eq_two.mp hdrop
  refine ⟨m.take (m.length - 2), d1, d2, ?_, ?_, ?_, ?_, ?_⟩
  · rw [hd]
  · intro h
    have : (m.take (m.length - 2)).length = 0 := by rw [h]; rfl
    rw [List.length_take] at this
    omega
  · intro c hc; exact hdig c (List.mem_of_mem_take hc)
  · exact hdig d1 (List.mem_of_mem_drop (by rw [hd]; simp))
  · exact hdig d2 (List.mem_of_mem_drop (by rw [hd]; simp))

/-- `toFixed(2)` of a finite number below `10 ^ 21` in magnitude has exactly two
decimal places. -/
theorem toFixed2_twoDecimal (q : ℚ) (h : |q| < 10 ^ 21) :
    isTwoDecimal (toFixed2 (Num.fin q)) = true := by
  obtain ⟨h1, h2⟩ := abs_lt.mp h
  simp only [toFixed2]
  split
  · next hneg =>
    rw [if_neg (by linarith)]
    obtain ⟨ip, d1, d2, he, hne, hip, hd1, hd2⟩ := fixed2Pos_shape (-q)
    rw [he]; exact isTwoDecimal_shape_neg ip d1 d2 hne hip hd1 hd2
  · rw [if_neg (by linarith)]
    obtain ⟨ip, d1, d2, he, hne, hip, hd1, hd2⟩ := fixed2Pos_shape q
    rw [he]; exact isTwoDecimal_shape ip d1 d2 hne hip hd1 hd2

theorem decLenAux_pos (fuel n : Nat) (h : n ≤ fuel) (hn : n ≠ 0) : 1 ≤ decLenAux fuel n := by
  cases fuel with
  | zero => omega
  | succ f => simp [decLenAux, hn]

theorem ilog10_nonneg {q : ℚ} (h : 1 ≤ q) : 0 ≤ ilog10 q := by
  unfold ilog10
  rw [if_pos h]
  have hf : 1 ≤ ⌊q⌋ := Int.le_floor.mpr (by exact_mod_cast h)
  have : ⌊q⌋.toNat ≠ 0 := by omega
  have := decLenAux_pos _ _ le_rfl this
  unfold decLen
  omega

theorem shortestAt_n (q : ℚ) (k s : Nat) (n : Int) (h : shortestAt q k = some (s, n)) :
    ilog10 q + 1 ≤ n := by
  unfold shortestAt at h
  simp only [] at h
  have pick : ∀ (s0 : Nat) (s : Nat) (n : Int),
      (if s0 = 10 ^ k then some (10 ^ (k - 1), ilog10 q + 1 + 1) else some (s0, ilog10 q + 1))
        = some (s, n) → ilog10 q + 1 ≤ n := by
    intro s0 s n h
    split at h <;> (injection h with h; injection h with h1 h2; omega)
  split at h
  · split at h
    · exact pick _ _ _ h
    · split at h
      · exact pick _ _ _ h
      · split at h <;> exact pick _ _ _ h
  · split at h
    · exact pick _ _ _ h
    · split at h
      · exact pick _ _ _ h
      · cases h

theorem shortestFrom_n (q : ℚ) (fuel k0 : Nat) (k s : Nat) (n : Int)
    (h : shortestFrom q fuel k0 = some (k, s, n)) : ilog10 q + 1 ≤ n := by
  induction fuel generalizing k0 with
  | zero => simp [shortestFrom] at h
  | succ f ih =>
    simp only [shortestFrom] at h
    split at h
    · next s1 n1 heq =>
      injection h with h; injection h with h1 h2; injection h2 with h2 h3
      subst h3
      exact shortestAt_n q _ _ _ heq
    · exact ih _ h

theorem shortest_n (q : ℚ) : ilog10 q + 1 ≤ (shortest q).2.2 := by
  unfold shortest
  split
  · next r heq =>
    obtain ⟨k, s, n⟩ := r
    exact shortestFrom_n q _ _ _ _ _ heq
  · exact le_rfl

/-- The characters of `Number::toString` of a positive number: a minus sign
can only be the sign of a negative exponent. -/
theorem posToString_chars (q : ℚ) (c : Char) (h : c ∈ posToString q) :
    c.isDigit = true ∨ c = '.' ∨ c = 'e' ∨ c = '+' ∨ (c = '-' ∧ (shortest q).2.2 < 1) := by
  unfold posToString at h
  rcases hs : shortest q with ⟨k, s, n⟩
  rw [hs] at h
  simp only [] at h
  have hd := natToStr_isDigit s
  have hz : ('0' : Char).isDigit = true := by decide
  split at h
  · rcases List.mem_append.mp h with h | h
    · exact Or.inl (hd c h)
    · rw [List.eq_of_mem_replicate h]; exact Or.inl hz
  · split at h
    · rcases List.mem_append.mp h with h | h
      · exact Or.inl (hd c (List.mem_of_mem_take h))
      · rcases List.mem_cons.mp h with h | h
        · exact Or.inr (Or.inl h)
        · exact Or.inl (hd c (List.mem_of_mem_drop h))
    · split at h
      · rcases List.mem_cons.mp h with h | h
        · rw [h]; exact Or.inl hz
        · rcases List.mem_cons.mp h with h | h
          · exact Or.inr (Or.inl h)
          · rcases List.mem_append.mp h with h | h
            · rw [List.eq_of_mem_replicate h]; exact Or.inl hz
            · exact Or.inl (hd c h)
      · have tail : ∀ c, c ∈ ('e' :: (if n - 1 < 0 then '-' else '+') :: natToStr (n - 1).natAbs) →
            c.isDigit = true ∨ c = '.' ∨ c = 'e' ∨ c = '+' ∨ (c = '-' ∧ n < 1) := by
          intro c h
          rcases List.mem_cons.mp h with h | h
          · exact Or.inr (Or.inr (Or.inl h))
          · rcases List.mem_cons.mp h with h | h
            · by_cases hneg : n - 1 < 0
              · rw [if_pos hneg] at h
                exact Or.inr (Or.inr (Or.inr (Or.inr ⟨h, by omega⟩)))
              · rw [if_neg hneg] at h
                exact Or.inr (Or.inr (Or.inr (Or.inl h)))
            · exact Or.inl (natToStr_isDigit _ c h)
        split at h
        · rcases List.mem_append.mp h with h | h
          · exact Or.inl (hd c h)
          · exact tail c h
        · rcases List.mem_append.mp h with h | h
          · exact Or.inl (hd c (List.mem_of_mem_take h))
          · rcases List.mem_cons.mp h with h | h
            · exact Or.inr (Or.inl h)
            · rcases List.mem_append.mp h with h | h
              · exact Or.inl (hd c (List.mem_of_mem_drop h))
              · exact tail c h

theorem posToString_isNumChar (q : ℚ) (c : Char) (h : c ∈ posToString q) :
    isNumChar c = true := by
  rcases posToString_chars q c h with h | h | h | h | ⟨h, _⟩
  · simp [isNumChar, h]
  all_goals (subst h; decide)

theorem posToString_no_minus (q : ℚ) (hq : 1 ≤ q) : '-' ∉ posToString q := by
  intro h
  rcases posToString_chars q _ h with h | h | h | h | ⟨_, h⟩
  · exact absurd h (by decide)
  · exact absurd h (by decide)
  · exact absurd h (by decide)
  · exact absurd h (by decide)
  · have := shortest_n q
    have := ilog10_nonneg hq
    omega

theorem fixed2Pos_isDigit_or_point (q : ℚ) (c : Char) (h : c ∈ fixed2Pos q) :
    c.isDigit = true ∨ c = '.' := by
  obtain ⟨ip, d1, d2, he, _, hip, hd1, hd2⟩ := fixed2Pos_shape q
  rw [he] at h
  simp only [List.mem_append, List.mem_cons, List.mem_singleton, List.not_mem_nil, or_false] at h
  rcases h with h | h | h | h
  · exact Or.inl (hip c h)
  · exact Or.inr h
  · rw [h]; exact Or.inl hd1
  · rw [h]; exact Or.inl hd2

theorem numToString_isNumChar (x : Num) (c : Char) (h : c ∈ numToString x) :
    isNumChar c = true := by
  cases x with
  | nan => revert c; decide
  | pinf => revert c; decide
  | ninf => revert c; decide
  | fin q =>
    simp only [numToString] at h
    split at h
    · revert c; decide
    · split at h
      · rcases List.mem_cons.mp h with h | h
        · subst h; decide
        · exact posToString_isNumChar _ c h
      · exact posToString_isNumChar _ c h

theorem toFixed2_isNumChar (x : Num) (c : Char) (h : c ∈ toFixed2 x) :
    isNumChar c = true := by
  have fx : ∀ q, c ∈ fixed2Pos q → isNumChar c = true := by
    intro q h
    rcases fixed2Pos_isDigit_or_point q c h with h | h
    · simp [isNumChar, h]
    · subst h; decide
  cases x with
  | nan => clear fx; revert c; decide
  | pinf => clear fx; revert c; decide
  | ninf => clear fx; revert c; decide
  | fin q =>
    simp only [toFixed2] at h
    split at h
    · rcases List.mem_cons.mp h with h | h
      · subst h; decide
      · split at h
        · exact numToString_isNumChar _ c h
        · exact fx _ h
    · split at h
      · exact numToString_isNumChar _ c h
      · exact fx _ h

/-- `toFixed(2)` of `NaN`, `+Infinity` or a finite non-negative number has no
minus sign. -/
theorem toFixed2_no_minus (x : Num) (hx : x = Num.nan ∨ Num.ge x (Num.fin 0) = true) :
    '-' ∉ toFixed2 x := by
  cases x with
  | nan => decide
  | pinf => decide
  | ninf => rcases hx with h | h <;> cases h
  | fin q =>
    have hq : 0 ≤ q := by
      rcases hx with h | h
      · cases h
      · simpa [Num.ge] using h
    simp only [toFixed2]
    rw [if_neg (not_lt.mpr hq)]
    split
    · next hbig =>
      have hq1 : 1 ≤ q := le_trans (by norm_num) hbig
      have hq0 : q ≠ 0 := by linarith
      simp only [numToString]
      rw [if_neg hq0, if_neg (not_lt.mpr hq)]
      exact posToString_no_minus q hq1
    · intro h
      rcases fixed2Pos_isDigit_or_point q _ h with h | h
      · exact absurd h (by decide)
      · exact absurd h (by decide)

theorem abs_shown (x : Num) : Num.abs x = Num.nan ∨ Num.ge (Num.abs x) (Num.fin 0) = true := by
  cases x with
  | nan => exact Or.inl rfl
  | pinf => exact Or.inr rfl
  | ninf => exact Or.inr rfl
  | fin q => exact Or.inr (by simp [Num.abs, Num.ge])

/-! ### Pieces of templates and joins -/

theorem tpl_append (a b : List Str) : tpl (a ++ b) = tpl a ++ tpl b := by
  induction a with
  | nil => rfl
  | cons x xs ih =>
    show x ++ tpl (xs ++ b) = (x ++ tpl xs) ++ tpl b
    rw [ih, List.append_assoc]

/-- A run of consecutive pieces of a template is an infix of the template. -/
theorem tpl_infix_of (parts : List Str) (i j : Nat) (sub : List Str)
    (h : (parts.drop i).take j = sub) : tpl sub <:+: tpl parts := by
  subst h
  have h1 : parts = parts.take i ++ ((parts.drop i).take j ++ (parts.drop i).drop j) := by
    rw [List.take_append_drop, List.take_append_drop]
  conv_rhs => rw [h1]
  rw [tpl_append, tpl_append]
  exact ⟨_, _, by rw [List.append_assoc]⟩

/-- Every joined part is an infix of the join. -/
theorem joinWith_mem_sub (sep : Str) (parts : List Str) (x : Str) (h : x ∈ parts) :
    x <:+: joinWith sep parts := by
  unfold joinWith
  induction parts with
  | nil => cases h
  | cons y ys ih =>
    cases ys with
    | nil =>
      have : x = y := by simpa using h
      subst this
      simp [List.intercalate]
    | cons z zs =>
      have e : sep.intercalate (y :: z :: zs) = y ++ (sep ++ sep.intercalate (z :: zs)) := by
        simp [List.intercalate]
      rw [e]
      rcases List.mem_cons.mp h with h | h
      · subst h; exact List.infix_append' [] _ _ |> fun h => by simpa using h
      · have := ih h
        exact List.IsInfix.trans this
          (List.IsInfix.trans (List.suffix_append _ _).isInfix (List.suffix_append _ _).isInfix)

/-- C3: `buildCompareResult` shows, in the plain text, the markdown and the
markup, the delta `cb.total - ca.total` as `+$` followed by `delta.toFixed(2)`
when `delta >= 0` and as `-$` followed by `Math.abs(delta).toFixed(2)`
otherwise; the text after the `$` never has a minus sign, and it has exactly two
decimal places when delta is finite and below `10 ^ 21` in magnitude.  Totals
6.25 and 9.00 give `+$2.75`; swapped they give `-$2.75`. -/
theorem buildCompareResult_delta (toLocaleString : Num → Str) (a b : PricingRecord)
    (inputTokens outputTokens : Num) (ca cb : CostBreakdown) (isAnnual : Bool) :
    (tpl ["Delta (B - A): ".toList, deltaText (Num.sub cb.total ca.total), periodLabel isAnnual]
      <:+: (buildCompareResult toLocaleString a b inputTokens outputTokens ca cb isAnnual).copyText)
    ∧ (tpl ["- **Delta (B - A)**: **".toList, deltaText (Num.sub cb.total ca.total),
          periodLabel isAnnual, "**".toList]
      <:+: (buildCompareResult toLocaleString a b inputTokens outputTokens ca cb isAnnual).markdown)
    ∧ (tpl ["        <div class=\"k\">Delta (B - A)</div>\n".toList,
          "        <div class=\"v\">".toList, deltaText (Num.sub cb.total ca.total),
          periodLabel isAnnual, "</div>\n".toList]
      <:+: (buildCompareResult toLocaleString a b inputTokens outputTokens ca cb isAnnual).html)
    ∧ (Num.ge (Num.sub cb.total ca.total) (Num.fin 0) = true →
        deltaText (Num.sub cb.total ca.total)
          = '+' :: '$' :: toFixed2 (Num.sub cb.total ca.total))
    ∧ (Num.ge (Num.sub cb.total ca.total) (Num.fin 0) = false →
        deltaText (Num.sub cb.total ca.total)
          = '-' :: '$' :: toFixed2 (Num.abs (Num.sub cb.total ca.total)))
    ∧ '-' ∉ (deltaText (Num.sub cb.total ca.total)).drop 2
    ∧ (∀ q : ℚ, Num.sub cb.total ca.total = Num.fin q → |q| < 10 ^ 21 →
        isTwoDecimal ((deltaText (Num.sub cb.total ca.total)).drop 2) = true)
    ∧ deltaText (Num.sub (Num.fin 9) (Num.fin (25 / 4))) = "+$2.75".toList
    ∧ deltaText (Num.sub (Num.fin (25 / 4)) (Num.fin 9)) = "-$2.75".toList := by
  have hpos : Num.ge (Num.sub cb.total ca.total) (Num.fin 0) = true →
      deltaText (Num.sub cb.total ca.total)
        = '+' :: '$' :: toFixed2 (Num.sub cb.total ca.total) := by
    intro h; simp [deltaText, h, tpl, money]
  have hneg : Num.ge (Num.sub cb.total ca.total) (Num.fin 0) = false →
      deltaText (Num.sub cb.total ca.total)
        = '-' :: '$' :: toFixed2 (Num.abs (Num.sub cb.total ca.total)) := by
    intro h; simp [deltaText, h, tpl, money]
  refine ⟨?_, ?_, ?_, hpos, hneg, ?_, ?_, by decide!, by decide!⟩
  · exact joinWith_mem_sub _ _ _ (by simp [buildCompareResult])
  · exact joinWith_mem_sub _ _ _ (by simp [buildCompareResult])
  · exact tpl_infix_of _ 31 5 _ rfl
  · by_cases h : Num.ge (Num.sub cb.total ca.total) (Num.fin 0) = true
    · rw [hpos h]
      exact toFixed2_no_minus _ (Or.inr h)
    · rw [hneg (by simpa using h)]
      exact toFixed2_no_minus _ (abs_shown _)
  · intro q hq hlt
    by_cases h : Num.ge (Num.sub cb.total ca.total) (Num.fin 0) = true
    · rw [hpos h, hq]
      exact toFixed2_twoDecimal q hlt
    · rw [hneg (by simpa using h), hq]
      exact toFixed2_twoDecimal |q| (by rwa [abs_abs])

/-- C3 at totals 6.25 (A) and 9.00 (B): the delta text is `+$2.75` and `2.75`
has two decimal places. -/
theorem buildCompareResult_delta_witness :
    deltaText (Num.sub (Num.fin 9) (Num.fin (25 / 4))) = "+$2.75".toList
    ∧ isTwoDecimal ((deltaText (Num.sub (Num.fin 9) (Num.fin (25 / 4)))).drop 2) = true :=
  ⟨((buildCompareResult_delta numToString
        ⟨"OpenAI".toList, "gpt-5".toList, Num.fin (5 / 4), Num.fin 10⟩
        ⟨"Other".toList, "model".toList, Num.fin 2, Num.fin 14⟩
        (Num.fin 1000000) (Num.fin 500000)
        ⟨Num.fin (5 / 4), Num.fin 5, Num.fin (25 / 4)⟩ ⟨Num.fin 2, Num.fin 7, Num.fin 9⟩
        false).2.2.2.1 (by decide!)).trans (by decide!),
   (buildCompareResult_delta numToString
        ⟨"OpenAI".toList, "gpt-5".toList, Num.fin (5 / 4), Num.fin 10⟩
        ⟨"Other".toList, "model".toList, Num.fin 2, Num.fin 14⟩
        (Num.fin 1000000) (Num.fin 500000)
        ⟨Num.fin (5 / 4), Num.fin 5, Num.fin (25 / 4)⟩ ⟨Num.fin 2, Num.fin 7, Num.fin 9⟩
        false).2.2.2.2.2.2.1 (11 / 4) (by decide!) (by norm_num [abs_of_pos])⟩

/-! ### C4: the discount overlay -/

theorem tpl_mem_sub (parts : List Str) (x : Str) (h : x ∈ parts) : x <:+: tpl parts := by
  obtain ⟨a, b, rfl⟩ := List.append_of_mem h
  rw [tpl_append]
  show x <:+: tpl a ++ (x ++ tpl b)
  exact ⟨tpl a, tpl b, by simp⟩

theorem tpl_get_sub (parts : List Str) (i : Nat) (x : Str) (h : parts.get? i = some x) :
    x <:+: tpl parts :=
  tpl_mem_sub parts x (List.get?_mem h)

theorem isDouble_one : IsDouble 1 := by decide!

theorem ofNat_one : Num.ofNat 1 = Num.fin 1 := by decide!

theorem ofNat_hundred : Num.ofNat 100 = Num.fin 100 := by decide!

/-- The discounted estimate of a finite total `t ≥ 0` at a percentage in
`[0, 100]` is a finite number between `0` and `t`. -/
theorem discountedTotal_bounds (t p : ℚ) (ht : 0 ≤ t) (hd : IsDouble t) (hp0 : 0 ≤ p)
    (hp : p ≤ 100) :
    ∃ e, discountedTotal (Num.fin t) (Num.fin p) = Num.fin e ∧ 0 ≤ e ∧ e ≤ t := by
  unfold discountedTotal
  rw [ofNat_one, ofNat_hundred]
  have hdiv : Num.div (Num.fin p) (Num.fin 100) = rnd (p / 100) := by simp [Num.div]
  obtain ⟨y, hy, hy0, hy1⟩ :=
    rnd_le_of_le (div_nonneg hp0 (by norm_num)) ((div_le_one (by norm_num)).mpr hp) isDouble_one
  rw [hdiv, hy]
  have hsub : Num.sub (Num.fin 1) (Num.fin y) = rnd (1 + -y) := rfl
  obtain ⟨z, hz, hz0, hz1⟩ :=
    rnd_le_of_le (q := 1 + -y) (by linarith) (by linarith) isDouble_one
  rw [hsub, hz]
  have hmul : Num.mul (Num.fin t) (Num.fin z) = rnd (t * z) := rfl
  rw [hmul]
  exact rnd_le_of_le (mul_nonneg ht hz0) (by nlinarith) hd

/-- C4: with the overlay enabled at discount percent `d`, `buildSingleResult`
shows the estimate `total * (1 - d / 100)` with `toFixed(2)` in the plain text,
the markdown and the markup, each time with `d`, and ends the CSV row with the
pair (estimate with `toFixed(2)`, `d`) and the unit; for a finite total `>= 0`
and `d` in `[0, 100]` the estimate is finite and lies between 0 and the total;
for total 6.25 and `d = 20` it is shown as `$5.00`. -/
theorem buildSingleResult_discount (toLocaleString : Num → Str) (selected : PricingRecord)
    (inputTokens outputTokens : Num) (costs : CostBreakdown) (discountPct : Num)
    (isAnnual : Bool) :
    (tpl ["\n".toList, "AIsa estimate (illustrative, ".toList, numToString discountPct,
          "%): ".toList, '$' :: toFixed2 (discountedTotal costs.total discountPct),
          periodLabel isAnnual]
      <:+ (buildSingleResult toLocaleString selected inputTokens outputTokens costs true
            discountPct isAnnual).copyText)
    ∧ (tpl ["\n".toList, "- **AIsa estimate (illustrative, ".toList, numToString discountPct,
          "%)**: ".toList, '$' :: toFixed2 (discountedTotal costs.total discountPct),
          periodLabel isAnnual]
      <:+ (buildSingleResult toLocaleString selected inputTokens outputTokens costs true
            discountPct isAnnual).markdown)
    ∧ (tpl ["        <div class=\"k\">AIsa estimate</div>\n".toList,
          "        <div class=\"v\">".toList,
          '$' :: toFixed2 (discountedTotal costs.total discountPct), periodLabel isAnnual,
          "</div>\n".toList, "        <div class=\"s\">Illustrative only, assumes ".toList,
          numToString discountPct, "% discount.</div>\n".toList]
      <:+: (buildSingleResult toLocaleString selected inputTokens outputTokens costs true
            discountPct isAnnual).html)
    ∧ (tpl [",".toList, toFixed2 (discountedTotal costs.total discountPct), ",".toList,
          numToString discountPct, ",\"".toList,
          (if isAnnual then "year".toList else "month".toList), "\"".toList]
      <:+ (buildSingleResult toLocaleString selected inputTokens outputTokens costs true
            discountPct isAnnual).csv)
    ∧ (∀ t p : ℚ, costs.total = Num.fin t → discountPct = Num.fin p → 0 ≤ t → IsDouble t →
        0 ≤ p → p ≤ 100 →
        ∃ e, discountedTotal costs.total discountPct = Num.fin e ∧ 0 ≤ e ∧ e ≤ t)
    ∧ money (discountedTotal (Num.fin (25 / 4)) (Num.fin 20)) = "$5.00".toList := by
  refine ⟨?_, ?_, ?_, ?_, ?_, by decide!⟩
  · exact ⟨_, rfl⟩
  · exact ⟨_, rfl⟩
  · have h1 : tpl ["        <div class=\"k\">AIsa estimate</div>\n".toList,
          "        <div class=\"v\">".toList,
          '$' :: toFixed2 (discountedTotal costs.total discountPct), periodLabel isAnnual,
          "</div>\n".toList, "        <div class=\"s\">Illustrative only, assumes ".toList,
          numToString discountPct, "% discount.</div>\n".toList]
        <:+: tpl ["\n".toList, "      <div class=\"tile\">\n".toList,
          "        <div class=\"k\">AIsa estimate</div>\n".toList,
          "        <div class=\"v\">".toList,
          money (discountedTotal costs.total discountPct), periodLabel isAnnual,
          "</div>\n".toList,
          "        <div class=\"s\">Illustrative only, assumes ".toList, numToString discountPct,
          "% discount.</div>\n".toList, "      </div>\n".toList, "    ".toList] :=
      tpl_infix_of _ 2 8 _ rfl
    exact List.IsInfix.trans h1 (tpl_get_sub _ 44 _ rfl)
  · have e := tpl_append [",".toList, toFixed2 (discountedTotal costs.total discountPct),
        ",".toList, numToString discountPct]
      [",\"".toList, (if isAnnual then "year".toList else "month".toList), "\"".toList]
    exact ⟨_, (congrArg _ e).trans (List.append_assoc _ _ _).symm⟩
  · intro t p ht hp h0 hd hp0 hp100
    rw [ht, hp]
    exact discountedTotal_bounds t p h0 hd hp0 hp100

/-- C4 at total 6.25 and discount 20: the estimate is the double nearest to 5
and lies between 0 and 6.25. -/
theorem buildSingleResult_discount_witness :
    ∃ e, discountedTotal (Num.fin (25 / 4)) (Num.fin 20) = Num.fin e ∧ 0 ≤ e ∧ e ≤ 25 / 4 :=
  (buildSingleResult_discount numToString
      ⟨"OpenAI".toList, "gpt-5".toList, Num.fin (5 / 4), Num.fin 10⟩
      (Num.fin 1000000) (Num.fin 500000)
      ⟨Num.fin (5 / 4), Num.fin 5, Num.fin (25 / 4)⟩ (Num.fin 20) false).2.2.2.2.1
    (25 / 4) 20 rfl rfl (by norm_num) (by decide!) (by norm_num) (by norm_num)

/-! ### Splitting a CSV row -/

theorem consHead_prependHead (c : Char) (s : Str) (fs : List Str) :
    consHead c (prependHead s fs) = prependHead (c :: s) fs := by
  cases fs <;> rfl

theorem consHead_eq (c : Char) (fs : List Str) (h : fs ≠ []) :
    consHead c fs = prependHead [c] fs := by
  cases fs with
  | nil => exact absurd rfl h
  | cons f fs => rfl

theorem prependHead_nil (fs : List Str) (h : fs ≠ []) : prependHead [] fs = fs := by
  cases fs with
  | nil => exact absurd rfl h
  | cons f fs => rfl

theorem csvSplit_ne_nil (q : Bool) (s : Str) : csvSplit q s ≠ [] := by
  induction s generalizing q with
  | nil => simp [csvSplit]
  | cons c r ih =>
    simp only [csvSplit]
    split
    · cases h : csvSplit (!q) r <;> simp [consHead]
    · split
      · simp
      · cases h : csvSplit q r <;> simp [consHead]

theorem prependHead_append (s t : Str) (fs : List Str) (h : fs ≠ []) :
    prependHead s (prependHead t fs) = prependHead (s ++ t) fs := by
  cases fs with
  | nil => exact absurd rfl h
  | cons f fs => simp [prependHead]

/-- Characters other than the quote, and commas only inside quotes, stay in the
current field. -/
theorem csvSplit_run (q : Bool) (s rest : Str) (hq : '"' ∉ s) (hc : q = false → ',' ∉ s) :
    csvSplit q (s ++ rest) = prependHead s (csvSplit q rest) := by
  induction s with
  | nil => exact (prependHead_nil _ (csvSplit_ne_nil q rest)).symm
  | cons c r ih =>
    have hcq : c ≠ '"' := fun h => hq (by simp [h])
    have hr : '"' ∉ r := fun h => hq (List.mem_cons_of_mem _ h)
    have hrc : q = false → ',' ∉ r := fun h1 h => hc h1 (List.mem_cons_of_mem _ h)
    have hcc : ¬ (c = ',' ∧ q = false) := fun h => hc h.2 (by simp [h.1])
    rw [List.cons_append]
    simp only [csvSplit, if_neg hcq, if_neg hcc]
    rw [ih hr hrc, consHead_prependHead]

theorem csvSplit_field (f rest : Str) (hf : IsCsvField f) :
    csvSplit false (f ++ rest) = prependHead f (csvSplit false rest) := by
  rcases hf with h | ⟨p, rfl, hp⟩
  · exact csvSplit_run false f rest (fun hm => (h _ hm).2 rfl) (fun _ hm => (h _ hm).1 rfl)
  · have e : ('"' :: (p ++ ['"'])) ++ rest = '"' :: (p ++ ('"' :: rest)) := by simp
    rw [e]
    simp only [csvSplit, if_true, Bool.not_false]
    rw [csvSplit_run true p _ hp (by simp)]
    simp only [csvSplit, if_true, Bool.not_true]
    rw [consHead_prependHead, consHead_eq _ _ (csvSplit_ne_nil _ _),
      prependHead_append _ _ _ (csvSplit_ne_nil _ _)]
    rfl

/-- Splitting a row of well-formed fields joined by commas gives the fields back. -/
theorem csvFields_join (fields : List Str) (hne : fields ≠ [])
    (h : ∀ f ∈ fields, IsCsvField f) : csvFields (joinWith ",".toList fields) = fields := by
  unfold csvFields joinWith
  induction fields with
  | nil => exact absurd rfl hne
  | cons f fs ih =>
    cases fs with
    | nil =>
      have e : List.intercalate ",".toList [f] = f ++ [] := by simp [List.intercalate]
      rw [e, csvSplit_field f [] (h f (by simp))]
      simp [csvSplit, prependHead]
    | cons g gs =>
      have e : List.intercalate ",".toList (f :: g :: gs)
          = f ++ (',' :: List.intercalate ",".toList (g :: gs)) := by
        simp [List.intercalate]
      rw [e, csvSplit_field f _ (h f (by simp))]
      have hcomma : csvSplit false (',' :: List.intercalate ",".toList (g :: gs))
          = [] :: csvSplit false (List.intercalate ",".toList (g :: gs)) := by
        simp [csvSplit]
      rw [hcomma, ih (by simp) (fun x hx => h x (List.mem_cons_of_mem _ hx))]
      simp [prependHead]

theorem isNumChar_plain {c : Char} (h : isNumChar c = true) : c ≠ ',' ∧ c ≠ '"' := by
  constructor <;> (rintro rfl; exact absurd h (by decide))

theorem isCsvField_numToString (x : Num) : IsCsvField (numToString x) :=
  Or.inl (fun c hc => isNumChar_plain (numToString_isNumChar x c hc))

theorem isCsvField_toFixed2 (x : Num) : IsCsvField (toFixed2 x) :=
  Or.inl (fun c hc => isNumChar_plain (toFixed2_isNumChar x c hc))

theorem isCsvField_nil : IsCsvField [] := Or.inl (by simp)

theorem isCsvField_quoted (p : Str) (h : '"' ∉ p) : IsCsvField (tpl ["\"".toList, p, "\"".toList]) :=
  Or.inr ⟨p, by simp [tpl], h⟩

theorem isCsvField_unit (isAnnual : Bool) :
    IsCsvField (tpl ["\"".toList, (if isAnnual then "year".toList else "month".toList),
      "\"".toList]) := by
  apply isCsvField_quoted
  cases isAnnual <;> decide

theorem buildSingleResult_csv_eq (toLocaleString : Num → Str) (selected : PricingRecord)
    (inputTokens outputTokens : Num) (costs : CostBreakdown) (showAisa : Bool)
    (discountPct : Num) (isAnnual : Bool) :
    (buildSingleResult toLocaleString selected inputTokens outputTokens costs showAisa
        discountPct isAnnual).csv
      = joinWith ",".toList
          (singleCsvFields selected inputTokens outputTokens costs showAisa discountPct isAnnual) := by
  have e : (buildSingleResult toLocaleString selected inputTokens outputTokens costs showAisa
        discountPct isAnnual).csv
      = joinWith ",".toList [
          tpl ["\"".toList, selected.provider, "\"".toList],
          tpl ["\"".toList, selected.model, "\"".toList],
          numToString inputTokens, numToString outputTokens,
          numToString selected.input_per_1m, numToString selected.output_per_1m,
          toFixed2 costs.inputCost, toFixed2 costs.outputCost, toFixed2 costs.total]
        ++ (if showAisa then
              (if showAisa then
                tpl [",".toList, toFixed2 (discountedTotal costs.total discountPct), ",".toList,
                  numToString discountPct]
               else [])
            else ",,".toList)
        ++ tpl [",\"".toList, (if isAnnual then "year".toList else "month".toList),
            "\"".toList] := rfl
  rw [e]
  cases showAisa <;>
    simp [singleCsvFields, joinWith, tpl, List.intercalate]

theorem buildSingleResult_csvFields (toLocaleString : Num → Str) (selected : PricingRecord)
    (inputTokens outputTokens : Num) (costs : CostBreakdown) (showAisa : Bool)
    (discountPct : Num) (isAnnual : Bool)
    (hp : '"' ∉ selected.provider) (hm : '"' ∉ selected.model) :
    csvFields (buildSingleResult toLocaleString selected inputTokens outputTokens costs showAisa
        discountPct isAnnual).csv
      = singleCsvFields selected inputTokens outputTokens costs showAisa discountPct isAnnual := by
  rw [buildSingleResult_csv_eq]
  apply csvFields_join
  · simp [singleCsvFields]
  · intro f hf
    simp only [singleCsvFields, List.mem_cons, List.mem_singleton, List.not_mem_nil,
      or_false] at hf
    rcases hf with h | h | h | h | h | h | h | h | h | h | h | h <;> subst h
    · exact isCsvField_quoted _ hp
    · exact isCsvField_quoted _ hm
    · exact isCsvField_numToString _
    · exact isCsvField_numToString _
    · exact isCsvField_numToString _
    · exact isCsvField_numToString _
    · exact isCsvField_toFixed2 _
    · exact isCsvField_toFixed2 _
    · exact isCsvField_toFixed2 _
    · split
      · exact isCsvField_toFixed2 _
      · exact isCsvField_nil
    · split
      · exact isCsvField_numToString _
      · exact isCsvField_nil
    · exact isCsvField_unit _

theorem buildCompareResult_csvFields (toLocaleString : Num → Str) (a b : PricingRecord)
    (inputTokens outputTokens : Num) (ca cb : CostBreakdown) (isAnnual : Bool)
    (hap : '"' ∉ a.provider) (ham : '"' ∉ a.model) (hbp : '"' ∉ b.provider)
    (hbm : '"' ∉ b.model) :
    csvFields (buildCompareResult toLocaleString a b inputTokens outputTokens ca cb isAnnual).csv
      = compareCsvFields a b ca cb isAnnual := by
  have e : (buildCompareResult toLocaleString a b inputTokens outputTokens ca cb isAnnual).csv
      = joinWith ",".toList (compareCsvFields a b ca cb isAnnual) := rfl
  rw [e]
  apply csvFields_join
  · simp [compareCsvFields]
  · intro f hf
    simp only [compareCsvFields, List.mem_cons, List.mem_singleton, List.not_mem_nil,
      or_false] at hf
    rcases hf with h | h | h | h | h | h | h | h <;> subst h
    · exact isCsvField_quoted _ hap
    · exact isCsvField_quoted _ ham
    · exact isCsvField_toFixed2 _
    · exact isCsvField_quoted _ hbp
    · exact isCsvField_quoted _ hbm
    · exact isCsvField_toFixed2 _
    · exact isCsvField_toFixed2 _
    · exact isCsvField_unit _

/-! ### C6: column count of the single-mode CSV row -/

/-- C6: for a record whose provider and model have no double quote, the
single-mode CSV row has 12 fields (cut at the commas outside double quotes) with
the overlay enabled and with it disabled; when disabled fields 10 and 11 are
empty; the last field is `"year"` with the annual flag and `"month"` without. -/
theorem buildSingleResult_csv_columns (toLocaleString : Num → Str) (selected : PricingRecord)
    (inputTokens outputTokens : Num) (costs : CostBreakdown) (discountPct : Num)
    (isAnnual : Bool) (hp : '"' ∉ selected.provider) (hm : '"' ∉ selected.model) :
    (csvFields (buildSingleResult toLocaleString selected inputTokens outputTokens costs true
        discountPct isAnnual).csv).length = 12
    ∧ (csvFields (buildSingleResult toLocaleString selected inputTokens outputTokens costs false
        discountPct isAnnual).csv).length = 12
    ∧ (csvFields (buildSingleResult toLocaleString selected inputTokens outputTokens costs false
        discountPct isAnnual).csv).get? 9 = some []
    ∧ (csvFields (buildSingleResult toLocaleString selected inputTokens outputTokens costs false
        discountPct isAnnual).csv).get? 10 = some []
    ∧ ∀ showAisa : Bool,
        (csvFields (buildSingleResult toLocaleString selected inputTokens outputTokens costs
          showAisa discountPct isAnnual).csv).getLast?
        = some (if isAnnual then "\"year\"".toList else "\"month\"".toList) := by
  refine ⟨?_, ?_, ?_, ?_, ?_⟩
  · rw [buildSingleResult_csvFields _ _ _ _ _ _ _ _ hp hm]; rfl
  · rw [buildSingleResult_csvFields _ _ _ _ _ _ _ _ hp hm]; rfl
  · rw [buildSingleResult_csvFields _ _ _ _ _ _ _ _ hp hm]; rfl
  · rw [buildSingleResult_csvFields _ _ _ _ _ _ _ _ hp hm]; rfl
  · intro showAisa
    rw [buildSingleResult_csvFields _ _ _ _ _ _ _ _ hp hm]
    cases isAnnual <;> rfl

/-- C6 at a record whose provider name contains a comma: the row still has
twelve fields in both overlay states. -/
theorem buildSingleResult_csv_columns_witness :
    (csvFields (buildSingleResult numToString commaRecord (Num.fin 1000000) (Num.fin 500000)
        scenarioCosts true (Num.fin 20) false).csv).length = 12
    ∧ (csvFields (buildSingleResult numToString commaRecord (Num.fin 1000000) (Num.fin 500000)
        scenarioCosts false (Num.fin 20) false).csv).length = 12 :=
  ⟨(buildSingleResult_csv_columns numToString commaRecord (Num.fin 1000000) (Num.fin 500000)
      scenarioCosts (Num.fin 20) false (by decide) (by decide)).1,
   (buildSingleResult_csv_columns numToString commaRecord (Num.fin 1000000) (Num.fin 500000)
      scenarioCosts (Num.fin 20) false (by decide) (by decide)).2.1⟩

/-! ### C7: which CSV fields have two decimal places -/

/-- C7 (as stated) fails: the single-mode row of the scenario has the numeric
fields `1000000`, `500000`, `10` and `20` (token counts, output rate, discount
percent), which are neither quoted nor empty and do not have two decimals. -/
theorem csv_numeric_fields_counterexample :
    csvFields (buildSingleResult numToString commaRecord (Num.fin 1000000) (Num.fin 500000)
        scenarioCosts true (Num.fin 20) false).csv
      = ["\"Open,AI\"".toList, "\"gpt-5\"".toList, "1000000".toList, "500000".toList,
         "1.25".toList, "10".toList, "1.25".toList, "5.00".toList, "6.25".toList,
         "5.00".toList, "20".toList, "\"month\"".toList]
    ∧ isTwoDecimal "1000000".toList = false
    ∧ isTwoDecimal "500000".toList = false
    ∧ isTwoDecimal "10".toList = false
    ∧ isTwoDecimal "20".toList = false := by
  refine ⟨by decide!, by decide, by decide, by decide, by decide⟩

theorem toFixed2_twoDecimal_of_below (x : Num) (h : x.Below1e21) :
    isTwoDecimal (toFixed2 x) = true := by
  cases x with
  | fin q => exact toFixed2_twoDecimal q h
  | nan => exact absurd h (by simp [Num.Below1e21])
  | pinf => exact absurd h (by simp [Num.Below1e21])
  | ninf => exact absurd h (by simp [Num.Below1e21])

/-- C7 (amended): in the single-mode CSV row the three cost fields and, with
the overlay enabled, the estimate field, and in the compare-mode row the two
totals and the delta, are written with `toFixed(2)`, which gives exactly two
decimal places whenever the value is finite and below `10 ^ 21` in magnitude;
the token counts, the two rates and the discount percent are written in the
default number format. -/
theorem csv_cost_fields_two_decimal (toLocaleString : Num → Str) (selected a b : PricingRecord)
    (inputTokens outputTokens : Num) (costs ca cb : CostBreakdown) (showAisa : Bool)
    (discountPct : Num) (isAnnual : Bool)
    (hp : '"' ∉ selected.provider) (hm : '"' ∉ selected.model)
    (hap : '"' ∉ a.provider) (ham : '"' ∉ a.model) (hbp : '"' ∉ b.provider)
    (hbm : '"' ∉ b.model) :
    ((csvFields (buildSingleResult toLocaleString selected inputTokens outputTokens costs
          showAisa discountPct isAnnual).csv).get? 6 = some (toFixed2 costs.inputCost)
      ∧ (costs.inputCost.Below1e21 → isTwoDecimal (toFixed2 costs.inputCost) = true))
    ∧ ((csvFields (buildSingleResult toLocaleString selected inputTokens outputTokens costs
          showAisa discountPct isAnnual).csv).get? 7 = some (toFixed2 costs.outputCost)
      ∧ (costs.outputCost.Below1e21 → isTwoDecimal (toFixed2 costs.outputCost) = true))
    ∧ ((csvFields (buildSingleResult toLocaleString selected inputTokens outputTokens costs
          showAisa discountPct isAnnual).csv).get? 8 = some (toFixed2 costs.total)
      ∧ (costs.total.Below1e21 → isTwoDecimal (toFixed2 costs.total) = true))
    ∧ (showAisa = true →
        (csvFields (buildSingleResult toLocaleString selected inputTokens outputTokens costs
          showAisa discountPct isAnnual).csv).get? 9
          = some (toFixed2 (discountedTotal costs.total discountPct))
        ∧ ((discountedTotal costs.total discountPct).Below1e21 →
            isTwoDecimal (toFixed2 (discountedTotal costs.total discountPct)) = true))
    ∧ ((csvFields (buildCompareResult toLocaleString a b inputTokens outputTokens ca cb
          isAnnual).csv).get? 2 = some (toFixed2 ca.total)
      ∧ (ca.total.Below1e21 → isTwoDecimal (toFixed2 ca.total) = true))
    ∧ ((csvFields (buildCompareResult toLocaleString a b inputTokens outputTokens ca cb
          isAnnual).csv).get? 5 = some (toFixed2 cb.total)
      ∧ (cb.total.Below1e21 → isTwoDecimal (toFixed2 cb.total) = true))
    ∧ ((csvFields (buildCompareResult toLocaleString a b inputTokens outputTokens ca cb
          isAnnual).csv).get? 6 = some (toFixed2 (Num.sub cb.total ca.total))
      ∧ ((Num.sub cb.total ca.total).Below1e21 →
          isTwoDecimal (toFixed2 (Num.sub cb.total ca.total)) = true))
    ∧ (csvFields (buildSingleResult toLocaleString selected inputTokens outputTokens costs
          showAisa discountPct isAnnual).csv).get? 2 = some (numToString inputTokens)
    ∧ (csvFields (buildSingleResult toLocaleString selected inputTokens outputTokens costs
          showAisa discountPct isAnnual).csv).get? 3 = some (numToString outputTokens)
    ∧ (csvFields (buildSingleResult toLocaleString selected inputTokens outputTokens costs
          showAisa discountPct isAnnual).csv).get? 4 = some (numToString selected.input_per_1m)
    ∧ (csvFields (buildSingleResult toLocaleString selected inputTokens outputTokens costs
          showAisa discountPct isAnnual).csv).get? 5 = some (numToString selected.output_per_1m)
    ∧ (showAisa = true →
        (csvFields (buildSingleResult toLocaleString selected inputTokens outputTokens costs
          showAisa discountPct isAnnual).csv).get? 10 = some (numToString discountPct)) := by
  rw [buildSingleResult_csvFields _ _ _ _ _ _ _ _ hp hm,
    buildCompareResult_csvFields _ _ _ _ _ _ _ _ hap ham hbp hbm]
  refine ⟨⟨rfl, toFixed2_twoDecimal_of_below _⟩, ⟨rfl, toFixed2_twoDecimal_of_below _⟩,
    ⟨rfl, toFixed2_twoDecimal_of_below _⟩, ?_, ⟨rfl, toFixed2_twoDecimal_of_below _⟩,
    ⟨rfl, toFixed2_twoDecimal_of_below _⟩, ⟨rfl, toFixed2_twoDecimal_of_below _⟩,
    rfl, rfl, rfl, rfl, ?_⟩
  · intro h; subst h
    exact ⟨rfl, toFixed2_twoDecimal_of_below _⟩
  · intro h; subst h; rfl

/-- C7 (amended) at the scenario: the cost fields 1.25, 5.00, 6.25 and the
estimate 5.00 of the row have two decimal places. -/
theorem csv_cost_fields_two_decimal_witness :
    isTwoDecimal (toFixed2 scenarioCosts.inputCost) = true
    ∧ isTwoDecimal (toFixed2 scenarioCosts.total) = true
    ∧ isTwoDecimal (toFixed2 (discountedTotal scenarioCosts.total (Num.fin 20))) = true :=
  ⟨(csv_cost_fields_two_decimal numToString commaRecord commaRecord commaRecord
      (Num.fin 1000000) (Num.fin 500000) scenarioCosts scenarioCosts scenarioCosts true
      (Num.fin 20) false (by decide) (by decide) (by decide) (by decide) (by decide)
      (by decide)).1.2 (by decide!),
   (csv_cost_fields_two_decimal numToString commaRecord commaRecord commaRecord
      (Num.fin 1000000) (Num.fin 500000) scenarioCosts scenarioCosts scenarioCosts true
      (Num.fin 20) false (by decide) (by decide) (by decide) (by decide) (by decide)
      (by decide)).2.2.1.2 (by decide!),
   ((csv_cost_fields_two_decimal numToString commaRecord commaRecord commaRecord
      (Num.fin 1000000) (Num.fin 500000) scenarioCosts scenarioCosts scenarioCosts true
      (Num.fin 20) false (by decide) (by decide) (by decide) (by decide) (by decide)
      (by decide)).2.2.2.1 rfl).2 (by decide!)⟩

/-! ### C5: the same figures in all four outputs -/

theorem joinWith_get_sub (sep : Str) (parts : List Str) (i : Nat) (x : Str)
    (h : parts.get? i = some x) : x <:+: joinWith sep parts :=
  joinWith_mem_sub sep parts x (List.get?_mem h)

theorem infix_of_append_left (full J A x : Str) (hfull : full = J ++ A) (hx : x <:+: J) :
    x <:+: full := by
  rw [hfull]
  exact List.IsInfix.trans hx (List.prefix_append _ _).isInfix

theorem tpl_suffix_of (parts : List Str) (i : Nat) (sub : List Str) (h : parts.drop i = sub) :
    tpl sub <:+ tpl parts := by
  subst h
  conv_rhs => rw [← List.take_append_drop i parts]
  rw [tpl_append]
  exact List.suffix_append _ _

theorem suffix_of_append_right (full J A x : Str) (hfull : full = J ++ A) (hx : x <:+ A) :
    x <:+ full := by
  rw [hfull]
  exact List.IsSuffix.trans hx (List.suffix_append _ _)

theorem toFixed2_head_ne_minus (x : Num) (hx : Num.ge x (Num.fin 0) = true) (r : Str) :
    toFixed2 x ≠ '-' :: r := by
  intro h
  have := toFixed2_no_minus x (Or.inr hx)
  rw [h] at this
  exact this (by simp)

/-- Unless the delta is `NaN`, the signed delta text is the CSV delta field
with its sign moved in front of the `$`. -/
theorem deltaText_eq_signedMoney (delta : Num) (h : delta ≠ Num.nan) :
    deltaText delta = signedMoney (toFixed2 delta) := by
  cases delta with
  | nan => exact absurd rfl h
  | pinf => decide
  | ninf => decide
  | fin q =>
    by_cases hq : 0 ≤ q
    · have hge : Num.ge (Num.fin q) (Num.fin 0) = true := by simp [Num.ge, hq]
      have e : deltaText (Num.fin q) = '+' :: '$' :: toFixed2 (Num.fin q) := by
        simp [deltaText, hge, tpl, money]
      rw [e]
      unfold signedMoney
      split
      · next r heq => exact absurd heq (toFixed2_head_ne_minus _ hge r)
      · rfl
    · have hlt : q < 0 := lt_of_not_le hq
      have hge : Num.ge (Num.fin q) (Num.fin 0) = false := by simp [Num.ge, hlt]
      have e : deltaText (Num.fin q) = '-' :: '$' :: toFixed2 (Num.fin |q|) := by
        simp [deltaText, hge, tpl, money, Num.abs]
      rw [e]
      have habs : |q| = -q := abs_of_neg hlt
      have h1 : toFixed2 (Num.fin q)
          = '-' :: (if (10 : ℚ) ^ 21 ≤ -q then numToString (Num.fin (-q)) else fixed2Pos (-q)) := by
        simp [toFixed2, hlt]
      have h2 : toFixed2 (Num.fin |q|)
          = (if (10 : ℚ) ^ 21 ≤ -q then numToString (Num.fin (-q)) else fixed2Pos (-q)) := by
        rw [habs]
        have : ¬ (-q < 0) := by linarith
        simp [toFixed2, this]
      rw [h1, h2]
      rfl

/-- C5: for records without a double quote in provider and model (so that the
CSV row splits into its fields), the plain text, the markdown and the markup of
`buildSingleResult` show the input cost, the output cost, the total, and with the
overlay the estimate, as `$` followed by exactly the string of the corresponding
CSV field; those of `buildCompareResult` show the totals of A and of B in the
same way, and, unless the delta is `NaN`, a signed delta text that is the CSV
delta field with its sign moved in front of the `$`. -/
theorem rendered_figures_agree (toLocaleString : Num → Str) (selected a b : PricingRecord)
    (inputTokens outputTokens : Num) (costs ca cb : CostBreakdown) (showAisa : Bool)
    (discountPct : Num) (isAnnual : Bool)
    (hp : '"' ∉ selected.provider) (hm : '"' ∉ selected.model)
    (hap : '"' ∉ a.provider) (ham : '"' ∉ a.model) (hbp : '"' ∉ b.provider)
    (hbm : '"' ∉ b.model) :
    (∃ fIn fOut fTot : Str,
      (csvFields (buildSingleResult toLocaleString selected inputTokens outputTokens costs
          showAisa discountPct isAnnual).csv).get? 6 = some fIn
      ∧ (csvFields (buildSingleResult toLocaleString selected inputTokens outputTokens costs
          showAisa discountPct isAnnual).csv).get? 7 = some fOut
      ∧ (csvFields (buildSingleResult toLocaleString selected inputTokens outputTokens costs
          showAisa discountPct isAnnual).csv).get? 8 = some fTot
      ∧ tpl ["Input cost: ".toList, '$' :: fIn, periodLabel isAnnual]
          <:+: (buildSingleResult toLocaleString selected inputTokens outputTokens costs
            showAisa discountPct isAnnual).copyText
      ∧ tpl ["- **Input cost**: **".toList, '$' :: fIn, periodLabel isAnnual, "**".toList]
          <:+: (buildSingleResult toLocaleString selected inputTokens outputTokens costs
            showAisa discountPct isAnnual).markdown
      ∧ tpl ["        <div class=\"k\">Input cost</div>\n".toList,
            "        <div class=\"v\">".toList, '$' :: fIn, periodLabel isAnnual,
            "</div>\n".toList]
          <:+: (buildSingleResult toLocaleString selected inputTokens outputTokens costs
            showAisa discountPct isAnnual).html
      ∧ tpl ["Output cost: ".toList, '$' :: fOut, periodLabel isAnnual]
          <:+: (buildSingleResult toLocaleString selected inputTokens outputTokens costs
            showAisa discountPct isAnnual).copyText
      ∧ tpl ["- **Output cost**: **".toList, '$' :: fOut, periodLabel isAnnual, "**".toList]
          <:+: (buildSingleResult toLocaleString selected inputTokens outputTokens costs
            showAisa discountPct isAnnual).markdown
      ∧ tpl ["        <div class=\"k\">Output cost</div>\n".toList,
            "        <div class=\"v\">".toList, '$' :: fOut, periodLabel isAnnual,
            "</div>\n".toList]
          <:+: (buildSingleResult toLocaleString selected inputTokens outputTokens costs
            showAisa discountPct isAnnual).html
      ∧ tpl ["Total: ".toList, '$' :: fTot, periodLabel isAnnual]
          <:+: (buildSingleResult toLocaleString selected inputTokens outputTokens costs
            showAisa discountPct isAnnual).copyText
      ∧ tpl ["- **Total**: **".toList, '$' :: fTot, periodLabel isAnnual, "**".toList]
          <:+: (buildSingleResult toLocaleString selected inputTokens outputTokens costs
            showAisa discountPct isAnnual).markdown
      ∧ tpl ["        <div class=\"k\">Total estimate</div>\n".toList,
            "        <div class=\"v\">".toList, '$' :: fTot, periodLabel isAnnual,
            "</div>\n".toList]
          <:+: (buildSingleResult toLocaleString selected inputTokens outputTokens costs
            showAisa discountPct isAnnual).html)
    ∧ (showAisa = true → ∃ fEst : Str,
      (csvFields (buildSingleResult toLocaleString selected inputTokens outputTokens costs
          showAisa discountPct isAnnual).csv).get? 9 = some fEst
      ∧ tpl ["%): ".toList, '$' :: fEst, periodLabel isAnnual]
          <:+ (buildSingleResult toLocaleString selected inputTokens outputTokens costs
            showAisa discountPct isAnnual).copyText
      ∧ tpl ["%)**: ".toList, '$' :: fEst, periodLabel isAnnual]
          <:+ (buildSingleResult toLocaleString selected inputTokens outputTokens costs
            showAisa discountPct isAnnual).markdown
      ∧ tpl ["        <div class=\"k\">AIsa estimate</div>\n".toList,
            "        <div class=\"v\">".toList, '$' :: fEst, periodLabel isAnnual,
            "</div>\n".toList]
          <:+: (buildSingleResult toLocaleString selected inputTokens outputTokens costs
            showAisa discountPct isAnnual).html)
    ∧ (∃ fA fB fD : Str,
      (csvFields (buildCompareResult toLocaleString a b inputTokens outputTokens ca cb
          isAnnual).csv).get? 2 = some fA
      ∧ (csvFields (buildCompareResult toLocaleString a b inputTokens outputTokens ca cb
          isAnnual).csv).get? 5 = some fB
      ∧ (csvFields (buildCompareResult toLocaleString a b inputTokens outputTokens ca cb
          isAnnual).csv).get? 6 = some fD
      ∧ tpl ["A: ".toList, a.provider, " | ".toList, a.model, " => ".toList, '$' :: fA,
            periodLabel isAnnual]
          <:+: (buildCompareResult toLocaleString a b inputTokens outputTokens ca cb
            isAnnual).copyText
      ∧ tpl ["- **A**: ".toList, a.provider, " | ".toList, a.model, " = **".toList, '$' :: fA,
            periodLabel isAnnual, "**".toList]
          <:+: (buildCompareResult toLocaleString a b inputTokens outputTokens ca cb
            isAnnual).markdown
      ∧ tpl ["        <div class=\"k\">Model A</div>\n".toList,
            "        <div class=\"v\">".toList, '$' :: fA, periodLabel isAnnual,
            "</div>\n".toList]
          <:+: (buildCompareResult toLocaleString a b inputTokens outputTokens ca cb
            isAnnual).html
      ∧ tpl ["B: ".toList, b.provider, " | ".toList, b.model, " => ".toList, '$' :: fB,
            periodLabel isAnnual]
          <:+: (buildCompareResult toLocaleString a b inputTokens outputTokens ca cb
            isAnnual).copyText
      ∧ tpl ["- **B**: ".toList, b.provider, " | ".toList, b.model, " = **".toList, '$' :: fB,
            periodLabel isAnnual, "**".toList]
          <:+: (buildCompareResult toLocaleString a b inputTokens outputTokens ca cb
            isAnnual).markdown
      ∧ tpl ["        <div class=\"k\">Model B</div>\n".toList,
            "        <div class=\"v\">".toList, '$' :: fB, periodLabel isAnnual,
            "</div>\n".toList]
          <:+: (buildCompareResult toLocaleString a b inputTokens outputTokens ca cb
            isAnnual).html
      ∧ (Num.sub cb.total ca.total ≠ Num.nan →
          tpl ["Delta (B - A): ".toList, signedMoney fD, periodLabel isAnnual]
            <:+: (buildCompareResult toLocaleString a b inputTokens outputTokens ca cb
              isAnnual).copyText
          ∧ tpl ["- **Delta (B - A)**: **".toList, signedMoney fD, periodLabel isAnnual,
              "**".toList]
            <:+: (buildCompareResult toLocaleString a b inputTokens outputTokens ca cb
              isAnnual).markdown
          ∧ tpl ["        <div class=\"k\">Delta (B - A)</div>\n".toList,
              "        <div class=\"v\">".toList, signedMoney fD, periodLabel isAnnual,
              "</div>\n".toList]
            <:+: (buildCompareResult toLocaleString a b inputTokens outputTokens ca cb
              isAnnual).html)) := by
  rw [buildSingleResult_csvFields _ _ _ _ _ _ _ _ hp hm,
    buildCompareResult_csvFields _ _ _ _ _ _ _ _ hap ham hbp hbm]
  refine ⟨⟨toFixed2 costs.inputCost, toFixed2 costs.outputCost, toFixed2 costs.total,
      rfl, rfl, rfl, ?_, ?_, ?_, ?_, ?_, ?_, ?_, ?_, ?_⟩, ?_,
    ⟨toFixed2 ca.total, toFixed2 cb.total, toFixed2 (Num.sub cb.total ca.total),
      rfl, rfl, rfl, ?_, ?_, ?_, ?_, ?_, ?_, ?_⟩⟩
  · exact infix_of_append_left _ _ _ _ rfl (joinWith_get_sub _ _ 5 _ rfl)
  · exact infix_of_append_left _ _ _ _ rfl (joinWith_get_sub _ _ 5 _ rfl)
  · exact tpl_infix_of _ 9 5 _ rfl
  · exact infix_of_append_left _ _ _ _ rfl (joinWith_get_sub _ _ 6 _ rfl)
  · exact infix_of_append_left _ _ _ _ rfl (joinWith_get_sub _ _ 6 _ rfl)
  · exact tpl_infix_of _ 22 5 _ rfl
  · exact infix_of_append_left _ _ _ _ rfl (joinWith_get_sub _ _ 7 _ rfl)
  · exact infix_of_append_left _ _ _ _ rfl (joinWith_get_sub _ _ 7 _ rfl)
  · exact tpl_infix_of _ 35 5 _ rfl
  · intro h
    subst h
    refine ⟨toFixed2 (discountedTotal costs.total discountPct), rfl, ?_, ?_, ?_⟩
    · exact suffix_of_append_right _ _ _ _ rfl (tpl_suffix_of _ 3 _ rfl)
    · exact suffix_of_append_right _ _ _ _ rfl (tpl_suffix_of _ 3 _ rfl)
    · have h1 : tpl ["        <div class=\"k\">AIsa estimate</div>\n".toList,
            "        <div class=\"v\">".toList,
            '$' :: toFixed2 (discountedTotal costs.total discountPct), periodLabel isAnnual,
            "</div>\n".toList]
          <:+: tpl ["\n".toList, "      <div class=\"tile\">\n".toList,
            "        <div class=\"k\">AIsa estimate</div>\n".toList,
            "        <div class=\"v\">".toList,
            money (discountedTotal costs.total discountPct), periodLabel isAnnual,
            "</div>\n".toList,
            "        <div class=\"s\">Illustrative only, assumes ".toList,
            numToString discountPct,
            "% discount.</div>\n".toList, "      </div>\n".toList, "    ".toList] :=
        tpl_infix_of _ 2 5 _ rfl
      exact List.IsInfix.trans h1 (tpl_get_sub _ 44 _ rfl)
  · exact joinWith_get_sub _ _ 3 _ rfl
  · exact joinWith_get_sub _ _ 2 _ rfl
  · exact tpl_infix_of _ 5 5 _ rfl
  · exact joinWith_get_sub _ _ 4 _ rfl
  · exact joinWith_get_sub _ _ 3 _ rfl
  · exact tpl_infix_of _ 18 5 _ rfl
  · intro hnan
    rw [← deltaText_eq_signedMoney _ hnan]
    exact ⟨joinWith_get_sub _ _ 5 _ rfl, joinWith_get_sub _ _ 4 _ rfl,
      tpl_infix_of _ 31 5 _ rfl⟩

/-- C5 at the scenario with the overlay at 20 percent: the estimate field of
the CSV row is the `5.00` of the plain text. -/
theorem rendered_figures_agree_witness :
    ∃ fEst : Str,
      (csvFields (buildSingleResult numToString commaRecord (Num.fin 1000000) (Num.fin 500000)
          scenarioCosts true (Num.fin 20) false).csv).get? 9 = some fEst
      ∧ tpl ["%): ".toList, '$' :: fEst, periodLabel false]
          <:+ (buildSingleResult numToString commaRecord (Num.fin 1000000) (Num.fin 500000)
            scenarioCosts true (Num.fin 20) false).copyText
      ∧ tpl ["%)**: ".toList, '$' :: fEst, periodLabel false]
          <:+ (buildSingleResult numToString commaRecord (Num.fin 1000000) (Num.fin 500000)
            scenarioCosts true (Num.fin 20) false).markdown
      ∧ tpl ["        <div class=\"k\">AIsa estimate</div>\n".toList,
            "        <div class=\"v\">".toList, '$' :: fEst, periodLabel false,
            "</div>\n".toList]
          <:+: (buildSingleResult numToString commaRecord (Num.fin 1000000) (Num.fin 500000)
            scenarioCosts true (Num.fin 20) false).html :=
  (rendered_figures_agree numToString commaRecord commaRecord commaRecord
    (Num.fin 1000000) (Num.fin 500000) scenarioCosts scenarioCosts scenarioCosts true
    (Num.fin 20) false (by decide) (by decide) (by decide) (by decide) (by decide)
    (by decide)).2.1 rfl

/-! ### C8 and C10: failures and rows of the loader -/

theorem indexOfFrom_nonneg_or (name : Str) (l : List Str) (i : Nat) :
    (indexOfFrom name l i = -1 ∧ name ∉ l) ∨ ((i : Int) ≤ indexOfFrom name l i ∧ name ∈ l) := by
  induction l generalizing i with
  | nil => exact Or.inl ⟨rfl, by simp⟩
  | cons h t ih =>
    unfold indexOfFrom
    by_cases e : h = name
    · rw [if_pos e]; exact Or.inr ⟨le_rfl, by simp [e]⟩
    · rw [if_neg e]
      rcases ih (i + 1) with ⟨h1, h2⟩ | ⟨h1, h2⟩
      · exact Or.inl ⟨h1, by simp [h2, Ne.symm e]⟩
      · exact Or.inr ⟨by omega, List.mem_cons_of_mem _ h2⟩

theorem indexOfName_eq_neg_one (header : List Str) (name : Str) :
    indexOfName header name = -1 ↔ name ∉ header := by
  unfold indexOfName
  rcases indexOfFrom_nonneg_or name header 0 with ⟨h1, h2⟩ | ⟨h1, h2⟩
  · exact ⟨fun _ => h2, fun _ => h1⟩
  · constructor
    · intro h; omega
    · intro h; exact absurd h2 h

theorem parseRow_eq (text line : Str) :
    parseRow (indexOfName (headerCells text) "Provider".toList)
        (indexOfName (headerCells text) "Model".toList)
        (indexOfName (headerCells text) "Input $/1M".toList)
        (indexOfName (headerCells text) "Output $/1M".toList) line
      = if rowSurvives text line = true then some (rowRecord text line) else none := by
  unfold parseRow rowSurvives rowRecord rateOf cellOf
  simp only []
  generalize trim (colAt (splitTabs line)
    (indexOfName (headerCells text) "Provider".toList)) = p
  generalize trim (colAt (splitTabs line)
    (indexOfName (headerCells text) "Model".toList)) = m
  generalize parseNumber (stripMoney (trim (colAt (splitTabs line)
    (indexOfName (headerCells text) "Input $/1M".toList)))) = i
  generalize parseNumber (stripMoney (trim (colAt (splitTabs line)
    (indexOfName (headerCells text) "Output $/1M".toList)))) = o
  by_cases h1 : p = []
  · simp [h1]
  · by_cases h2 : m = []
    · simp [h2]
    · cases h3 : i.isFinite <;> cases h4 : o.isFinite <;> simp [h1, h2]

theorem filterMap_ite_eq {α β : Type} (keep : α → Bool) (build : α → β) (l : List α) :
    l.filterMap (fun x => if keep x = true then some (build x) else none)
      = (l.filter keep).map build := by
  induction l with
  | nil => rfl
  | cons x xs ih =>
    by_cases h : keep x = true
    · simp [List.filterMap_cons, h, ih]
    · simp [List.filterMap_cons, h, ih]

/-- What the loader does on a text, in the vocabulary of the claims. -/
theorem loadPricingTSV_eq (text : Str) :
    loadPricingTSV text =
      if (splitLines (trim text)).length < 2 then
        Except.error
          "pricing.tsv looks empty. Paste your dataset including the header row.".toList
      else if "Provider".toList ∉ headerCells text ∨ "Model".toList ∉ headerCells text
          ∨ "Input $/1M".toList ∉ headerCells text ∨ "Output $/1M".toList ∉ headerCells text then
        Except.error
          "pricing.tsv missing required headers. Must include: Provider, Model, Input $/1M, Output $/1M".toList
      else if ((dataLines text).filter (rowSurvives text)).map (rowRecord text) = [] then
        Except.error
          "No valid rows found. Check that Input $/1M and Output $/1M are numeric (like $1.25).".toList
      else Except.ok (((dataLines text).filter (rowSurvives text)).map (rowRecord text)) := by
  unfold loadPricingTSV loadFromLines
  simp only []
  by_cases h1 : (splitLines (trim text)).length < 2
  · simp only [if_pos h1]
  · simp only [if_neg h1]
    have hfm : List.filterMap
          (parseRow (indexOfName (headerCells text) "Provider".toList)
            (indexOfName (headerCells text) "Model".toList)
            (indexOfName (headerCells text) "Input $/1M".toList)
            (indexOfName (headerCells text) "Output $/1M".toList)) (dataLines text)
        = ((dataLines text).filter (rowSurvives text)).map (rowRecord text) := by
      rw [← filterMap_ite_eq]
      congr 1
      funext line
      exact parseRow_eq text line
    simp only [indexOfName_eq_neg_one]
    by_cases h2 : "Provider".toList ∉ headerCells text ∨ "Model".toList ∉ headerCells text
          ∨ "Input $/1M".toList ∉ headerCells text ∨ "Output $/1M".toList ∉ headerCells text
    · have h2' := h2
      unfold headerCells at h2'
      rw [if_pos h2', if_pos h2]
    · have h2' := h2
      unfold headerCells at h2'
      rw [if_neg h2', if_neg h2]
      have hfm' := hfm
      unfold headerCells dataLines at hfm'
      rw [hfm']
      simp only [List.length_eq_zero]
      rfl

/-- C8: parsing a pricing text fails if and only if the trimmed text has fewer
than 2 lines, or the header line (split on tab, cells trimmed) lacks one of
`Provider`, `Model`, `Input $/1M`, `Output $/1M`, or no data row survives
validation; in every other case it returns a non-empty list of records. -/
theorem loadPricingTSV_fails_iff (text : Str) :
    ((∃ msg, loadPricingTSV text = Except.error msg) ↔ LoadFailure text)
    ∧ (¬ LoadFailure text → ∃ rows, loadPricingTSV text = Except.ok rows ∧ rows ≠ []) := by
  have hnil : ((dataLines text).filter (rowSurvives text)).map (rowRecord text) = []
      ↔ ∀ line ∈ dataLines text, rowSurvives text line = false := by
    simp [List.filter_eq_nil_iff]
  rw [loadPricingTSV_eq]
  unfold LoadFailure
  by_cases h1 : (splitLines (trim text)).length < 2
  · simp only [if_pos h1]
    exact ⟨⟨fun _ => Or.inl h1, fun _ => ⟨_, rfl⟩⟩, fun h => absurd (Or.inl h1) h⟩
  · simp only [if_neg h1]
    by_cases h2 : "Provider".toList ∉ headerCells text ∨ "Model".toList ∉ headerCells text
          ∨ "Input $/1M".toList ∉ headerCells text ∨ "Output $/1M".toList ∉ headerCells text
    · simp only [if_pos h2]
      exact ⟨⟨fun _ => Or.inr (Or.inl h2), fun _ => ⟨_, rfl⟩⟩,
        fun h => absurd (Or.inr (Or.inl h2)) h⟩
    · simp only [if_neg h2]
      by_cases h3 : ((dataLines text).filter (rowSurvives text)).map (rowRecord text) = []
      · simp only [if_pos h3]
        exact ⟨⟨fun _ => Or.inr (Or.inr (hnil.mp h3)), fun _ => ⟨_, rfl⟩⟩,
          fun h => absurd (Or.inr (Or.inr (hnil.mp h3))) h⟩
      · simp only [if_neg h3]
        refine ⟨⟨(fun hm => by obtain ⟨msg, hm⟩ := hm; cases hm), fun h => ?_⟩, fun _ => ⟨_, rfl, h3⟩⟩
        rcases h with h | h | h
        · exact absurd h h1
        · exact absurd h h2
        · exact absurd (hnil.mpr h) h3

/-- C8 at a dataset with one bad row among three: no failure condition holds
and the load returns a non-empty list. -/
theorem loadPricingTSV_fails_iff_witness :
    ¬ LoadFailure naDataset
    ∧ ∃ rows, loadPricingTSV naDataset = Except.ok rows ∧ rows ≠ [] :=
  ⟨by decide!, (loadPricingTSV_fails_iff naDataset).2 (by decide!)⟩

/-- C10: when the load succeeds, the returned list is exactly the data rows, in
their original order, whose provider and model are non-empty after trimming and
whose two rate cells both parse as finite numbers (after the removal of one `$`
and one comma), each turned into its record; a row whose input rate is not
numeric is left out and every surviving row of the dataset is returned; in the
example the `N/A` row is dropped and the other two rows are returned. -/
theorem loadPricingTSV_rows (text : Str) (rows : List PricingRecord)
    (h : loadPricingTSV text = Except.ok rows) :
    rows = ((dataLines text).filter (rowSurvives text)).map (rowRecord text)
    ∧ (∀ line ∈ dataLines text,
        rateOf (cellOf text "Input $/1M".toList line) = Num.nan →
          rowSurvives text line = false ∧ rowRecord text line ∉ rows)
    ∧ (∀ line ∈ dataLines text, rowSurvives text line = true → rowRecord text line ∈ rows)
    ∧ rateOf "N/A".toList = Num.nan
    ∧ loadPricingTSV naDataset = Except.ok
        [⟨"OpenAI".toList, "gpt-5".toList, Num.fin (5 / 4), Num.fin 10⟩,
         ⟨"Acme".toList, "bar".toList, Num.fin (5 / 8), Num.fin 5⟩] := by
  have hrows : rows = ((dataLines text).filter (rowSurvives text)).map (rowRecord text) := by
    rw [loadPricingTSV_eq] at h
    split at h
    · cases h
    · split at h
      · cases h
      · split at h
        · cases h
        · injection h with h; exact h.symm
  refine ⟨hrows, ?_, ?_, by decide!, by decide!⟩
  · intro line _ hnan
    have hs : rowSurvives text line = false := by
      unfold rowSurvives
      rw [hnan]
      simp [Num.isFinite]
    refine ⟨hs, ?_⟩
    rw [hrows]
    intro hmem
    obtain ⟨l2, hl2, heq⟩ := List.mem_map.mp hmem
    have hsurv : rowSurvives text l2 = true := (List.mem_filter.mp hl2).2
    have hin : (rowRecord text l2).input_per_1m = (rowRecord text line).input_per_1m := by
      rw [heq]
    have hfin : (rateOf (cellOf text "Input $/1M".toList l2)).isFinite = true := by
      unfold rowSurvives at hsurv
      simp only [Bool.and_eq_true] at hsurv
      exact hsurv.1.2
    have : rateOf (cellOf text "Input $/1M".toList l2) = Num.nan := by
      have := hin
      simp only [rowRecord] at this
      rw [this, hnan]
    rw [this] at hfin
    exact absurd hfin (by decide)
  · intro line hl hs
    rw [hrows]
    exact List.mem_map.mpr ⟨line, List.mem_filter.mpr ⟨hl, hs⟩, rfl⟩

/-- C10 at the example dataset: the two well-formed rows are returned in
order. -/
theorem loadPricingTSV_rows_witness :
    [⟨"OpenAI".toList, "gpt-5".toList, Num.fin (5 / 4), Num.fin 10⟩,
     ⟨"Acme".toList, "bar".toList, Num.fin (5 / 8), Num.fin 5⟩]
      = ((dataLines naDataset).filter (rowSurvives naDataset)).map (rowRecord naDataset) :=
  (loadPricingTSV_rows naDataset
    [⟨"OpenAI".toList, "gpt-5".toList, Num.fin (5 / 4), Num.fin 10⟩,
     ⟨"Acme".toList, "bar".toList, Num.fin (5 / 8), Num.fin 5⟩] (by decide!)).1

/-! ### C9: column order -/

theorem consHead_ne_nil (c : Char) (fs : List Str) : consHead c fs ≠ [] := by
  cases fs <;> simp [consHead]

theorem splitLines_ne_nil (s : Str) : splitLines s ≠ [] := by
  induction s using splitLines.induct with
  | case1 => simp [splitLines]
  | case2 rest _ => simp [splitLines]
  | case3 rest _ => simp [splitLines]
  | case4 c rest _ _ _ =>
    rw [splitLines]
    · exact consHead_ne_nil _ _
    all_goals simp_all

theorem splitLines_cons_plain (c : Char) (rest : Str) (h1 : c ≠ '\n') (h2 : c ≠ '\r') :
    splitLines (c :: rest) = consHead c (splitLines rest) := by
  rw [splitLines]
  · intro r hr _; exact h2 hr
  · intro hr; exact h1 hr

theorem splitLines_newline (rest : Str) : splitLines ('\n' :: rest) = [] :: splitLines rest := by
  rw [splitLines]

/-- A stretch without line breaks stays in the current line. -/
theorem splitLines_run (l rest : Str) (h : ∀ c ∈ l, c ≠ '\n' ∧ c ≠ '\r') :
    splitLines (l ++ rest) = prependHead l (splitLines rest) := by
  induction l with
  | nil => exact (prependHead_nil _ (splitLines_ne_nil rest)).symm
  | cons c l ih =>
    have hc := h c (by simp)
    rw [List.cons_append, splitLines_cons_plain _ _ hc.1 hc.2,
      ih (fun x hx => h x (List.mem_cons_of_mem _ hx)), consHead_prependHead]

theorem joinWith_cons_cons (sep x y : Str) (ys : List Str) :
    joinWith sep (x :: y :: ys) = x ++ (sep ++ joinWith sep (y :: ys)) := by
  simp [joinWith, List.intercalate]

theorem joinWith_singleton (sep x : Str) : joinWith sep [x] = x := by
  simp [joinWith, List.intercalate]

theorem joinWith_snoc (sep : Str) (xs : List Str) (hne : xs ≠ []) (y : Str) :
    joinWith sep (xs ++ [y]) = joinWith sep xs ++ (sep ++ y) := by
  induction xs with
  | nil => exact absurd rfl hne
  | cons x xs ih =>
    cases xs with
    | nil => simp [joinWith_cons_cons, joinWith_singleton]
    | cons z zs =>
      rw [List.cons_append, List.cons_append, joinWith_cons_cons, ← List.cons_append,
        ih (by simp), joinWith_cons_cons]
      simp

/-- Splitting the join of lines without line breaks gives the lines back. -/
theorem splitLines_join (lines : List Str) (hne : lines ≠ [])
    (h : ∀ l ∈ lines, ∀ c ∈ l, c ≠ '\n' ∧ c ≠ '\r') :
    splitLines (joinWith "\n".toList lines) = lines := by
  induction lines with
  | nil => exact absurd rfl hne
  | cons l ls ih =>
    cases ls with
    | nil =>
      rw [joinWith_singleton]
      have := splitLines_run l [] (h l (by simp))
      rw [List.append_nil] at this
      rw [this]
      simp [splitLines, prependHead]
    | cons m ms =>
      rw [joinWith_cons_cons, splitLines_run l _ (h l (by simp))]
      show prependHead l (splitLines ('\n' :: joinWith "\n".toList (m :: ms))) = _
      rw [splitLines_newline, ih (by simp) (fun x hx => h x (List.mem_cons_of_mem _ hx))]
      simp [prependHead]

theorem rdropWhile_append_of_all {α : Type} (p : α → Bool) (a b : List α)
    (h : ∀ x ∈ b, p x = true) : (a ++ b).rdropWhile p = a.rdropWhile p := by
  induction b using List.reverseRecOn with
  | nil => simp
  | append_singleton b x ih =>
    rw [← List.append_assoc, List.rdropWhile_concat_pos _ _ _ (h x (by simp))]
    exact ih (fun y hy => h y (by simp [hy]))

theorem rdropWhile_append_of_not_all {α : Type} (p : α → Bool) (a b : List α)
    (h : ∃ x ∈ b, p x = false) : (a ++ b).rdropWhile p = a ++ b.rdropWhile p := by
  induction b using List.reverseRecOn with
  | nil => obtain ⟨x, hx, _⟩ := h; cases hx
  | append_singleton b x ih =>
    by_cases hx : p x = true
    · rw [← List.append_assoc, List.rdropWhile_concat_pos _ _ _ hx,
        List.rdropWhile_concat_pos _ _ _ hx]
      apply ih
      obtain ⟨y, hy, hpy⟩ := h
      rcases List.mem_append.mp hy with hy | hy
      · exact ⟨y, hy, hpy⟩
      · simp only [List.mem_singleton] at hy
        subst hy
        rw [hx] at hpy; cases hpy
    · rw [← List.append_assoc, List.rdropWhile_concat_neg _ _ _ hx,
        List.rdropWhile_concat_neg _ _ _ hx, List.append_assoc]

theorem rdropWhile_decomp {α : Type} (p : α → Bool) (l : List α) :
    ∃ s, l = l.rdropWhile p ++ s ∧ ∀ x ∈ s, p x = true := by
  induction l using List.reverseRecOn with
  | nil => exact ⟨[], by simp, by simp⟩
  | append_singleton l x ih =>
    by_cases hx : p x = true
    · obtain ⟨s, hs, hall⟩ := ih
      refine ⟨s ++ [x], ?_, ?_⟩
      · rw [List.rdropWhile_concat_pos _ _ _ hx, ← List.append_assoc, ← hs]
      · intro y hy
        rcases List.mem_append.mp hy with hy | hy
        · exact hall y hy
        · simp only [List.mem_singleton] at hy; rw [hy]; exact hx
    · exact ⟨[], by rw [List.rdropWhile_concat_neg _ _ _ hx]; simp, by simp⟩

theorem trim_of_all_space (s : Str) (h : ∀ c ∈ s, isJsSpace c = true) : trim s = [] := by
  unfold trim
  have : s.dropWhile isJsSpace = [] := List.dropWhile_eq_nil_iff.mpr h
  rw [this]; rfl

theorem trim_append_space (s t : Str) (h : ∀ c ∈ t, isJsSpace c = true) :
    trim (s ++ t) = trim s := by
  unfold trim
  by_cases hs : ∀ c ∈ s, isJsSpace c = true
  · have h1 : (s ++ t).dropWhile isJsSpace = [] :=
      List.dropWhile_eq_nil_iff.mpr (fun c hc => by
        rcases List.mem_append.mp hc with hc | hc
        · exact hs c hc
        · exact h c hc)
    have h2 : s.dropWhile isJsSpace = [] := List.dropWhile_eq_nil_iff.mpr hs
    rw [h1, h2]
  · have hne : s.dropWhile isJsSpace ≠ [] := fun e => hs (List.dropWhile_eq_nil_iff.mp e)
    have h1 : (s ++ t).dropWhile isJsSpace = s.dropWhile isJsSpace ++ t := by
      rw [List.dropWhile_append]
      simp [hne]
    rw [h1, rdropWhile_append_of_all _ _ _ h]

theorem splitTabs_ne_nil (s : Str) : splitTabs s ≠ [] := by
  cases s with
  | nil => simp [splitTabs]
  | cons c r =>
    simp only [splitTabs]
    split
    · simp
    · exact consHead_ne_nil _ _

theorem splitTabs_snoc_tab (a : Str) : splitTabs (a ++ ['\t']) = splitTabs a ++ [[]] := by
  induction a with
  | nil => simp [splitTabs]
  | cons c a ih =>
    rw [List.cons_append]
    simp only [splitTabs]
    split
    · rw [ih]; rfl
    · rw [ih]
      cases h : splitTabs a with
      | nil => exact absurd h (splitTabs_ne_nil a)
      | cons f fs => rfl

theorem consHead_snocLast (c w : Char) (fs : List Str) (h : fs ≠ []) :
    consHead c (snocLast fs w) = snocLast (consHead c fs) w := by
  cases fs with
  | nil => exact absurd rfl h
  | cons f fs =>
    cases fs with
    | nil => rfl
    | cons g gs => rfl

theorem splitTabs_snoc_plain (a : Str) (w : Char) (hw : w ≠ '\t') :
    splitTabs (a ++ [w]) = snocLast (splitTabs a) w := by
  induction a with
  | nil => simp [splitTabs, hw, consHead, snocLast]
  | cons c a ih =>
    rw [List.cons_append]
    simp only [splitTabs]
    split
    · rw [ih]
      cases h : splitTabs a with
      | nil => exact absurd h (splitTabs_ne_nil a)
      | cons f fs => rfl
    · rw [ih, consHead_snocLast _ _ _ (splitTabs_ne_nil a)]

theorem trim_getD_snocLast (fs : List Str) (w : Char) (hw : isJsSpace w = true) (j : Nat) :
    trim ((snocLast fs w).getD j []) = trim (fs.getD j []) := by
  induction fs generalizing j with
  | nil =>
    cases j with
    | zero => exact trim_append_space [] [w] (by simpa using hw)
    | succ j => rfl
  | cons f fs ih =>
    cases fs with
    | nil =>
      cases j with
      | zero => exact trim_append_space f [w] (by simpa using hw)
      | succ j => rfl
    | cons g gs =>
      cases j with
      | zero => rfl
      | succ j => exact ih j

theorem trim_getD_snoc_nil (fs : List Str) (j : Nat) :
    trim ((fs ++ [[]]).getD j []) = trim (fs.getD j []) := by
  induction fs generalizing j with
  | nil => cases j <;> rfl
  | cons f fs ih =>
    cases j with
    | zero => rfl
    | succ j => exact ih j

/-- Trailing white space in a line does not change any trimmed cell. -/
theorem trim_cell_append_space (a s : Str) (hs : ∀ c ∈ s, isJsSpace c = true) (j : Nat) :
    trim ((splitTabs (a ++ s)).getD j []) = trim ((splitTabs a).getD j []) := by
  induction s generalizing a with
  | nil => rw [List.append_nil]
  | cons w s ih =>
    have e : a ++ w :: s = (a ++ [w]) ++ s := by simp
    rw [e, ih (a ++ [w]) (fun c hc => hs c (List.mem_cons_of_mem _ hc))]
    have hw : isJsSpace w = true := hs w (by simp)
    by_cases ht : w = '\t'
    · subst ht; rw [splitTabs_snoc_tab]; exact trim_getD_snoc_nil _ j
    · rw [splitTabs_snoc_plain _ _ ht]; exact trim_getD_snocLast _ _ hw j

theorem trim_colAt_append_space (a s : Str) (hs : ∀ c ∈ s, isJsSpace c = true) (idx : Int) :
    trim (colAt (splitTabs (a ++ s)) idx) = trim (colAt (splitTabs a) idx) := by
  unfold colAt
  split
  · exact trim_cell_append_space a s hs _
  · rfl

theorem parseRow_append_space (a s : Str) (hs : ∀ c ∈ s, isJsSpace c = true)
    (i1 i2 i3 i4 : Int) : parseRow i1 i2 i3 i4 (a ++ s) = parseRow i1 i2 i3 i4 a := by
  unfold parseRow
  simp only [trim_colAt_append_space a s hs]

theorem parseRow_trimEnd (r : Str) (i1 i2 i3 i4 : Int) :
    parseRow i1 i2 i3 i4 (r.rdropWhile isJsSpace) = parseRow i1 i2 i3 i4 r := by
  obtain ⟨s, hs, hall⟩ := rdropWhile_decomp isJsSpace r
  conv_rhs => rw [hs]
  exact (parseRow_append_space _ s hall i1 i2 i3 i4).symm

theorem parseRow_blank (r : Str) (hr : ∀ c ∈ r, isJsSpace c = true) (i1 i2 i3 i4 : Int) :
    parseRow i1 i2 i3 i4 r = none := by
  have h := parseRow_append_space [] r hr i1 i2 i3 i4
  rw [List.nil_append] at h
  rw [h]
  unfold parseRow
  have hp : trim (colAt (splitTabs []) i1) = [] := by
    unfold colAt
    split
    · cases i1.toNat <;> rfl
    · rfl
  simp only [hp, true_or, if_true]

theorem loadFromLines_cons_cons (h x : Str) (xs : List Str) :
    loadFromLines (h :: x :: xs) = loadRows h (x :: xs) := by
  unfold loadFromLines loadRows
  have h1 : ¬ ((h :: x :: xs).length < 2) := by simp
  rw [if_neg h1]
  rfl

theorem loadFromLines_cons (h : Str) (R : List Str) (hne : R ≠ []) :
    loadFromLines (h :: R) = loadRows h R := by
  obtain ⟨x, xs, rfl⟩ := List.exists_cons_of_ne_nil hne
  exact loadFromLines_cons_cons h x xs

theorem loadFromLines_singleton (h : Str) :
    loadFromLines [h] = Except.error
      "pricing.tsv looks empty. Paste your dataset including the header row.".toList := by
  unfold loadFromLines
  rw [if_pos (by simp)]

theorem loadRows_snoc_dead (h : Str) (R0 : List Str) (r : Str)
    (hr : ∀ i1 i2 i3 i4, parseRow i1 i2 i3 i4 r = none) :
    loadRows h (R0 ++ [r]) = loadRows h R0 := by
  unfold loadRows
  simp only [List.filterMap_append, List.filterMap_cons, List.filterMap_nil, hr,
    List.append_nil]

theorem loadRows_snoc_congr (h : Str) (R0 : List Str) (r r' : Str)
    (hr : ∀ i1 i2 i3 i4, parseRow i1 i2 i3 i4 r = parseRow i1 i2 i3 i4 r') :
    loadRows h (R0 ++ [r]) = loadRows h (R0 ++ [r']) := by
  unfold loadRows
  simp only [List.filterMap_append, List.filterMap_cons, List.filterMap_nil, hr]

/-- The loader on a text made of a header line and data lines: trailing blank
lines are cut by the `trim` of the text, and then the rows are read. -/
theorem load_joined (h : Str) (R : List Str)
    (hlast : h.rdropWhile isJsSpace = h)
    (hh : ∀ c ∈ h, c ≠ '\n' ∧ c ≠ '\r')
    (hR : ∀ r ∈ R, ∀ c ∈ r, c ≠ '\n' ∧ c ≠ '\r') :
    loadFromLines (splitLines ((joinWith "\n".toList (h :: R)).rdropWhile isJsSpace))
      = if R.all (fun r => r.all isJsSpace) = true then
          Except.error
            "pricing.tsv looks empty. Paste your dataset including the header row.".toList
        else loadRows h R := by
  induction R using List.reverseRecOn with
  | nil =>
    rw [joinWith_singleton, hlast]
    have : splitLines h = [h] := by
      have := splitLines_join [h] (by simp) (by simpa using hh)
      rwa [joinWith_singleton] at this
    rw [this, loadFromLines_singleton]
    simp
  | append_singleton R0 r ih =>
    have hR0 : ∀ r ∈ R0, ∀ c ∈ r, c ≠ '\n' ∧ c ≠ '\r' :=
      fun x hx => hR x (List.mem_append_left _ hx)
    have hr : ∀ c ∈ r, c ≠ '\n' ∧ c ≠ '\r' := hR r (by simp)
    have hjoin : joinWith "\n".toList (h :: (R0 ++ [r]))
        = joinWith "\n".toList (h :: R0) ++ ("\n".toList ++ r) := by
      rw [← List.cons_append]
      exact joinWith_snoc _ _ (by simp) _
    have hall : (R0 ++ [r]).all (fun r => r.all isJsSpace)
        = (R0.all (fun r => r.all isJsSpace) && r.all isJsSpace) := by
      simp [List.all_append]
    by_cases hb : ∀ c ∈ r, isJsSpace c = true
    · have hrb : r.all isJsSpace = true := List.all_eq_true.mpr hb
      have hsp : ∀ c ∈ "\n".toList ++ r, isJsSpace c = true := by
        intro c hc
        rcases List.mem_append.mp hc with hc | hc
        · simp only [String.toList, List.mem_singleton] at hc
          have : c = '\n' := by simpa using hc
          subst this; decide
        · exact hb c hc
      rw [hjoin, rdropWhile_append_of_all _ _ _ hsp, ih hR0, hall, hrb, Bool.and_true]
      by_cases h0 : R0.all (fun r => r.all isJsSpace) = true
      · rw [if_pos h0, if_pos h0]
      · rw [if_neg h0, if_neg h0]
        exact (loadRows_snoc_dead h R0 r (fun _ _ _ _ => parseRow_blank r hb _ _ _ _)).symm
    · have hex : ∃ c ∈ r, isJsSpace c = false := by
        by_contra hcon
        apply hb
        intro c hc
        by_contra hc2
        exact hcon ⟨c, hc, by simpa using hc2⟩
      have hrb : r.all isJsSpace = false := by
        obtain ⟨c, hc, hc2⟩ := hex
        rw [List.all_eq_false]
        exact ⟨c, hc, by simp [hc2]⟩
      have hex2 : ∃ c ∈ "\n".toList ++ r, isJsSpace c = false := by
        obtain ⟨c, hc, hc2⟩ := hex
        exact ⟨c, List.mem_append_right _ hc, hc2⟩
      have htrim : ∀ c ∈ r.rdropWhile isJsSpace, c ≠ '\n' ∧ c ≠ '\r' :=
        fun c hc => hr c ((List.rdropWhile_prefix isJsSpace r).subset hc)
      rw [hjoin, rdropWhile_append_of_not_all _ _ _ hex2,
        rdropWhile_append_of_not_all _ _ _ hex,
        ← joinWith_snoc _ (h :: R0) (by simp) (r.rdropWhile isJsSpace)]
      rw [splitLines_join _ (by simp)]
      · rw [List.cons_append, loadFromLines_cons _ _ (by simp),
          loadRows_snoc_congr h R0 _ r (fun _ _ _ _ => parseRow_trimEnd r _ _ _ _),
          hall, hrb, Bool.and_false, if_neg (by simp)]
      · intro l hl
        rw [List.cons_append] at hl
        rcases List.mem_cons.mp hl with hl | hl
        · rw [hl]; exact hh
        · rcases List.mem_append.mp hl with hl | hl
          · exact hR0 l hl
          · simp only [List.mem_singleton] at hl
            rw [hl]; exact htrim

theorem splitTabs_run (l rest : Str) (h : '\t' ∉ l) :
    splitTabs (l ++ rest) = prependHead l (splitTabs rest) := by
  induction l with
  | nil => exact (prependHead_nil _ (splitTabs_ne_nil rest)).symm
  | cons c l ih =>
    have hc : c ≠ '\t' := fun e => h (by simp [e])
    rw [List.cons_append]
    simp only [splitTabs, if_neg hc]
    rw [ih (fun hm => h (List.mem_cons_of_mem _ hm)), consHead_prependHead]

/-- Splitting the join of cells without tabs gives the cells back. -/
theorem splitTabs_join (cells : List Str) (hne : cells ≠ []) (h : ∀ l ∈ cells, '\t' ∉ l) :
    splitTabs (joinWith "\t".toList cells) = cells := by
  induction cells with
  | nil => exact absurd rfl hne
  | cons l ls ih =>
    cases ls with
    | nil =>
      rw [joinWith_singleton]
      have := splitTabs_run l [] (h l (by simp))
      rw [List.append_nil] at this
      rw [this]
      simp [splitTabs, prependHead]
    | cons m ms =>
      rw [joinWith_cons_cons, splitTabs_run l _ (h l (by simp))]
      show prependHead l (splitTabs ('\t' :: joinWith "\t".toList (m :: ms))) = _
      have e : splitTabs ('\t' :: joinWith "\t".toList (m :: ms))
          = [] :: splitTabs (joinWith "\t".toList (m :: ms)) := by
        simp [splitTabs]
      rw [e, ih (by simp) (fun x hx => h x (List.mem_cons_of_mem _ hx))]
      simp [prependHead]

theorem ofFn_four {α : Type} (f : Fin 4 → α) : List.ofFn f = [f 0, f 1, f 2, f 3] := by
  simp [List.ofFn_succ]
  rfl

theorem lineOf_eq (σ : Equiv.Perm (Fin 4)) (cells : Fin 4 → Str) :
    lineOf σ cells
      = cells (σ 0) ++ ('\t' :: (cells (σ 1) ++ ('\t' :: (cells (σ 2) ++ ('\t' :: cells (σ 3)))))) := by
  unfold lineOf
  rw [ofFn_four]
  simp [joinWith, List.intercalate]

theorem columnName_facts : ∀ i : Fin 4,
    '\t' ∉ columnName i ∧ '\n' ∉ columnName i ∧ '\r' ∉ columnName i
    ∧ trim (columnName i) = columnName i
    ∧ (columnName i).rdropWhile isJsSpace = columnName i
    ∧ (columnName i).dropWhile isJsSpace = columnName i
    ∧ columnName i ≠ [] := by
  decide

theorem columnName_injective : ∀ i j : Fin 4, columnName i = columnName j → i = j := by
  decide

theorem header_line_facts (σ : Equiv.Perm (Fin 4)) :
    (lineOf σ columnName).rdropWhile isJsSpace = lineOf σ columnName
    ∧ (lineOf σ columnName).dropWhile isJsSpace = lineOf σ columnName
    ∧ lineOf σ columnName ≠ []
    ∧ (∀ c ∈ lineOf σ columnName, c ≠ '\n' ∧ c ≠ '\r')
    ∧ (splitTabs (lineOf σ columnName)).map trim
        = [columnName (σ 0), columnName (σ 1), columnName (σ 2), columnName (σ 3)] := by
  obtain ⟨t0, n0, r0, tr0, rd0, dd0, ne0⟩ := columnName_facts (σ 0)
  obtain ⟨t1, n1, r1, tr1, rd1, dd1, ne1⟩ := columnName_facts (σ 1)
  obtain ⟨t2, n2, r2, tr2, rd2, dd2, ne2⟩ := columnName_facts (σ 2)
  obtain ⟨t3, n3, r3, tr3, rd3, dd3, ne3⟩ := columnName_facts (σ 3)
  refine ⟨?_, ?_, ?_, ?_, ?_⟩
  · rw [lineOf_eq]
    have hex : ∃ x ∈ columnName (σ 3), isJsSpace x = false := by
      by_contra hcon
      have hall : ∀ x ∈ columnName (σ 3), isJsSpace x = true := by
        intro x hx
        by_contra hx2
        exact hcon ⟨x, hx, by simpa using hx2⟩
      have := (List.rdropWhile_eq_nil_iff (p := isJsSpace)).mpr hall
      rw [rd3] at this
      exact ne3 this
    have e : columnName (σ 0) ++ ('\t' :: (columnName (σ 1) ++ ('\t' :: (columnName (σ 2)
          ++ ('\t' :: columnName (σ 3))))))
        = (columnName (σ 0) ++ ('\t' :: (columnName (σ 1) ++ ('\t' :: (columnName (σ 2)
          ++ ['\t']))))) ++ columnName (σ 3) := by simp
    rw [e, rdropWhile_append_of_not_all _ _ _ hex, rd3]
  · rw [lineOf_eq]
    obtain ⟨c, cs, hc⟩ := List.exists_cons_of_ne_nil ne0
    rw [hc] at dd0 ⊢
    have hcf : isJsSpace c = false := by
      by_contra hcon
      have hct : isJsSpace c = true := by simpa using hcon
      rw [List.dropWhile_cons_of_pos hct] at dd0
      have := congrArg List.length dd0
      have hle := (List.dropWhile_suffix (p := isJsSpace) (l := cs)).length_le
      simp only [List.length_cons] at this
      omega
    rw [List.cons_append, List.dropWhile_cons_of_neg (by simp [hcf])]
  · rw [lineOf_eq]
    obtain ⟨c, cs, hc⟩ := List.exists_cons_of_ne_nil ne0
    rw [hc]; simp
  · intro c hc
    rw [lineOf_eq] at hc
    simp only [List.mem_append, List.mem_cons] at hc
    have ht : ('\t' : Char) ≠ '\n' ∧ ('\t' : Char) ≠ '\r' := by decide
    rcases hc with h | h | h | h | h | h | h
    · exact ⟨fun e => n0 (e ▸ h), fun e => r0 (e ▸ h)⟩
    · rw [h]; exact ht
    · exact ⟨fun e => n1 (e ▸ h), fun e => r1 (e ▸ h)⟩
    · rw [h]; exact ht
    · exact ⟨fun e => n2 (e ▸ h), fun e => r2 (e ▸ h)⟩
    · rw [h]; exact ht
    · exact ⟨fun e => n3 (e ▸ h), fun e => r3 (e ▸ h)⟩
  · unfold lineOf
    rw [ofFn_four, splitTabs_join _ (by simp)]
    · simp [tr0, tr1, tr2, tr3]
    · intro l hl
      simp only [List.mem_cons, List.mem_singleton, List.not_mem_nil, or_false] at hl
      rcases hl with h | h | h | h <;> rw [h] <;> assumption

theorem index_in_arranged (σ : Equiv.Perm (Fin 4)) (i : Fin 4) :
    indexOfName [columnName (σ 0), columnName (σ 1), columnName (σ 2), columnName (σ 3)]
        (columnName i)
      = (((σ.symm i : Fin 4) : Nat) : Int) := by
  have key : ∀ j : Fin 4, columnName (σ j) = columnName i ↔ j = σ.symm i := by
    intro j
    constructor
    · intro h
      have := columnName_injective _ _ h
      rw [← this]; simp
    · intro h; rw [h]; simp
  unfold indexOfName
  simp only [indexOfFrom, key]
  generalize σ.symm i = k
  revert k
  decide

theorem colAt_arranged (σ : Equiv.Perm (Fin 4)) (cells : Fin 4 → Str) (i : Fin 4) :
    colAt [cells (σ 0), cells (σ 1), cells (σ 2), cells (σ 3)]
        (((σ.symm i : Fin 4) : Nat) : Int) = cells i := by
  have h : ∀ k : Fin 4, colAt [cells (σ 0), cells (σ 1), cells (σ 2), cells (σ 3)]
      (((k : Fin 4) : Nat) : Int) = cells (σ k) := by
    intro k
    fin_cases k <;> rfl
  rw [h]; simp

/-- A row line in the arrangement `σ`, read with the column positions of the
header in the same arrangement, gives the record of the cells. -/
theorem parseRow_lineOf (σ : Equiv.Perm (Fin 4)) (cells : Fin 4 → Str)
    (hc : ∀ i, '\t' ∉ cells i) :
    parseRow (((σ.symm 0 : Fin 4) : Nat) : Int) (((σ.symm 1 : Fin 4) : Nat) : Int)
        (((σ.symm 2 : Fin 4) : Nat) : Int) (((σ.symm 3 : Fin 4) : Nat) : Int) (lineOf σ cells)
      = recordOfCells cells := by
  have hs : splitTabs (lineOf σ cells) = [cells (σ 0), cells (σ 1), cells (σ 2), cells (σ 3)] := by
    unfold lineOf
    rw [ofFn_four, splitTabs_join _ (by simp)]
    intro l hl
    simp only [List.mem_cons, List.mem_singleton, List.not_mem_nil, or_false] at hl
    rcases hl with h | h | h | h <;> rw [h] <;> exact hc _
  unfold parseRow recordOfCells
  simp only [hs, colAt_arranged]

theorem filterMap_arranged (σ : Equiv.Perm (Fin 4)) (rows : List (Fin 4 → Str))
    (hc : ∀ r ∈ rows, ∀ i, '\t' ∉ r i) :
    List.filterMap
        (parseRow (((σ.symm 0 : Fin 4) : Nat) : Int) (((σ.symm 1 : Fin 4) : Nat) : Int)
          (((σ.symm 2 : Fin 4) : Nat) : Int) (((σ.symm 3 : Fin 4) : Nat) : Int))
        (rows.map (lineOf σ))
      = rows.filterMap recordOfCells := by
  induction rows with
  | nil => rfl
  | cons r rs ih =>
    rw [List.map_cons, List.filterMap_cons, List.filterMap_cons,
      parseRow_lineOf σ r (hc r (by simp)), ih (fun x hx => hc x (List.mem_cons_of_mem _ hx))]

theorem loadRows_of_header (h : Str) (R : List Str) (cells : List Str) (i0 i1 i2 i3 : Nat)
    (hcells : (splitTabs h).map trim = cells)
    (h0 : indexOfName cells "Provider".toList = (i0 : Int))
    (h1 : indexOfName cells "Model".toList = (i1 : Int))
    (h2 : indexOfName cells "Input $/1M".toList = (i2 : Int))
    (h3 : indexOfName cells "Output $/1M".toList = (i3 : Int)) :
    loadRows h R
      = if (R.filterMap (parseRow i0 i1 i2 i3)).length = 0 then
          Except.error
            "No valid rows found. Check that Input $/1M and Output $/1M are numeric (like $1.25).".toList
        else Except.ok (R.filterMap (parseRow i0 i1 i2 i3)) := by
  have hnot : ¬ ((i0 : Int) = -1 ∨ (i1 : Int) = -1 ∨ (i2 : Int) = -1 ∨ (i3 : Int) = -1) := by
    omega
  unfold loadRows
  simp only [hcells, h0, h1, h2, h3, if_neg hnot]

theorem loadRows_dataset (σ : Equiv.Perm (Fin 4)) (rows : List (Fin 4 → Str))
    (hc : ∀ r ∈ rows, ∀ i, '\t' ∉ r i) :
    loadRows (lineOf σ columnName) (rows.map (lineOf σ))
      = if (rows.filterMap recordOfCells).length = 0 then
          Except.error
            "No valid rows found. Check that Input $/1M and Output $/1M are numeric (like $1.25).".toList
        else Except.ok (rows.filterMap recordOfCells) := by
  rw [loadRows_of_header _ _ _ _ _ _ _ (header_line_facts σ).2.2.2.2
    (index_in_arranged σ 0) (index_in_arranged σ 1) (index_in_arranged σ 2)
    (index_in_arranged σ 3), filterMap_arranged σ rows hc]

theorem lineOf_blank (σ : Equiv.Perm (Fin 4)) (cells : Fin 4 → Str) :
    (lineOf σ cells).all isJsSpace = blankRow cells := by
  have htab : isJsSpace '\t' = true := by decide
  have hiff : (∀ j : Fin 4, (cells (σ j)).all isJsSpace = true)
      ↔ ∀ i : Fin 4, (cells i).all isJsSpace = true := by
    constructor
    · intro h i
      have := h (σ.symm i)
      simpa using this
    · intro h j; exact h (σ j)
  have h4 : (∀ j : Fin 4, (cells (σ j)).all isJsSpace = true)
      ↔ ((cells (σ 0)).all isJsSpace = true ∧ (cells (σ 1)).all isJsSpace = true
        ∧ (cells (σ 2)).all isJsSpace = true ∧ (cells (σ 3)).all isJsSpace = true) := by
    constructor
    · intro h; exact ⟨h 0, h 1, h 2, h 3⟩
    · intro h j
      fin_cases j
      · exact h.1
      · exact h.2.1
      · exact h.2.2.1
      · exact h.2.2.2
  unfold blankRow
  rw [lineOf_eq]
  rw [Bool.eq_iff_iff]
  simp only [List.all_append, List.all_cons, htab, Bool.true_and, Bool.and_eq_true,
    decide_eq_true_eq]
  rw [← hiff, h4]

theorem lines_blank (σ : Equiv.Perm (Fin 4)) (rows : List (Fin 4 → Str)) :
    (rows.map (lineOf σ)).all (fun r => r.all isJsSpace) = rows.all blankRow := by
  induction rows with
  | nil => rfl
  | cons r rs ih =>
    rw [List.map_cons, List.all_cons, List.all_cons, ih, lineOf_blank]

theorem lineOf_no_break (σ : Equiv.Perm (Fin 4)) (cells : Fin 4 → Str)
    (hc : ∀ i, CleanCell (cells i)) : ∀ c ∈ lineOf σ cells, c ≠ '\n' ∧ c ≠ '\r' := by
  intro c hcm
  rw [lineOf_eq] at hcm
  simp only [List.mem_append, List.mem_cons] at hcm
  have ht : ('\t' : Char) ≠ '\n' ∧ ('\t' : Char) ≠ '\r' := by decide
  have hcell : ∀ i, c ∈ cells i → c ≠ '\n' ∧ c ≠ '\r' := fun i h =>
    ⟨fun e => (hc i).2.1 (e ▸ h), fun e => (hc i).2.2 (e ▸ h)⟩
  rcases hcm with h | h | h | h | h | h | h
  · exact hcell _ h
  · rw [h]; exact ht
  · exact hcell _ h
  · rw [h]; exact ht
  · exact hcell _ h
  · rw [h]; exact ht
  · exact hcell _ h

theorem trim_datasetText (σ : Equiv.Perm (Fin 4)) (rows : List (Fin 4 → Str)) :
    trim (datasetText σ rows) = (datasetText σ rows).rdropWhile isJsSpace := by
  obtain ⟨_, hd, hne, _, _⟩ := header_line_facts σ
  have hstart : ∃ rest, datasetText σ rows = lineOf σ columnName ++ rest := by
    unfold datasetText
    cases h : rows.map (lineOf σ) with
    | nil => exact ⟨[], by rw [joinWith_singleton]; simp⟩
    | cons x xs => exact ⟨_, joinWith_cons_cons _ _ _ _⟩
  obtain ⟨rest, hrest⟩ := hstart
  obtain ⟨c, cs, hcs⟩ := List.exists_cons_of_ne_nil hne
  have hcf : isJsSpace c = false := by
    by_contra hcon
    have hct : isJsSpace c = true := by simpa using hcon
    rw [hcs, List.dropWhile_cons_of_pos hct] at hd
    have := congrArg List.length hd
    have hle := (List.dropWhile_suffix (p := isJsSpace) (l := cs)).length_le
    simp only [List.length_cons] at this
    omega
  unfold trim
  rw [hrest, hcs, List.cons_append, List.dropWhile_cons_of_neg (by simp [hcf])]

/-- The loader on a dataset text in any column arrangement. -/
theorem loadPricingTSV_datasetText (σ : Equiv.Perm (Fin 4)) (rows : List (Fin 4 → Str))
    (h : ∀ r ∈ rows, ∀ i, CleanCell (r i)) :
    loadPricingTSV (datasetText σ rows) = loadDataset rows := by
  obtain ⟨hlast, _, _, hbreak, _⟩ := header_line_facts σ
  unfold loadPricingTSV
  rw [trim_datasetText]
  unfold datasetText
  rw [load_joined _ _ hlast hbreak, lines_blank, loadRows_dataset σ rows (fun r hr i => (h r hr i).1)]
  · rfl
  · intro l hl
    obtain ⟨r, hr, rfl⟩ := List.mem_map.mp hl
    exact lineOf_no_break σ r (h r hr)

/-- C9: for every arrangement `σ` of the four required columns and every
dataset whose rows have four cells without tabs and line breaks, the loader's
result on the text with header and rows arranged by `σ` equals its result on
the text in the canonical column order: the same records in the same order, or
the same failure. -/
theorem loadPricingTSV_column_order (σ : Equiv.Perm (Fin 4)) (rows : List (Fin 4 → Str))
    (h : ∀ r ∈ rows, ∀ i, CleanCell (r i)) :
    loadPricingTSV (datasetText σ rows) = loadPricingTSV (datasetText 1 rows) := by
  rw [loadPricingTSV_datasetText σ rows h, loadPricingTSV_datasetText 1 rows h]

/-- C9 at the arrangement `Model`, `Provider`, `Output $/1M`, `Input $/1M` of
the specification, on three rows. -/
theorem loadPricingTSV_column_order_witness :
    datasetText swappedColumns exampleRows
      = "Model\tProvider\tOutput $/1M\tInput $/1M\ngpt-5\tOpenAI\t10.00\t1.25\nfoo\tAcme\t2.00\tN/A\n bar \tAcme\t \t$0.625".toList
    ∧ loadPricingTSV (datasetText swappedColumns exampleRows)
      = loadPricingTSV (datasetText 1 exampleRows) :=
  ⟨by decide, loadPricingTSV_column_order swappedColumns exampleRows (by decide)⟩

/-! ### C11, C12, C13: what the loader accepts -/

/-- C11 (the code misses it): a rate written with two thousands separators,
`$1,250,000.00`, keeps its second comma after `replace(",", "")`, parses as `NaN`
and its row is dropped (here the whole load fails, the row being the only one);
with one separator, `$1,250.00`, the rate is 1250. -/
theorem thousands_separators_dropped :
    stripMoney "$1,250,000.00".toList = "1250,000.00".toList
    ∧ rateOf "$1,250,000.00".toList = Num.nan
    ∧ rateOf "$1,250.00".toList = Num.fin 1250
    ∧ loadPricingTSV
        "Provider\tModel\tInput $/1M\tOutput $/1M\nOpenAI\tgpt-5\t$1,250,000.00\t10.00\n".toList
      = Except.error
          "No valid rows found. Check that Input $/1M and Output $/1M are numeric (like $1.25).".toList := by
  refine ⟨by decide, by decide!, by decide!, by decide!⟩

/-- C12 (the code misses it): a data line without the output-rate column is
kept, with the output rate 0, because `Number("")` is 0; a line without the
model column is dropped. -/
theorem missing_rate_column_kept :
    loadPricingTSV
        "Provider\tModel\tInput $/1M\tOutput $/1M\nOpenAI\tgpt-5\t1.25".toList
      = Except.ok [⟨"OpenAI".toList, "gpt-5".toList, Num.fin (5 / 4), Num.fin 0⟩]
    ∧ parseNumber [] = Num.fin 0
    ∧ loadPricingTSV
        "Provider\tModel\tInput $/1M\tOutput $/1M\nOpenAI\tgpt-5\t1.25\nAcme".toList
      = Except.ok [⟨"OpenAI".toList, "gpt-5".toList, Num.fin (5 / 4), Num.fin 0⟩] := by
  refine ⟨by decide!, by decide!, by decide!⟩

/-- C13 (as stated) fails: a row with the input rate `-1` is loaded, and its
rate is negative. -/
theorem negative_rate_counterexample :
    loadPricingTSV
        "Provider\tModel\tInput $/1M\tOutput $/1M\nAcme\tfoo\t-1\t2".toList
      = Except.ok [⟨"Acme".toList, "foo".toList, Num.fin (-1), Num.fin 2⟩]
    ∧ Num.ge (Num.fin (-1)) (Num.fin 0) = false := by
  refine ⟨by decide!, by decide!⟩

theorem load_ok_rows (text : Str) (rows : List PricingRecord)
    (h : loadPricingTSV text = Except.ok rows) :
    rows = ((dataLines text).filter (rowSurvives text)).map (rowRecord text) := by
  rw [loadPricingTSV_eq] at h
  split at h
  · cases h
  · split at h
    · cases h
    · split at h
      · cases h
      · injection h with h; exact h.symm

theorem rowSurvives_record (text line : Str) (hs : rowSurvives text line = true) :
    (rowRecord text line).provider ≠ [] ∧ (rowRecord text line).model ≠ []
      ∧ (rowRecord text line).input_per_1m.isFinite = true
      ∧ (rowRecord text line).output_per_1m.isFinite = true := by
  unfold rowSurvives at hs
  unfold rowRecord
  generalize cellOf text "Provider".toList line = a at hs ⊢
  generalize cellOf text "Model".toList line = b at hs ⊢
  generalize rateOf (cellOf text "Input $/1M".toList line) = c at hs ⊢
  generalize rateOf (cellOf text "Output $/1M".toList line) = d at hs ⊢
  simp only [Bool.and_eq_true, decide_eq_true_eq] at hs
  exact ⟨hs.1.1.1, hs.1.1.2, hs.1.2, hs.2⟩

/-- C13 (amended): every record of a catalog returned by a successful load has
a non-empty provider, a non-empty model, and an input rate and an output rate
that are finite numbers (their sign is not checked). -/
theorem loaded_records_valid (text : Str) (rows : List PricingRecord)
    (h : loadPricingTSV text = Except.ok rows) :
    ∀ r ∈ rows, r.provider ≠ [] ∧ r.model ≠ []
      ∧ r.input_per_1m.isFinite = true ∧ r.output_per_1m.isFinite = true := by
  intro r hr
  rw [load_ok_rows text rows h] at hr
  obtain ⟨line, hl, hrl⟩ := List.mem_map.mp hr
  rw [← hrl]
  exact rowSurvives_record text line (List.mem_filter.mp hl).2

/-- C13 (amended) at the dataset with a negative rate: the loaded record has
non-empty names and finite rates. -/
theorem loaded_records_valid_witness :
    (⟨"Acme".toList, "foo".toList, Num.fin (-1), Num.fin 2⟩ : PricingRecord).provider ≠ []
    ∧ (⟨"Acme".toList, "foo".toList, Num.fin (-1), Num.fin 2⟩ : PricingRecord).model ≠ []
    ∧ (⟨"Acme".toList, "foo".toList, Num.fin (-1), Num.fin 2⟩ :
        PricingRecord).input_per_1m.isFinite = true
    ∧ (⟨"Acme".toList, "foo".toList, Num.fin (-1), Num.fin 2⟩ :
        PricingRecord).output_per_1m.isFinite = true :=
  loaded_records_valid
    "Provider\tModel\tInput $/1M\tOutput $/1M\nAcme\tfoo\t-1\t2".toList
    [⟨"Acme".toList, "foo".toList, Num.fin (-1), Num.fin 2⟩] (by decide!)
    ⟨"Acme".toList, "foo".toList, Num.fin (-1), Num.fin 2⟩ (List.mem_singleton.mpr rfl)

/-! ### C14, C15: `sanitizeNumber` -/

theorem isDigit_iff (c : Char) : c.isDigit = true ↔ 48 ≤ c.toNat ∧ c.toNat ≤ 57 := by
  simp [Char.isDigit, Char.toNat, UInt32.le_def, BitVec.le_def]
  exact Iff.rfl

theorem isDigit_not_space {c : Char} (h : c.isDigit = true) : isJsSpace c = false := by
  have := (isDigit_iff c).mp h
  unfold isJsSpace
  simp only [Bool.or_eq_false_iff, Bool.and_eq_false_iff, decide_eq_false_iff_not]
  omega

theorem trim_eq_self (s : Str) (h : ∀ c ∈ s, isJsSpace c = false) : trim s = s := by
  unfold trim
  have h1 : s.dropWhile isJsSpace = s := by
    cases s with
    | nil => rfl
    | cons a t => rw [List.dropWhile_cons_of_neg]; simp [h a (List.mem_cons_self _ _)]
  rw [h1]
  rw [List.rdropWhile_eq_self_iff]
  intro hne
  simp [h _ (List.getLast_mem hne)]

theorem parseUnsignedDecimal_digits (ds : Str) (hne : ds ≠ [])
    (hd : ∀ c ∈ ds, c.isDigit = true) :
    parseUnsignedDecimal ds = some (digitsVal ds : ℚ) := by
  have h1 : ds.takeWhile Char.isDigit = ds := List.takeWhile_eq_self_iff.mpr hd
  have h2 : ds.dropWhile Char.isDigit = [] := List.dropWhile_eq_nil_iff.mpr hd
  unfold parseUnsignedDecimal
  simp only [h1, h2]
  rw [if_neg (fun h => hne h.1)]
  simp [pow10]

theorem parseNonDecimal_digits (ds : Str) (hd : ∀ c ∈ ds, c.isDigit = true) :
    parseNonDecimal ds = none := by
  unfold parseNonDecimal
  split <;> first
    | rfl
    | (exfalso
       have := hd _ (List.mem_cons_of_mem _ (List.mem_cons_self _ _))
       revert this; decide)

theorem parseNumber_digits (ds : Str) (hne : ds ≠ [])
    (hd : ∀ c ∈ ds, c.isDigit = true) :
    parseNumber ds = rnd (digitsVal ds : ℚ) := by
  have key : ∀ pr : Bool × Str, pr = (false, ds) →
      (if pr.2 = "Infinity".toList then (if pr.1 = true then Num.ninf else Num.pinf)
       else match parseUnsignedDecimal pr.2 with
        | some q => if pr.1 = true then rnd (-q) else rnd q
        | none => Num.nan) = rnd (digitsVal ds : ℚ) := by
    rintro pr rfl
    have hI : ds ≠ "Infinity".toList := by
      intro h
      exact absurd (hd 'I' (h ▸ List.mem_cons_self _ _)) (by decide)
    simp only []
    rw [if_neg hI, parseUnsignedDecimal_digits _ hne hd]
    simp
  unfold parseNumber
  simp only [trim_eq_self ds (fun c hc => isDigit_not_space (hd c hc))]
  rw [if_neg hne, parseNonDecimal_digits ds hd]
  simp only []
  refine key _ ?_
  split
  · rename_i r; exact absurd (hd '+' (List.mem_cons_self _ _)) (by decide)
  · rename_i r; exact absurd (hd '-' (List.mem_cons_self _ _)) (by decide)
  · rfl

theorem sanitizeNumber_nonneg (value : Str) :
    ∃ q, sanitizeNumber value = Num.fin q ∧ 0 ≤ q := by
  unfold sanitizeNumber
  simp only []
  generalize parseNumber (stripCommas value) = n
  cases n with
  | fin q =>
    by_cases h : 0 ≤ q
    · exact ⟨q, by simp [Num.isFinite, Num.ge, h], h⟩
    · exact ⟨0, by simp [Num.isFinite, Num.ge, h], le_rfl⟩
  | nan => exact ⟨0, by simp [Num.isFinite], le_rfl⟩
  | pinf => exact ⟨0, by simp [Num.isFinite], le_rfl⟩
  | ninf => exact ⟨0, by simp [Num.isFinite], le_rfl⟩

theorem stripCommas_digits (text : Str) (hall : ∀ c ∈ text, c.isDigit = true ∨ c = ',') :
    stripCommas text = text.filter Char.isDigit := by
  have hf : text.filter (fun c => decide (c ≠ ',')) = text.filter Char.isDigit := by
    apply List.filter_congr
    intro c hc
    rcases hall c hc with h | h
    · rw [h]
      have : c ≠ ',' := by rintro rfl; exact absurd h (by decide)
      simp [this]
    · subst h; decide
  unfold stripCommas
  rw [hf]
  exact trim_eq_self _ (fun c hc => isDigit_not_space (List.mem_filter.mp hc).2)

/-- C14 (as stated) fails: `"12abc"` gives 0, not 12, and `"1.5"` gives 1.5, not
15: only commas are stripped before `Number()`. -/
theorem sanitizeNumber_noise_counterexample :
    sanitizeNumber "12abc".toList = Num.fin 0
    ∧ sanitizeNumber "1.5".toList = Num.fin (3 / 2)
    ∧ stripCommas "12abc".toList = "12abc".toList
    ∧ parseNumber "12abc".toList = Num.nan := by
  refine ⟨by decide!, by decide!, by decide!, by decide!⟩

/-- C14 (amended): for a token field text made of digits and commas with at
least one digit, `sanitizeNumber` is the double nearest to the natural number
that the digits spell, and zero when that is not finite; for every text the
result is a finite number that is at least zero. -/
theorem sanitizeNumber_digits_commas (text : Str)
    (hall : ∀ c ∈ text, c.isDigit = true ∨ c = ',')
    (hne : ∃ c ∈ text, c.isDigit = true) :
    sanitizeNumber text =
        (if (rnd (digitsVal (text.filter Char.isDigit) : ℚ)).isFinite
          then rnd (digitsVal (text.filter Char.isDigit) : ℚ) else Num.fin 0)
    ∧ ∀ other : Str, ∃ q, sanitizeNumber other = Num.fin q ∧ 0 ≤ q := by
  refine ⟨?_, sanitizeNumber_nonneg⟩
  obtain ⟨c, hc, hcd⟩ := hne
  have hds : text.filter Char.isDigit ≠ [] :=
    List.ne_nil_of_mem (List.mem_filter.mpr ⟨hc, hcd⟩)
  unfold sanitizeNumber
  simp only []
  rw [stripCommas_digits text hall,
    parseNumber_digits _ hds (fun c hc => (List.mem_filter.mp hc).2)]
  rcases rnd_nonneg (Nat.cast_nonneg (digitsVal (text.filter Char.isDigit)) : (0 : ℚ) ≤ _)
    with h | ⟨r, h, hr⟩
  · rw [h]; simp [Num.isFinite]
  · rw [h]; simp [Num.isFinite, Num.ge, hr]

/-- C14 (amended) at the text `1,000,000`: the token count is one million. -/
theorem sanitizeNumber_digits_commas_witness :
    sanitizeNumber "1,000,000".toList =
        (if (rnd (digitsVal ("1,000,000".toList.filter Char.isDigit) : ℚ)).isFinite
          then rnd (digitsVal ("1,000,000".toList.filter Char.isDigit) : ℚ) else Num.fin 0)
    ∧ ∀ other : Str, ∃ q, sanitizeNumber other = Num.fin q ∧ 0 ≤ q :=
  sanitizeNumber_digits_commas "1,000,000".toList (by decide) ⟨'1', by decide, by decide⟩

theorem calculateStep_discount (p : Page) (sel : PricingRecord) (it ot : Num)
    (costs : CostBreakdown) (sa : Bool) (pct : Num) (an : Bool)
    (h : calculateStep p = Step.call (FormatterCall.single sel it ot costs sa pct an)) :
    pct = Num.min (Num.ofNat 100) (sanitizeNumber (p.aisaDiscountEl.getD [])) := by
  unfold calculateStep at h
  simp only [] at h
  split at h
  · cases h
  split at h
  · cases h
  split at h
  · cases h
  split at h
  · split at h
    · cases h
    · split at h
      · cases h
      · split at h
        · cases h
        · injection h with h
          injection h with _ _ _ _ _ h6 _
          exact h6.symm
  · split at h
    · split at h
      · cases h
      · split at h
        · injection h with h
          cases h
        · cases h
    · cases h

/-- C15: for every raw discount input `sanitizeNumber` returns a finite number
that is at least zero; `min(100, sanitizeNumber(raw))` lies in `[0, 100]` and
equals the sanitized value when that value is at most 100; and it is the
discount percent that `calculate` passes to the single-model formatter. -/
theorem discount_clamped (raw : Str) :
    (∃ q, sanitizeNumber raw = Num.fin q ∧ 0 ≤ q)
    ∧ (∃ d, Num.min (Num.ofNat 100) (sanitizeNumber raw) = Num.fin d ∧ 0 ≤ d ∧ d ≤ 100)
    ∧ (Num.ge (Num.ofNat 100) (sanitizeNumber raw) = true →
        Num.min (Num.ofNat 100) (sanitizeNumber raw) = sanitizeNumber raw)
    ∧ (∀ (p : Page) sel it ot costs sa pct an, p.aisaDiscountEl = some raw →
        calculateStep p = Step.call (FormatterCall.single sel it ot costs sa pct an) →
        pct = Num.min (Num.ofNat 100) (sanitizeNumber raw)) := by
  obtain ⟨q, hq, h0⟩ := sanitizeNumber_nonneg raw
  refine ⟨⟨q, hq, h0⟩, ?_, ?_, ?_⟩
  · rw [hq, ofNat_hundred]
    by_cases h : (100 : ℚ) ≤ q
    · exact ⟨100, by simp [Num.min, h], by norm_num, le_rfl⟩
    · exact ⟨q, by simp [Num.min, h], h0, le_of_lt (not_le.mp h)⟩
  · rw [hq, ofNat_hundred]
    intro hge
    have hle : q ≤ 100 := by simpa [Num.ge] using hge
    by_cases h : (100 : ℚ) ≤ q
    · have : q = 100 := le_antisymm hle h
      subst this; simp [Num.min]
    · simp [Num.min, h]
  · intro p sel it ot costs sa pct an hp hcall
    have := calculateStep_discount p sel it ot costs sa pct an hcall
    rw [hp] at this
    exact this

/-- C15 at the raw discount `20` of the specification scenario: it is at most
100, so the clamp leaves it as it is, and it is the percent of the formatter
call. -/
theorem discount_clamped_witness :
    Num.ge (Num.ofNat 100) (sanitizeNumber "20".toList) = true
    ∧ Num.min (Num.ofNat 100) (sanitizeNumber "20".toList) = sanitizeNumber "20".toList
    ∧ Num.fin 20 = Num.min (Num.ofNat 100) (sanitizeNumber "20".toList) :=
  ⟨by decide!,
   (discount_clamped "20".toList).2.2.1 (by decide!),
   (discount_clamped "20".toList).2.2.2 gpt5AnnualPage
      ⟨"OpenAI".toList, "gpt-5".toList, Num.fin (5 / 4), Num.fin 10⟩
      (Num.fin 1000000) (Num.fin 500000)
      { inputCost := Num.fin 15, outputCost := Num.fin 60, total := Num.fin 75 }
      false (Num.fin 20) true rfl (by decide!)⟩

/-! ### C16: when `calculate` shows a hint -/

/-- The step of `calculate` on a page with a results element, by the cases of
its validation. -/
theorem calculateStep_cases (p : Page) (hres : p.resultsEl = true) :
    (HintCondition p ∧ ∃ t b, calculateStep p = Step.hint t b)
    ∨ (¬ HintCondition p ∧ ∃ c, calculateStep p = Step.call c) := by
  obtain ⟨res, view, it, ot, sa, disc, an, cm, ms, msa, msb⟩ := p
  simp only at hres
  subst hres
  unfold HintCondition calculateStep chosen resolves
  simp only [List.length_eq_zero, not_true_eq_false, if_false, Bool.not_eq_true]
  generalize trim (it.getD []) = ri
  generalize trim (ot.getD []) = ro
  by_cases hv : view = []
  · left; simp [hv]
  by_cases hi : ri = []
  · left; simp [hv, hi]
  by_cases ho : ro = []
  · left; simp [hv, hi, ho]
  simp only [hv, hi, ho, if_false, false_or, or_self]
  cases hc : cm.getD false
  · -- single mode
    simp only [Bool.false_eq_true, false_and, or_false, true_and, if_true, not_false_eq_true]
    cases ms with
    | none => left; simp
    | some v =>
      by_cases hvn : v = []
      · left; simp [hvn]
      · simp only [hvn, if_false, Option.getD_some, decide_not, Bool.not_eq_false',
          decide_eq_true_eq, Bool.not_eq_true', decide_eq_false_iff_not, not_false_eq_true,
          not_true_eq_false, false_or]
        cases ha : arrayAt view (parseNumber v) with
        | none => left; simp
        | some sel => right; simp
  · -- compare mode
    simp only [Bool.true_eq_false, false_and, false_or, true_and, not_true_eq_false, if_false]
    cases msa with
    | none => left; simp
    | some va =>
      cases msb with
      | none => left; simp
      | some vb =>
        by_cases hva : va = []
        · left; simp [hva]
        by_cases hvb : vb = []
        · left; simp [hvb]
        simp only [hva, hvb, or_self, if_false, Option.getD_some, decide_not, Bool.not_eq_false',
          decide_eq_true_eq, Bool.not_eq_true', decide_eq_false_iff_not, not_false_eq_true,
          not_true_eq_false, false_or]
        cases haa : arrayAt view (parseNumber va) with
        | none => left; simp
        | some a =>
          cases hab : arrayAt view (parseNumber vb) with
          | none => left; simp
          | some b => right; simp

theorem calculateStep_blank (p : Page) (hres : p.resultsEl = true) (hv : p.VIEW_MODELS ≠ [])
    (hb : trim (p.inputTokensEl.getD []) = [] ∨ trim (p.outputTokensEl.getD []) = []) :
    calculateStep p = Step.hint "Enter your token usage.".toList
      "Fill monthly input and output tokens, or use a preset.".toList := by
  unfold calculateStep
  simp only [hres, not_true_eq_false, if_false, List.length_eq_zero, hv]
  rw [if_pos hb]

/-- C16: on a page with a results element, `calculate` shows a validation hint
and makes no formatter call exactly when the view is empty, or a token field is
blank after trimming, or (single mode) no model is chosen, or (compare mode) a
slot is unchosen, or a chosen index resolves to no record of the view; in every
other case it renders the result of a formatter call.  `calculate` is a total
function, so it always ends in one of the two; with a blank token field it
shows a hint, the token hint when the view is not empty. -/
theorem calculate_hint_iff (toLocaleString : Num → Str) (p : Page) (isAuto : Bool)
    (hres : p.resultsEl = true) :
    ((∃ t b, calculate toLocaleString p isAuto = Outcome.hint t b
        ∧ ∀ c, calculateStep p ≠ Step.call c) ↔ HintCondition p)
    ∧ (¬ HintCondition p → ∃ c, calculateStep p = Step.call c
        ∧ calculate toLocaleString p isAuto = Outcome.result (c.run toLocaleString))
    ∧ (trim (p.inputTokensEl.getD []) = [] ∨ trim (p.outputTokensEl.getD []) = [] →
        (∃ t b, calculate toLocaleString p isAuto = Outcome.hint t b)
        ∧ (p.VIEW_MODELS ≠ [] →
            calculate toLocaleString p isAuto = Outcome.hint "Enter your token usage.".toList
              "Fill monthly input and output tokens, or use a preset.".toList)) := by
  have hcases := calculateStep_cases p hres
  refine ⟨⟨?_, ?_⟩, ?_, ?_⟩
  · rintro ⟨t, b, _, hno⟩
    rcases hcases with ⟨hh, _⟩ | ⟨_, c, hc⟩
    · exact hh
    · exact absurd hc (hno c)
  · intro hh
    rcases hcases with ⟨_, t, b, ht⟩ | ⟨hn, _⟩
    · refine ⟨t, b, ?_, ?_⟩
      · unfold calculate; rw [ht]
      · intro c hc; rw [ht] at hc; cases hc
    · exact absurd hh hn
  · intro hn
    rcases hcases with ⟨hh, _⟩ | ⟨_, c, hc⟩
    · exact absurd hh hn
    · refine ⟨c, hc, ?_⟩
      unfold calculate; rw [hc]
  · intro hb
    constructor
    · have hh : HintCondition p := by
        unfold HintCondition
        rcases hb with h | h
        · exact Or.inr (Or.inl h)
        · exact Or.inr (Or.inr (Or.inl h))
      rcases hcases with ⟨_, t, b, ht⟩ | ⟨hn, _⟩
      · refine ⟨t, b, ?_⟩
        unfold calculate; rw [ht]
      · exact absurd hh hn
    · intro hv
      unfold calculate
      rw [calculateStep_blank p hres hv hb]

/-- C16 on three pages: with nothing selected the page of the scenario shows
the hint of the single mode, with the model selected it renders a result, and
with a token field of blanks it shows the token hint. -/
theorem calculate_hint_iff_witness :
    HintCondition freshPage
    ∧ (∃ t b, calculate numToString freshPage false = Outcome.hint t b
        ∧ ∀ c, calculateStep freshPage ≠ Step.call c)
    ∧ ¬ HintCondition gpt5AnnualPage
    ∧ (∃ c, calculateStep gpt5AnnualPage = Step.call c
        ∧ calculate numToString gpt5AnnualPage false = Outcome.result (c.run numToString))
    ∧ calculate numToString { gpt5AnnualPage with inputTokensEl := some "  ".toList } true
        = Outcome.hint "Enter your token usage.".toList
            "Fill monthly input and output tokens, or use a preset.".toList :=
  ⟨by decide!,
   (calculate_hint_iff numToString freshPage false rfl).1.mpr (by decide!),
   by decide!,
   (calculate_hint_iff numToString gpt5AnnualPage false rfl).2.1 (by decide!),
   ((calculate_hint_iff numToString { gpt5AnnualPage with inputTokensEl := some "  ".toList }
      true rfl).2.2 (Or.inl (by decide))).2 (by decide)⟩

/-! ### C17: the flag `hasCalculatedOnce` -/

theorem markDirty_flag (s : App) (t b : Str) :
    (markDirty s t b).hasCalculatedOnce = s.hasCalculatedOnce := by
  unfold markDirty setHint
  split
  · rfl
  · split <;> rfl

theorem scheduleAutoCalc_flag (s : App) :
    (scheduleAutoCalc s).hasCalculatedOnce = s.hasCalculatedOnce := by
  unfold scheduleAutoCalc
  split <;> rfl

theorem markDirty_of_not_calculated (s : App) (t b : Str) (h : s.hasCalculatedOnce = false) :
    markDirty s t b = s := by
  unfold markDirty
  rw [if_pos (by simp [h])]

theorem scheduleAutoCalc_of_not_calculated (s : App) (h : s.hasCalculatedOnce = false) :
    scheduleAutoCalc s = s := by
  unfold scheduleAutoCalc
  rw [if_pos (by simp [h])]

theorem step_flag (host : Host) (s : App) (e : Event) :
    (step host s e).hasCalculatedOnce = true
      ↔ (s.hasCalculatedOnce = true ∨ e = Event.calculateClick) := by
  cases e with
  | searchInput query =>
    simp only [step, onSearchInput, reduceCtorEq, or_false]
    split_ifs <;> simp only [scheduleAutoCalc_flag, markDirty_flag]
  | compareChange checked =>
    simp only [step, onCompareChange, reduceCtorEq, or_false]
    split_ifs <;> simp only [markDirty_flag]
  | change edit =>
    simp only [step, onChange, reduceCtorEq, or_false]
    split <;> simp only [scheduleAutoCalc_flag, markDirty_flag]
  | preset7030 =>
    simp only [step, onPreset, reduceCtorEq, or_false, scheduleAutoCalc_flag, markDirty_flag]
  | preset5050 =>
    simp only [step, onPreset, reduceCtorEq, or_false, scheduleAutoCalc_flag, markDirty_flag]
  | calculateClick => simp [step, onCalculateClick]
  | timerFire id =>
    simp only [step, onTimerFire, reduceCtorEq, or_false]
    split_ifs <;> rfl
  | advance dt => simp [step]
  | copy =>
    simp only [step, onCopy, reduceCtorEq, or_false]
    split <;> rfl

theorem run_append (host : Host) (s : App) (es fs : List Event) :
    run host s (es ++ fs) = run host (run host s es) fs := by
  unfold run; rw [List.foldl_append]

theorem run_flag (host : Host) (s : App) (es : List Event) :
    (run host s es).hasCalculatedOnce = true
      ↔ (s.hasCalculatedOnce = true ∨ Event.calculateClick ∈ es) := by
  induction es generalizing s with
  | nil => simp [run]
  | cons e es ih =>
    have : run host s (e :: es) = run host (step host s e) es := rfl
    rw [this, ih, step_flag, List.mem_cons]
    constructor
    · rintro ((h | h) | h)
      · exact Or.inl h
      · exact Or.inr (Or.inl h.symm)
      · exact Or.inr (Or.inr h)
    · rintro (h | h | h)
      · exact Or.inl (Or.inl h)
      · exact Or.inl (Or.inr h.symm)
      · exact Or.inr h

/-- C17: `hasCalculatedOnce` is false after `init()`; an event makes it true
exactly when it was true before or the event is the click on the calculate
button, so it is never reset and no other event (a timer firing included) sets
it; after a run of events it is true exactly when the run had such a click;
and in a state where it is false `markDirty` and `scheduleAutoCalc` leave the
state as it is: the display is not replaced and no timer is armed. -/
theorem hasCalculatedOnce_lifecycle (host : Host) (models : List PricingRecord) (page : Page)
    (compareBlocks : Bool) (now : Nat) :
    (initApp host models page compareBlocks now).hasCalculatedOnce = false
    ∧ (∀ s e, (step host s e).hasCalculatedOnce = true
        ↔ (s.hasCalculatedOnce = true ∨ e = Event.calculateClick))
    ∧ (∀ es, (run host (initApp host models page compareBlocks now) es).hasCalculatedOnce = true
        ↔ Event.calculateClick ∈ es)
    ∧ (∀ s es, s.hasCalculatedOnce = true → (run host s es).hasCalculatedOnce = true)
    ∧ (∀ s t b, s.hasCalculatedOnce = false →
        markDirty s t b = s ∧ scheduleAutoCalc s = s
        ∧ (markDirty s t b).results = s.results ∧ (scheduleAutoCalc s).timers = s.timers) := by
  refine ⟨rfl, step_flag host, ?_, ?_, ?_⟩
  · intro es
    rw [run_flag]
    simp [initApp]
  · intro s es h
    exact (run_flag host s es).mpr (Or.inl h)
  · intro s t b h
    refine ⟨markDirty_of_not_calculated s t b h, scheduleAutoCalc_of_not_calculated s h, ?_, ?_⟩
    · rw [markDirty_of_not_calculated s t b h]
    · rw [scheduleAutoCalc_of_not_calculated s h]

/-- C17 on a run of the scenario page: edits, a preset and a timer event leave
the flag false and the placeholder displayed, and the click sets the flag. -/
theorem hasCalculatedOnce_lifecycle_witness :
    (run asciiHost (initApp asciiHost [] gpt5AnnualPage true 0)
        [Event.change (PageEdit.inputTokens "5".toList), Event.preset7030,
          Event.timerFire 0]).hasCalculatedOnce = false
    ∧ (run asciiHost (initApp asciiHost [] gpt5AnnualPage true 0)
        [Event.change (PageEdit.inputTokens "5".toList), Event.calculateClick,
          Event.preset7030]).hasCalculatedOnce = true
    ∧ markDirty (initApp asciiHost [] gpt5AnnualPage true 0) "Updating…".toList [] =
        initApp asciiHost [] gpt5AnnualPage true 0 :=
  ⟨by
    have h := (hasCalculatedOnce_lifecycle asciiHost [] gpt5AnnualPage true 0).2.2.1
      [Event.change (PageEdit.inputTokens "5".toList), Event.preset7030, Event.timerFire 0]
    have hn : Event.calculateClick ∉
        [Event.change (PageEdit.inputTokens "5".toList), Event.preset7030, Event.timerFire 0] := by
      simp
    exact Bool.eq_false_iff.mpr (fun hc => hn (h.mp hc)),
   ((hasCalculatedOnce_lifecycle asciiHost [] gpt5AnnualPage true 0).2.2.1 _).mpr (by simp),
   ((hasCalculatedOnce_lifecycle asciiHost [] gpt5AnnualPage true 0).2.2.2.2 _ _ _ rfl).1⟩

/-! ### C18: the debounce timeout -/

theorem timerInv_congr {s u : App} (h1 : u.timers = s.timers) (h2 : u.calcTimer = s.calcTimer)
    (h3 : u.nextId = s.nextId) (h4 : u.hasCalculatedOnce = s.hasCalculatedOnce)
    (h : TimerInv s) : TimerInv u := by
  unfold TimerInv at h ⊢
  rw [h1, h2, h3, h4]
  exact h

theorem idsFrom_congr {k : Nat} {s u : App} (h1 : u.timers = s.timers)
    (h3 : u.nextId = s.nextId) (h : IdsFrom k s) : IdsFrom k u := by
  unfold IdsFrom at h ⊢
  rw [h1, h3]
  exact h

theorem markDirty_timers (s : App) (t b : Str) : (markDirty s t b).timers = s.timers := by
  unfold markDirty setHint
  split
  · rfl
  · split <;> rfl

theorem markDirty_calcTimer (s : App) (t b : Str) :
    (markDirty s t b).calcTimer = s.calcTimer := by
  unfold markDirty setHint
  split
  · rfl
  · split <;> rfl

theorem markDirty_nextId (s : App) (t b : Str) : (markDirty s t b).nextId = s.nextId := by
  unfold markDirty setHint
  split
  · rfl
  · split <;> rfl

theorem timerInv_markDirty {s : App} (t b : Str) (h : TimerInv s) :
    TimerInv (markDirty s t b) :=
  timerInv_congr (markDirty_timers s t b) (markDirty_calcTimer s t b) (markDirty_nextId s t b)
    (markDirty_flag s t b) h

theorem idsFrom_markDirty {k : Nat} {s : App} (t b : Str) (h : IdsFrom k s) :
    IdsFrom k (markDirty s t b) :=
  idsFrom_congr (markDirty_timers s t b) (markDirty_nextId s t b) h

/-- With the bookkeeping in order, `clearTimeout(calcTimer)` leaves nothing
pending. -/
theorem clearTimeout_calcTimer {s : App} (h : TimerInv s) :
    clearTimeout s.timers s.calcTimer = [] := by
  obtain ⟨hlen, hid, _, _⟩ := h
  cases hc : s.calcTimer with
  | none =>
    unfold clearTimeout
    simp only []
    cases ht : s.timers with
    | nil => rfl
    | cons t ts =>
      have := hid t (ht ▸ List.mem_cons_self _ _)
      rw [hc] at this
      cases this
  | some i =>
    unfold clearTimeout
    simp only []
    rw [List.filter_eq_nil_iff]
    intro t ht
    have := hid t ht
    rw [hc] at this
    injection this with this
    simp [this]

theorem scheduleAutoCalc_live {s : App} (h : TimerInv s) (hl : s.hasCalculatedOnce = true) :
    scheduleAutoCalc s =
      { s with timers := [(s.nextId, s.now + 650)], calcTimer := some s.nextId,
               nextId := s.nextId + 1 } := by
  unfold scheduleAutoCalc
  rw [if_neg (by simp [hl]), clearTimeout_calcTimer h]
  rfl

theorem timerInv_scheduleAutoCalc {s : App} (h : TimerInv s) : TimerInv (scheduleAutoCalc s) := by
  cases hl : s.hasCalculatedOnce
  · rw [scheduleAutoCalc_of_not_calculated s hl]; exact h
  · rw [scheduleAutoCalc_live h hl]
    refine ⟨by simp, ?_, ?_, ?_⟩
    · intro t ht
      simp only [List.mem_singleton] at ht
      subst ht; rfl
    · intro t ht
      simp only [List.mem_singleton] at ht
      subst ht; exact Nat.lt_succ_self _
    · intro hf
      simp only [hl] at hf
      cases hf

theorem idsFrom_scheduleAutoCalc {k : Nat} {s : App} (h : IdsFrom k s) :
    IdsFrom k (scheduleAutoCalc s) := by
  unfold scheduleAutoCalc
  split
  · exact h
  · refine ⟨Nat.le_succ_of_le h.1, ?_⟩
    intro t ht
    simp only [List.mem_append, List.mem_singleton] at ht
    rcases ht with ht | ht
    · apply h.2 t
      unfold clearTimeout at ht
      split at ht
      · exact ht
      · exact (List.mem_filter.mp ht).1
    · subst ht; exact h.1

theorem timerInv_step (host : Host) {s : App} (e : Event) (h : TimerInv s) :
    TimerInv (step host s e) := by
  cases e with
  | searchInput query =>
    simp only [step, onSearchInput]
    split_ifs
    · exact timerInv_scheduleAutoCalc (timerInv_markDirty _ _ h)
    · exact timerInv_markDirty _ _ h
    · exact timerInv_markDirty _ _ h
  | compareChange checked =>
    simp only [step, onCompareChange]
    split_ifs
    · exact timerInv_markDirty _ _ h
    · exact h
  | change edit =>
    simp only [step, onChange]
    split
    · exact h
    · exact timerInv_scheduleAutoCalc (timerInv_markDirty _ _ h)
  | preset7030 => exact timerInv_scheduleAutoCalc (timerInv_markDirty _ _ h)
  | preset5050 => exact timerInv_scheduleAutoCalc (timerInv_markDirty _ _ h)
  | calculateClick =>
    obtain ⟨h1, h2, h3, _⟩ := h
    refine ⟨h1, h2, fun t ht => Nat.lt_succ_of_lt (h3 t ht), ?_⟩
    intro hf
    simp [step, onCalculateClick] at hf
  | timerFire id =>
    simp only [step, onTimerFire]
    split_ifs
    · obtain ⟨h1, h2, h3, h4⟩ := h
      refine ⟨le_trans (List.length_filter_le _ _) h1,
        fun t ht => h2 t (List.mem_filter.mp ht).1,
        fun t ht => h3 t (List.mem_filter.mp ht).1, ?_⟩
      intro hf
      have := h4 hf
      simp only []
      rw [this]; rfl
    · exact h
  | advance dt => exact h
  | copy =>
    simp only [step, onCopy]
    split
    · obtain ⟨h1, h2, h3, h4⟩ := h
      exact ⟨h1, h2, fun t ht => Nat.lt_succ_of_lt (h3 t ht), h4⟩
    · exact h

theorem idsFrom_step (host : Host) {k : Nat} {s : App} (e : Event) (h : IdsFrom k s) :
    IdsFrom k (step host s e) := by
  cases e with
  | searchInput query =>
    simp only [step, onSearchInput]
    split_ifs
    · exact idsFrom_scheduleAutoCalc (idsFrom_markDirty _ _ h)
    · exact idsFrom_markDirty _ _ h
    · exact idsFrom_markDirty _ _ h
  | compareChange checked =>
    simp only [step, onCompareChange]
    split_ifs
    · exact idsFrom_markDirty _ _ h
    · exact h
  | change edit =>
    simp only [step, onChange]
    split
    · exact h
    · exact idsFrom_scheduleAutoCalc (idsFrom_markDirty _ _ h)
  | preset7030 => exact idsFrom_scheduleAutoCalc (idsFrom_markDirty _ _ h)
  | preset5050 => exact idsFrom_scheduleAutoCalc (idsFrom_markDirty _ _ h)
  | calculateClick => exact ⟨Nat.le_succ_of_le h.1, h.2⟩
  | timerFire id =>
    simp only [step, onTimerFire]
    split_ifs
    · exact ⟨h.1, fun t ht => h.2 t (List.mem_filter.mp ht).1⟩
    · exact h
  | advance dt => exact h
  | copy =>
    simp only [step, onCopy]
    split
    · exact ⟨Nat.le_succ_of_le h.1, h.2⟩
    · exact h

theorem timerInv_run (host : Host) (es : List Event) {s : App} (h : TimerInv s) :
    TimerInv (run host s es) := by
  induction es generalizing s with
  | nil => exact h
  | cons e es ih => exact ih (timerInv_step host e h)

theorem idsFrom_run (host : Host) {k : Nat} (es : List Event) {s : App} (h : IdsFrom k s) :
    IdsFrom k (run host s es) := by
  induction es generalizing s with
  | nil => exact h
  | cons e es ih => exact ih (idsFrom_step host e h)

theorem timerInv_of_reachable (host : Host) {s : App} (h : Reachable host s) : TimerInv s := by
  obtain ⟨models, page, cb, now, es, rfl⟩ := h
  apply timerInv_run
  refine ⟨by simp [initApp], ?_, ?_, ?_⟩
  · intro t ht; simp [initApp] at ht
  · intro t ht; simp [initApp] at ht
  · intro _; rfl

/-- C18: in every state reached from `init()` at most one debounce timeout is
pending and it carries the id held in `calcTimer`.  When a calculation was
made, `scheduleAutoCalc` leaves exactly one timeout pending, the new one, due
650 after the current time; a timeout that was pending before is cancelled:
after any further events it is not pending and its callback changes nothing;
the new timeout, fired when due, shows `calculate(true)` and is then gone. -/
theorem one_debounce_timer (host : Host) (s : App) (hs : Reachable host s) :
    s.timers.length ≤ 1
    ∧ (∀ t ∈ s.timers, s.calcTimer = some t.1)
    ∧ (s.hasCalculatedOnce = true →
        (scheduleAutoCalc s).timers = [(s.nextId, s.now + 650)]
        ∧ (scheduleAutoCalc s).calcTimer = some s.nextId
        ∧ (∀ t ∈ s.timers, ∀ es,
            (∀ u ∈ (run host (scheduleAutoCalc s) es).timers, u.1 ≠ t.1)
            ∧ step host (run host (scheduleAutoCalc s) es) (Event.timerFire t.1)
                = run host (scheduleAutoCalc s) es)
        ∧ (step host (step host (scheduleAutoCalc s) (Event.advance 650))
              (Event.timerFire s.nextId)).results
            = showOutcome s.results (calculate host.toLocaleString s.page true)
        ∧ (step host (step host (scheduleAutoCalc s) (Event.advance 650))
              (Event.timerFire s.nextId)).timers = []) := by
  have hinv := timerInv_of_reachable host hs
  refine ⟨hinv.1, hinv.2.1, ?_⟩
  intro hl
  have hsched := scheduleAutoCalc_live hinv hl
  refine ⟨by rw [hsched], by rw [hsched], ?_, ?_, ?_⟩
  · intro t ht es
    have hfrom : IdsFrom s.nextId (scheduleAutoCalc s) := by
      rw [hsched]
      refine ⟨Nat.le_succ _, ?_⟩
      intro u hu
      simp only [List.mem_singleton] at hu
      subst hu; exact le_rfl
    have hlater := idsFrom_run host es hfrom
    have hlt : t.1 < s.nextId := hinv.2.2.1 t ht
    have hne : ∀ u ∈ (run host (scheduleAutoCalc s) es).timers, u.1 ≠ t.1 := by
      intro u hu heq
      have := hlater.2 u hu
      omega
    refine ⟨hne, ?_⟩
    simp only [step, onTimerFire]
    rw [if_neg]
    simp only [List.any_eq_true, decide_eq_true_eq, not_exists, not_and]
    intro u hu heq
    exact absurd heq (hne u hu)
  · rw [hsched]
    simp [step, onTimerFire]
  · rw [hsched]
    simp [step, onTimerFire]

/-- C18 at the state with a pending timeout: re-arming leaves one timeout, and
the one that was pending does nothing when its callback would run. -/
theorem one_debounce_timer_witness :
    pendingState.timers = [(1, 650)]
    ∧ (scheduleAutoCalc pendingState).timers = [(pendingState.nextId, pendingState.now + 650)]
    ∧ step asciiHost (run asciiHost (scheduleAutoCalc pendingState) [Event.advance 1000])
          (Event.timerFire 1)
        = run asciiHost (scheduleAutoCalc pendingState) [Event.advance 1000] :=
  ⟨by decide,
   ((one_debounce_timer asciiHost pendingState ⟨_, _, _, _, _, rfl⟩).2.2 (by decide)).1,
   (((one_debounce_timer asciiHost pendingState ⟨_, _, _, _, _, rfl⟩).2.2
      (by decide)).2.2.1 (1, 650) (by decide) [Event.advance 1000]).2⟩

/-! ### C19, C20: the catalog order and the search view -/

theorem lc_total {lc : Str → Str → Int} (h : IsConsistentComparator lc) (x y : Str) :
    lc x y ≤ 0 ∨ lc y x ≤ 0 := by
  by_cases hxy : lc x y ≤ 0
  · exact Or.inl hxy
  · exact Or.inr (le_of_lt ((h.2.1 y x).mpr (not_le.mp hxy)))

theorem lc_lt_iff {lc : Str → Str → Int} (h : IsConsistentComparator lc) (x y : Str) :
    lc x y < 0 ↔ ¬ lc y x ≤ 0 := by
  rw [h.2.1 x y, not_le]

theorem lc_eq_zero_iff {lc : Str → Str → Int} (h : IsConsistentComparator lc) (x y : Str) :
    lc x y = 0 ↔ (lc x y ≤ 0 ∧ lc y x ≤ 0) := by
  constructor
  · intro h0
    refine ⟨le_of_eq h0, ?_⟩
    by_contra hc
    have := (lc_lt_iff h x y).mpr hc
    omega
  · rintro ⟨h1, h2⟩
    have : ¬ lc x y < 0 := fun hlt => (lc_lt_iff h x y).mp hlt h2
    omega

theorem catalogLe_iff {lc : Str → Str → Int} (h : IsConsistentComparator lc)
    (a b : PricingRecord) :
    catalogLe lc a b ↔ (¬ lc b.provider a.provider ≤ 0
      ∨ (lc a.provider b.provider ≤ 0 ∧ lc b.provider a.provider ≤ 0
          ∧ lc a.model b.model ≤ 0)) := by
  unfold catalogLe
  rw [lc_lt_iff h, lc_eq_zero_iff h, and_assoc]

theorem catalogLe_total {lc : Str → Str → Int} (h : IsConsistentComparator lc)
    (a b : PricingRecord) : catalogLe lc a b ∨ catalogLe lc b a := by
  rw [catalogLe_iff h, catalogLe_iff h]
  by_cases h1 : lc b.provider a.provider ≤ 0
  · by_cases h2 : lc a.provider b.provider ≤ 0
    · rcases lc_total h a.model b.model with hm | hm
      · exact Or.inl (Or.inr ⟨h2, h1, hm⟩)
      · exact Or.inr (Or.inr ⟨h1, h2, hm⟩)
    · exact Or.inr (Or.inl h2)
  · exact Or.inl (Or.inl h1)

theorem catalogLe_trans {lc : Str → Str → Int} (h : IsConsistentComparator lc)
    (a b c : PricingRecord) (hab : catalogLe lc a b) (hbc : catalogLe lc b c) :
    catalogLe lc a c := by
  have htr := h.2.2
  rw [catalogLe_iff h] at hab hbc ⊢
  rcases hab with hab | ⟨hab1, hab2, habm⟩ <;> rcases hbc with hbc | ⟨hbc1, hbc2, hbcm⟩
  · left
    intro hca
    have hab1 : lc a.provider b.provider ≤ 0 := by
      rcases lc_total h a.provider b.provider with h1 | h1
      · exact h1
      · exact absurd h1 hab
    exact hbc (htr _ _ _ hca hab1)
  · left
    intro hca
    exact hab (htr _ _ _ hbc1 hca)
  · left
    intro hca
    exact hbc (htr _ _ _ hca hab1)
  · right
    exact ⟨htr _ _ _ hab1 hbc1, htr _ _ _ hbc2 hab2, htr _ _ _ habm hbcm⟩

/-- On records whose providers are equal strings when they compare equal, the
comparator of `sortModels` decides the order of the catalog. -/
theorem compareModels_le_iff {lc : Str → Str → Int} (h : IsConsistentComparator lc)
    (a b : PricingRecord) (hd : lc a.provider b.provider = 0 → a.provider = b.provider) :
    compareModels lc a b ≤ 0 ↔ catalogLe lc a b := by
  unfold compareModels catalogLe
  by_cases hp : a.provider = b.provider
  · rw [if_neg (not_not.mpr hp)]
    have h0 : lc a.provider b.provider = 0 := by rw [hp]; exact h.1 _
    constructor
    · intro hm; exact Or.inr ⟨h0, hm⟩
    · rintro (hlt | ⟨_, hm⟩)
      · omega
      · exact hm
  · rw [if_pos hp]
    have hne : lc a.provider b.provider ≠ 0 := fun h0 => hp (hd h0)
    constructor
    · intro hle; exact Or.inl (lt_of_le_of_ne hle hne)
    · rintro (hlt | ⟨he, _⟩)
      · exact le_of_lt hlt
      · exact absurd he hne

theorem orderedInsert_congr {α : Type} (r r2 : α → α → Prop) [DecidableRel r] [DecidableRel r2]
    (a : α) (t : List α) (h : ∀ b ∈ t, r a b ↔ r2 a b) :
    List.orderedInsert r a t = List.orderedInsert r2 a t := by
  induction t with
  | nil => rfl
  | cons b t ih =>
    have hb := h b (List.mem_cons_self _ _)
    have ht := ih (fun x hx => h x (List.mem_cons_of_mem _ hx))
    simp only [List.orderedInsert]
    by_cases hr : r a b
    · rw [if_pos hr, if_pos (hb.mp hr)]
    · rw [if_neg hr, if_neg (fun h2 => hr (hb.mpr h2)), ht]

theorem insertionSort_congr {α : Type} (r r2 : α → α → Prop) [DecidableRel r] [DecidableRel r2]
    (l : List α) (h : ∀ a ∈ l, ∀ b ∈ l, r a b ↔ r2 a b) :
    List.insertionSort r l = List.insertionSort r2 l := by
  induction l with
  | nil => rfl
  | cons a l ih =>
    have hl := ih (fun x hx y hy =>
      h x (List.mem_cons_of_mem _ hx) y (List.mem_cons_of_mem _ hy))
    simp only [List.insertionSort]
    rw [hl]
    apply orderedInsert_congr
    intro b hb
    have hb2 : b ∈ l := (List.mem_insertionSort r2).mp hb
    exact h a (List.mem_cons_self _ _) b (List.mem_cons_of_mem _ hb2)

theorem sortModels_eq_catalogSort {lc : Str → Str → Int} (h : IsConsistentComparator lc)
    (models : List PricingRecord) (hd : ProvidersDistinct lc models) :
    sortModels lc models = models.insertionSort (catalogLe lc) := by
  unfold sortModels
  apply insertionSort_congr
  intro a ha b hb
  exact compareModels_le_iff h a b (hd a ha b hb)

theorem sortModels_sorted {lc : Str → Str → Int} (h : IsConsistentComparator lc)
    (models : List PricingRecord) (hd : ProvidersDistinct lc models) :
    List.Sorted (catalogLe lc) (sortModels lc models) := by
  haveI : IsTotal PricingRecord (catalogLe lc) := ⟨catalogLe_total h⟩
  haveI : IsTrans PricingRecord (catalogLe lc) := ⟨catalogLe_trans h⟩
  rw [sortModels_eq_catalogSort h models hd]
  exact List.sorted_insertionSort _ models

theorem providersDistinct_of_perm {lc : Str → Str → Int} {l l2 : List PricingRecord}
    (hp : List.Perm l l2) (hd : ProvidersDistinct lc l) : ProvidersDistinct lc l2 := by
  intro a ha b hb
  exact hd a (hp.mem_iff.mpr ha) b (hp.mem_iff.mpr hb)

theorem sortModels_of_sorted (lc : Str → Str → Int) (models : List PricingRecord)
    (h : List.Sorted (fun a b => compareModels lc a b ≤ 0) models) :
    sortModels lc models = models :=
  List.Sorted.insertionSort_eq h

theorem filterModels_eq (toLowerCase : Str → Str) (ALL_MODELS : List PricingRecord)
    (query : Str) :
    filterModels toLowerCase ALL_MODELS query
      = ALL_MODELS.filter (fun m =>
          includes (toLowerCase (tpl [m.provider, " ".toList, m.model]))
            (toLowerCase (trim query))) := by
  unfold filterModels
  simp only []
  split
  · rename_i hq
    rw [hq]
    symm
    rw [List.filter_eq_self]
    intro m _
    simp [includes]
  · rfl

theorem run_ALL_MODELS (host : Host) (s : App) (es : List Event) :
    (run host s es).ALL_MODELS = s.ALL_MODELS := by
  have hmd : ∀ (u : App) (t b : Str), (markDirty u t b).ALL_MODELS = u.ALL_MODELS := by
    intro u t b
    unfold markDirty setHint
    split
    · rfl
    · split <;> rfl
  have hsc : ∀ u : App, (scheduleAutoCalc u).ALL_MODELS = u.ALL_MODELS := by
    intro u
    unfold scheduleAutoCalc
    split <;> rfl
  have hstep : ∀ (u : App) (e : Event), (step host u e).ALL_MODELS = u.ALL_MODELS := by
    intro u e
    cases e with
    | searchInput query =>
      simp only [step, onSearchInput]
      split_ifs <;> simp only [hsc, hmd]
    | compareChange checked =>
      simp only [step, onCompareChange]
      split_ifs <;> simp only [hmd]
    | change edit =>
      simp only [step, onChange]
      split <;> simp only [hsc, hmd]
    | preset7030 => simp only [step, onPreset, hsc, hmd]
    | preset5050 => simp only [step, onPreset, hsc, hmd]
    | calculateClick => rfl
    | timerFire id =>
      simp only [step, onTimerFire]
      split_ifs <;> rfl
    | advance dt => rfl
    | copy =>
      simp only [step, onCopy]
      split <;> rfl
  induction es generalizing s with
  | nil => rfl
  | cons e es ih =>
    have : run host s (e :: es) = run host (step host s e) es := rfl
    rw [this, ih, hstep]

theorem onSearchInput_view (host : Host) (s : App) (query : Str) :
    (onSearchInput host s query).page.VIEW_MODELS
      = sortModels host.localeCompare (filterModels host.toLowerCase s.ALL_MODELS query) := by
  have hmd : ∀ (u : App) (t b : Str), (markDirty u t b).page = u.page := by
    intro u t b
    unfold markDirty setHint
    split
    · rfl
    · split <;> rfl
  have hsc : ∀ u : App, (scheduleAutoCalc u).page = u.page := by
    intro u
    unfold scheduleAutoCalc
    split <;> rfl
  simp only [onSearchInput]
  split_ifs <;> simp only [hsc, hmd] <;> rfl

theorem char_eq_of_toNat {x y : Char} (h : x.toNat = y.toNat) : x = y := by
  have := congrArg Char.ofNat h
  simpa using this

theorem codeUnitCompare_eq_zero (a b : Str) : codeUnitCompare a b = 0 ↔ a = b := by
  induction a generalizing b with
  | nil => cases b <;> simp [codeUnitCompare]
  | cons x as ih =>
    cases b with
    | nil => simp [codeUnitCompare]
    | cons y bs =>
      simp only [codeUnitCompare, List.cons.injEq]
      split_ifs with h1 h2
      · constructor
        · intro h; exact absurd h (by decide)
        · rintro ⟨h, _⟩
          have := congrArg Char.toNat h
          omega
      · constructor
        · intro h; exact absurd h (by decide)
        · rintro ⟨h, _⟩
          have := congrArg Char.toNat h
          omega
      · rw [ih]
        have : x = y := char_eq_of_toNat (by omega)
        simp [this]

theorem codeUnitCompare_flip (a b : Str) : codeUnitCompare a b < 0 ↔ 0 < codeUnitCompare b a := by
  induction a generalizing b with
  | nil => cases b <;> simp [codeUnitCompare]
  | cons x as ih =>
    cases b with
    | nil => simp [codeUnitCompare]
    | cons y bs =>
      simp only [codeUnitCompare]
      split_ifs with h1 h2 h3 <;> first | omega | exact ih bs

theorem codeUnitCompare_cons_le (x y : Char) (as bs : Str) :
    codeUnitCompare (x :: as) (y :: bs) ≤ 0
      ↔ x.toNat < y.toNat ∨ (x.toNat = y.toNat ∧ codeUnitCompare as bs ≤ 0) := by
  simp only [codeUnitCompare]
  split_ifs with h1 h2
  · simp [h1]
  · constructor
    · intro h; omega
    · rintro (h | ⟨h, _⟩) <;> omega
  · constructor
    · intro h; exact Or.inr ⟨by omega, h⟩
    · rintro (h | ⟨_, h⟩)
      · omega
      · exact h

theorem codeUnitCompare_trans (a b c : Str) (hab : codeUnitCompare a b ≤ 0)
    (hbc : codeUnitCompare b c ≤ 0) : codeUnitCompare a c ≤ 0 := by
  induction a generalizing b c with
  | nil => cases c <;> simp [codeUnitCompare]
  | cons x as ih =>
    cases b with
    | nil => simp [codeUnitCompare] at hab
    | cons y bs =>
      cases c with
      | nil => simp [codeUnitCompare] at hbc
      | cons z cs =>
        rw [codeUnitCompare_cons_le] at hab hbc ⊢
        rcases hab with h1 | ⟨h1, h1r⟩ <;> rcases hbc with h2 | ⟨h2, h2r⟩
        · exact Or.inl (by omega)
        · exact Or.inl (by omega)
        · exact Or.inl (by omega)
        · exact Or.inr ⟨by omega, ih bs cs h1r h2r⟩

theorem codeUnitCompare_consistent : IsConsistentComparator codeUnitCompare :=
  ⟨fun a => (codeUnitCompare_eq_zero a a).mpr rfl, codeUnitCompare_flip, codeUnitCompare_trans⟩

theorem canonCompare_consistent : IsConsistentComparator canonCompare :=
  ⟨fun _ => codeUnitCompare_consistent.1 _,
   fun _ _ => codeUnitCompare_consistent.2.1 _ _,
   fun _ _ _ => codeUnitCompare_consistent.2.2 _ _ _⟩

/-- C19 (as stated) fails: with the providers U+00E9 and `e` U+0301, which
compare equal and differ as strings, the catalog after `init()` is in the
order b, a, a of the models, and the view of the query U+00E9 holds the
records with models a, b in this order, while the matching records stand in
the catalog in the order b, a. -/
theorem search_view_counterexample :
    (initApp canonHost accentCatalog gpt5AnnualPage true 0).ALL_MODELS = accentCatalog
    ∧ (step canonHost (initApp canonHost accentCatalog gpt5AnnualPage true 0)
          (Event.searchInput [Char.ofNat 233])).page.VIEW_MODELS
        = [⟨[Char.ofNat 233], "a".toList, Num.fin 1, Num.fin 2⟩,
           ⟨[Char.ofNat 233], "b".toList, Num.fin 1, Num.fin 2⟩]
    ∧ accentCatalog.filter (fun m =>
          includes (canonHost.toLowerCase (tpl [m.provider, " ".toList, m.model]))
            (canonHost.toLowerCase (trim [Char.ofNat 233])))
        = [⟨[Char.ofNat 233], "b".toList, Num.fin 1, Num.fin 2⟩,
           ⟨[Char.ofNat 233], "a".toList, Num.fin 1, Num.fin 2⟩] := by
  refine ⟨by decide!, by decide!, by decide!⟩

/-- C19 (amended): in a state reached from `init()` whose catalog has no two
different provider strings that compare equal, with `localeCompare` a
consistent comparator, the view after a search event is the catalog filtered
by the match of the lower-cased, trimmed query in the lower-cased
`provider model` text: a sublist of the sorted catalog in catalog order, the
whole catalog when the lower-cased trimmed query is empty; the catalog itself
is unchanged. -/
theorem search_view (host : Host) (hord : IsConsistentComparator host.localeCompare) (s : App)
    (hs : Reachable host s) (hdist : ProvidersDistinct host.localeCompare s.ALL_MODELS)
    (query : Str) :
    (step host s (Event.searchInput query)).page.VIEW_MODELS
        = s.ALL_MODELS.filter (fun m =>
            includes (host.toLowerCase (tpl [m.provider, " ".toList, m.model]))
              (host.toLowerCase (trim query)))
    ∧ List.Sublist (step host s (Event.searchInput query)).page.VIEW_MODELS s.ALL_MODELS
    ∧ List.Sorted (catalogLe host.localeCompare) s.ALL_MODELS
    ∧ (host.toLowerCase (trim query) = [] →
        (step host s (Event.searchInput query)).page.VIEW_MODELS = s.ALL_MODELS)
    ∧ (step host s (Event.searchInput query)).ALL_MODELS = s.ALL_MODELS := by
  obtain ⟨models, page, cb, now, es, rfl⟩ := hs
  have hall : (run host (initApp host models page cb now) es).ALL_MODELS
      = sortModels host.localeCompare models := by
    rw [run_ALL_MODELS]; rfl
  rw [hall] at hdist
  have hperm : List.Perm (sortModels host.localeCompare models) models :=
    List.perm_insertionSort _ models
  have hsorted := sortModels_sorted hord models (providersDistinct_of_perm hperm hdist)
  have hpair : List.Sorted (fun a b => compareModels host.localeCompare a b ≤ 0)
      (sortModels host.localeCompare models) :=
    List.Pairwise.imp_of_mem
      (fun {a b} ha hb h => (compareModels_le_iff hord a b (hdist a ha b hb)).mpr h) hsorted
  have hview : (step host (run host (initApp host models page cb now) es)
        (Event.searchInput query)).page.VIEW_MODELS
      = (run host (initApp host models page cb now) es).ALL_MODELS.filter (fun m =>
            includes (host.toLowerCase (tpl [m.provider, " ".toList, m.model]))
              (host.toLowerCase (trim query))) := by
    have : step host (run host (initApp host models page cb now) es) (Event.searchInput query)
        = onSearchInput host (run host (initApp host models page cb now) es) query := rfl
    rw [this, onSearchInput_view, filterModels_eq, hall]
    exact sortModels_of_sorted _ _ (List.Sorted.filter _ hpair)
  refine ⟨hview, ?_, ?_, ?_, ?_⟩
  · rw [hview]; exact List.filter_sublist _
  · rw [hall]; exact hsorted
  · intro hq
    rw [hview, hq, List.filter_eq_self]
    intro m _
    simp [includes]
  · have : step host (run host (initApp host models page cb now) es) (Event.searchInput query)
        = run host (run host (initApp host models page cb now) es) [Event.searchInput query] :=
      rfl
    rw [this, run_ALL_MODELS]

/-- C19 (amended) on the example catalog: the query ` GPT ` leaves the two
`gpt` records, in catalog order. -/
theorem search_view_witness :
    (step canonHost (run canonHost (initApp canonHost exampleCatalog gpt5AnnualPage true 0) [])
        (Event.searchInput " GPT ".toList)).page.VIEW_MODELS
      = [⟨"OpenAI".toList, "gpt-4o".toList, Num.fin (5 / 2), Num.fin 10⟩,
         ⟨"OpenAI".toList, "gpt-5".toList, Num.fin (5 / 4), Num.fin 10⟩] :=
  ((search_view canonHost canonCompare_consistent
      (run canonHost (initApp canonHost exampleCatalog gpt5AnnualPage true 0) [])
      ⟨_, _, _, _, _, rfl⟩ (by decide!) " GPT ".toList).1).trans (by decide!)

/-- C20 (as stated) fails: the providers U+00E9 and `e` U+0301 compare equal
and differ as strings, so the comparator of `sortModels` puts (U+00E9, b)
before (`e` U+0301, a) and that before (U+00E9, a); the list comes back as it
was given, with model b before model a under one provider. -/
theorem sortModels_counterexample :
    canonCompare [Char.ofNat 233] ['e', Char.ofNat 769] = 0
    ∧ sortModels canonCompare accentCatalog = accentCatalog
    ∧ compareModels canonCompare ⟨[Char.ofNat 233], "a".toList, Num.fin 1, Num.fin 2⟩
        ⟨[Char.ofNat 233], "b".toList, Num.fin 1, Num.fin 2⟩ = -1
    ∧ ¬ List.Sorted (catalogLe canonCompare) (sortModels canonCompare accentCatalog) := by
  refine ⟨by decide!, by decide!, by decide!, by decide!⟩

/-- C20 (amended): with `localeCompare` a consistent comparator, for every list
of records in which no two different provider strings compare equal,
`sortModels` returns a permutation of the list that is sorted by provider and,
among providers that compare equal, by model; `sortModels` is a function of
its argument, which it cannot change; and the catalog and the view after
`init()` are this sorted list. -/
theorem sortModels_sorted_perm (host : Host) (hord : IsConsistentComparator host.localeCompare)
    (models : List PricingRecord) (hdist : ProvidersDistinct host.localeCompare models)
    (page : Page) (compareBlocks : Bool) (now : Nat) :
    List.Perm (sortModels host.localeCompare models) models
    ∧ List.Sorted (catalogLe host.localeCompare) (sortModels host.localeCompare models)
    ∧ (initApp host models page compareBlocks now).ALL_MODELS
        = sortModels host.localeCompare models
    ∧ (initApp host models page compareBlocks now).page.VIEW_MODELS
        = sortModels host.localeCompare models :=
  ⟨List.perm_insertionSort _ models, sortModels_sorted hord models hdist, rfl, rfl⟩

/-- C20 (amended) on the example catalog. -/
theorem sortModels_sorted_perm_witness :
    List.Perm (sortModels canonCompare exampleCatalog) exampleCatalog
    ∧ List.Sorted (catalogLe canonCompare) (sortModels canonCompare exampleCatalog)
    ∧ sortModels canonCompare exampleCatalog
        = [⟨"Anthropic".toList, "claude".toList, Num.fin 3, Num.fin 15⟩,
           ⟨"OpenAI".toList, "gpt-4o".toList, Num.fin (5 / 2), Num.fin 10⟩,
           ⟨"OpenAI".toList, "gpt-5".toList, Num.fin (5 / 4), Num.fin 10⟩] :=
  ⟨(sortModels_sorted_perm canonHost canonCompare_consistent exampleCatalog (by decide!)
      gpt5AnnualPage true 0).1,
   (sortModels_sorted_perm canonHost canonCompare_consistent exampleCatalog (by decide!)
      gpt5AnnualPage true 0).2.1,
   by decide!⟩

/-! ### C21: `formatWithCommas` and `sanitizeNumber` -/

theorem groupRev_filter (r : Str) (h : ∀ c ∈ r, c.isDigit = true) :
    (groupRev r).filter Char.isDigit = r := by
  induction r using groupRev.induct with
  | case1 a b c d rest ih =>
    have ha := h a (by simp)
    have hb := h b (by simp)
    have hc := h c (by simp)
    have hrest : ∀ x ∈ d :: rest, x.isDigit = true := by
      intro x hx
      exact h x (by simp only [List.mem_cons] at hx ⊢; tauto)
    rw [groupRev]
    simp only [List.filter_cons, ha, hb, hc, if_true]
    rw [if_neg (by decide), ih hrest]
  | case2 ds hno =>
    rw [groupRev]
    · exact List.filter_eq_self.mpr h
    · exact hno

theorem groupRev_mem (r : Str) : ∀ c ∈ groupRev r, c ∈ r ∨ c = ',' := by
  induction r using groupRev.induct with
  | case1 a b c d rest ih =>
    rw [groupRev]
    intro x hx
    simp only [List.mem_cons] at hx ⊢
    rcases hx with hx | hx | hx | hx | hx
    · tauto
    · tauto
    · tauto
    · tauto
    · rcases ih x hx with h | h
      · simp only [List.mem_cons] at h; tauto
      · tauto
  | case2 ds hno =>
    rw [groupRev]
    · intro x hx; exact Or.inl hx
    · exact hno

theorem groupThousands_filter (ds : Str) (h : ∀ c ∈ ds, c.isDigit = true) :
    (groupThousands ds).filter Char.isDigit = ds := by
  unfold groupThousands
  rw [List.filter_reverse, groupRev_filter _ (fun c hc => h c (List.mem_reverse.mp hc)),
    List.reverse_reverse]

theorem groupThousands_mem (ds : Str) (h : ∀ c ∈ ds, c.isDigit = true) :
    ∀ c ∈ groupThousands ds, c.isDigit = true ∨ c = ',' := by
  intro c hc
  unfold groupThousands at hc
  rcases groupRev_mem _ c (List.mem_reverse.mp hc) with h1 | h1
  · exact Or.inl (h c (List.mem_reverse.mp h1))
  · exact Or.inr h1

theorem groupThousands_ne_nil (ds : Str) (hne : ds ≠ []) (h : ∀ c ∈ ds, c.isDigit = true) :
    groupThousands ds ≠ [] := by
  intro hnil
  have := groupThousands_filter ds h
  rw [hnil] at this
  exact hne this.symm

theorem digitVal_digitChar (k : Nat) (h : k < 10) : digitVal (Nat.digitChar k) = k := by
  interval_cases k <;> rfl

theorem toDigitsCore_foldl (fuel n : Nat) (ds : Str) (h : n < fuel) :
    (Nat.toDigitsCore 10 fuel n ds).foldl (fun acc c => 10 * acc + digitVal c) 0
      = ds.foldl (fun acc c => 10 * acc + digitVal c) n := by
  induction fuel generalizing n ds with
  | zero => omega
  | succ f ih =>
    simp only [Nat.toDigitsCore]
    have hd : digitVal (Nat.digitChar (n % 10)) = n % 10 :=
      digitVal_digitChar _ (Nat.mod_lt _ (by norm_num))
    split
    · rename_i hz
      simp only [List.foldl_cons, hd]
      congr 1
      omega
    · rename_i hz
      rw [ih (n / 10) _ (by omega)]
      simp only [List.foldl_cons, hd]
      congr 1
      omega

theorem digitsVal_natToStr (n : Nat) : digitsVal (natToStr n) = n := by
  unfold digitsVal natToStr Nat.toDigits
  rw [toDigitsCore_foldl _ _ _ (Nat.lt_succ_self n)]
  rfl


theorem decLenAux_zero (fuel : Nat) : decLenAux fuel 0 = 0 := by
  cases fuel <;> simp [decLenAux]

theorem decLenAux_lower (fuel n : Nat) (h : n ≤ fuel) (hn : n ≠ 0) :
    10 ^ (decLenAux fuel n - 1) ≤ n := by
  induction fuel generalizing n with
  | zero => omega
  | succ f ih =>
    simp only [decLenAux, hn, if_false, Nat.add_sub_cancel]
    by_cases hz : n / 10 = 0
    · rw [hz, decLenAux_zero]
      simp only [pow_zero]
      omega
    · have hi := ih (n / 10) (by omega) hz
      have hpos := decLenAux_pos f (n / 10) (by omega) hz
      obtain ⟨d, hd⟩ : ∃ d, decLenAux f (n / 10) = d + 1 :=
        ⟨decLenAux f (n / 10) - 1, by omega⟩
      rw [hd] at hi ⊢
      simp only [Nat.add_sub_cancel] at hi
      calc 10 ^ (d + 1) = 10 ^ d * 10 := pow_succ 10 d
        _ ≤ n / 10 * 10 := Nat.mul_le_mul_right 10 hi
        _ ≤ n := Nat.div_mul_le_self n 10

theorem decLen_le_of_lt (n : Nat) (hn : n ≠ 0) (h : n < 10 ^ 16) : decLen n ≤ 16 := by
  by_contra hc
  have h1 : 16 ≤ decLen n - 1 := by omega
  have h2 : 10 ^ 16 ≤ 10 ^ (decLen n - 1) := Nat.pow_le_pow_right (by norm_num) h1
  have h3 := decLenAux_lower n n le_rfl hn
  unfold decLen at h2
  omega

theorem ilog10_nat (n : Nat) (hn : 1 ≤ n) : ilog10 (n : ℚ) + 1 = (decLen n : Int) := by
  unfold ilog10
  rw [if_pos (by exact_mod_cast hn)]
  simp

theorem pow10_natCast (m : Nat) : pow10 (m : Int) = ((10 ^ m : Nat) : ℚ) := by
  unfold pow10
  rw [if_pos (Int.natCast_nonneg m)]
  simp

theorem pow10_eq_zpow (e : Int) : pow10 e = (10 : ℚ) ^ e := by
  unfold pow10
  by_cases h : 0 ≤ e
  · rw [if_pos h]
    obtain ⟨m, rfl⟩ := Int.eq_ofNat_of_zero_le h
    simp
  · rw [if_neg h]
    obtain ⟨m, hm⟩ := Int.exists_eq_neg_ofNat (le_of_lt (not_le.mp h))
    subst hm
    simp

theorem pow10_succ (e : Int) : pow10 (e + 1) = 10 * pow10 e := by
  rw [pow10_eq_zpow, pow10_eq_zpow, zpow_add_one₀ (by norm_num : (10 : ℚ) ≠ 0)]
  ring

theorem shortestFrom_some (q : ℚ) (fuel k0 k s : Nat) (n : Int)
    (h : shortestFrom q fuel k0 = some (k, s, n)) :
    shortestAt q k = some (s, n) ∧ k0 ≤ k ∧ ∀ j, k0 ≤ j → j < k → shortestAt q j = none := by
  induction fuel generalizing k0 with
  | zero => simp [shortestFrom] at h
  | succ f ih =>
    simp only [shortestFrom] at h
    split at h
    · next s1 n1 heq =>
      injection h with h; injection h with h1 h2; injection h2 with h2 h3
      subst h1 h2 h3
      exact ⟨heq, le_rfl, fun j h1 h2 => by omega⟩
    · next hnone =>
      obtain ⟨h1, h2, h3⟩ := ih _ h
      refine ⟨h1, by omega, ?_⟩
      intro j hj hjk
      by_cases hjk0 : j = k0
      · subst hjk0
        exact hnone
      · exact h3 j (by omega) hjk

theorem shortestFrom_ne_none (q : ℚ) (fuel k0 j : Nat) (h1 : k0 ≤ j) (h2 : j < k0 + fuel)
    (h : shortestAt q j ≠ none) : shortestFrom q fuel k0 ≠ none := by
  induction fuel generalizing k0 with
  | zero => omega
  | succ f ih =>
    simp only [shortestFrom]
    split
    · simp
    · next hnone =>
      by_cases hjk0 : j = k0
      · subst hjk0
        exact absurd hnone h
      · exact ih (k0 + 1) (by omega) (by omega)

theorem shortestAt_value (q : ℚ) (k s : Nat) (n : Int) (hk : 1 ≤ k)
    (h : shortestAt q k = some (s, n)) :
    ∃ c : Nat, (s : ℚ) * pow10 (n - k) = (c : ℚ) * pow10 (ilog10 q + 1 - k)
      ∧ rnd ((c : ℚ) * pow10 (ilog10 q + 1 - k)) = Num.fin q := by
  have pick : ∀ c : Nat, rnd ((c : ℚ) * pow10 (ilog10 q + 1 - k)) = Num.fin q →
      (if c = 10 ^ k then some (10 ^ (k - 1), ilog10 q + 1 + 1) else some (c, ilog10 q + 1))
        = some (s, n) →
      ∃ c : Nat, (s : ℚ) * pow10 (n - k) = (c : ℚ) * pow10 (ilog10 q + 1 - k)
        ∧ rnd ((c : ℚ) * pow10 (ilog10 q + 1 - k)) = Num.fin q := by
    intro c hc hp
    refine ⟨c, ?_, hc⟩
    split at hp
    · next hck =>
      injection hp with hp; injection hp with h1 h2
      subst h1 h2 hck
      have e1 : ilog10 q + 1 + 1 - (k : Int) = (ilog10 q + 1 - k) + 1 := by ring
      rw [e1, pow10_succ]
      obtain ⟨j, rfl⟩ : ∃ j, k = j + 1 := ⟨k - 1, by omega⟩
      simp only [Nat.add_sub_cancel]
      push_cast
      ring
    · injection hp with hp; injection hp with h1 h2
      subst h1 h2
      rfl
  unfold shortestAt at h
  simp only [] at h
  split at h
  · next hboth =>
    simp only [Bool.and_eq_true, decide_eq_true_eq] at hboth
    split at h
    · exact pick _ hboth.1 h
    · split at h
      · exact pick _ hboth.2 h
      · split at h
        · exact pick _ hboth.1 h
        · exact pick _ hboth.2 h
  · split at h
    · next hlo =>
      simp only [decide_eq_true_eq] at hlo
      exact pick _ hlo h
    · split at h
      · next hhi =>
        simp only [decide_eq_true_eq] at hhi
        exact pick _ hhi h
      · cases h

theorem shortestAt_of_lo (q : ℚ) (k : Nat)
    (h : rnd ((⌊q / pow10 (ilog10 q + 1 - k)⌋.toNat : ℚ) * pow10 (ilog10 q + 1 - k)) = Num.fin q) :
    shortestAt q k ≠ none := by
  unfold shortestAt
  simp only []
  have hlo : decide (rnd ((⌊q / pow10 (ilog10 q + 1 - k)⌋.toNat : ℚ)
      * pow10 (ilog10 q + 1 - k)) = Num.fin q) = true := by
    simp only [decide_eq_true_eq]; exact h
  rw [hlo]
  simp only [Bool.true_and, if_true]
  split
  · split
    · split <;> simp
    · split
      · split <;> simp
      · split <;> split <;> simp
  · split <;> simp

theorem isDouble_nat (n : Nat) (h : n ≤ 9007199254740992) : IsDouble (n : ℚ) := by
  rcases Nat.eq_zero_or_pos n with rfl | hpos
  · simpa using isDouble_zero
  · have hq : (0 : ℚ) < (n : ℚ) := by exact_mod_cast hpos
    have hgrid := rndAbs_grid (n : Int) 0 (by exact_mod_cast hpos) (by exact_mod_cast h)
      (by norm_num)
    have hp0 : pow2 0 = 1 := by decide!
    rw [hp0, mul_one] at hgrid
    have hgrid2 : rndAbs (n : ℚ) = (n : ℚ) := by exact_mod_cast hgrid
    have hsmall : ¬ pow2 1024 ≤ (n : ℚ) := by
      have h1024 : (9007199254740992 : ℚ) < pow2 1024 := by decide!
      have : (n : ℚ) ≤ 9007199254740992 := by exact_mod_cast h
      linarith
    unfold IsDouble rnd
    rw [if_neg hq.ne']
    simp only [abs_of_pos hq, hgrid2, if_neg hsmall, if_pos hq]


theorem rnd_nat_eq (v n : Nat) (hn : n < 9007199254740992)
    (h : rnd (v : ℚ) = Num.fin (n : ℚ)) : v = n := by
  by_cases hv : v ≤ 9007199254740992
  · have hd := isDouble_nat v hv
    unfold IsDouble at hd
    rw [hd] at h
    injection h with h
    exact_mod_cast h
  · exfalso
    have hvq : (9007199254740992 : ℚ) ≤ (v : ℚ) := by
      have : 9007199254740992 ≤ v := by omega
      exact_mod_cast this
    have hpos : (0 : ℚ) < (v : ℚ) := by linarith
    have hgrid := rndAbs_grid 9007199254740992 0 (by norm_num) (by norm_num) (by norm_num)
    have hp0 : pow2 0 = 1 := by decide!
    rw [hp0, mul_one] at hgrid
    have hmono := rndAbs_mono (by norm_num : (0 : ℚ) < ((9007199254740992 : Int) : ℚ))
      (by push_cast; exact hvq : ((9007199254740992 : Int) : ℚ) ≤ (v : ℚ))
    rw [hgrid] at hmono
    unfold rnd at h
    rw [if_neg hpos.ne'] at h
    simp only [abs_of_pos hpos, if_pos hpos] at h
    split at h
    · cases h
    · injection h with h
      rw [h] at hmono
      have : (9007199254740992 : ℚ) ≤ (n : ℚ) := by exact_mod_cast hmono
      have hn2 : (n : ℚ) < 9007199254740992 := by exact_mod_cast hn
      linarith

theorem shortestDecimal_nat (n : Nat) (h1 : 1 ≤ n) (hn : n < 9007199254740992) :
    shortestDecimal (n : ℚ) = (n : ℚ) := by
  have hlog := ilog10_nat n h1
  have hlen16 : decLen n ≤ 16 := decLen_le_of_lt n (by omega) (by omega)
  have hlen1 : 1 ≤ decLen n := decLenAux_pos n n le_rfl (by omega)
  have hfull : shortestAt (n : ℚ) (decLen n) ≠ none := by
    apply shortestAt_of_lo
    rw [hlog, sub_self]
    have hp : pow10 0 = 1 := by decide!
    rw [hp, div_one, mul_one]
    simp only [Int.floor_natCast, Int.toNat_natCast]
    exact isDouble_nat n (by omega)
  rcases hs : shortest (n : ℚ) with ⟨k, s, n2⟩
  unfold shortestDecimal
  rw [hs]
  simp only []
  unfold shortest at hs
  split at hs
  · next r heq =>
    subst hs
    obtain ⟨hat, hk1, hfirst⟩ := shortestFrom_some _ _ _ _ _ _ heq
    have hkle : k ≤ decLen n := by
      by_contra hc
      exact hfull (hfirst (decLen n) hlen1 (by omega))
    obtain ⟨c, hval, hrnd⟩ := shortestAt_value _ _ _ _ hk1 hat
    rw [hval]
    have hexp : ilog10 (n : ℚ) + 1 - (k : Int) = ((decLen n - k : Nat) : Int) := by
      rw [hlog]; omega
    rw [hexp, pow10_natCast] at hrnd ⊢
    have hrnd2 : rnd (((c * 10 ^ (decLen n - k) : Nat)) : ℚ) = Num.fin (n : ℚ) := by
      push_cast; push_cast at hrnd; exact hrnd
    have := rnd_nat_eq _ n hn hrnd2
    exact_mod_cast this
  · next hnone =>
    exact absurd hnone (shortestFrom_ne_none _ 17 1 (decLen n) hlen1 (by omega) hfull)

theorem toLocaleStringEnUS_nat (n : Nat) (hn : n ≤ 9007199254740992) :
    toLocaleStringEnUS (Num.fin (n : ℚ)) = groupThousands (natToStr n) := by
  have hd : (if (n : ℚ) = 0 then (0 : ℚ) else shortestDecimal |(n : ℚ)|) = (n : ℚ)
      ∨ n = 9007199254740992 := by
    rcases Nat.eq_zero_or_pos n with h0 | hpos
    · left; subst h0; simp
    · rcases Nat.lt_or_ge n 9007199254740992 with hlt | hge
      · left
        have hne : (n : ℚ) ≠ 0 := by exact_mod_cast (Nat.pos_iff_ne_zero.mp hpos)
        rw [if_neg hne, abs_of_nonneg (Nat.cast_nonneg n)]
        exact shortestDecimal_nat n hpos hlt
      · right; omega
  rcases hd with hd | hd
  · have hfloor : ⌊(n : ℚ) * 1000 + 1 / 2⌋.toNat = n * 1000 := by
      have : ⌊(n : ℚ) * 1000 + 1 / 2⌋ = ((n * 1000 : Nat) : Int) := by
        rw [Int.floor_eq_iff]
        push_cast
        constructor <;> linarith
      rw [this]
      exact Int.toNat_natCast _
    unfold toLocaleStringEnUS
    simp only [hd, hfloor]
    have h1 : n * 1000 / 1000 = n := Nat.mul_div_cancel n (by norm_num)
    have h2 : n * 1000 % 1000 = 0 := Nat.mul_mod_left n 1000
    have h3 : fractionDigits 0 = [] := by decide
    rw [h1, h2, h3]
    have hneg : ¬ ((n : ℚ) < 0) := not_lt.mpr (Nat.cast_nonneg n)
    simp [hneg]
  · subst hd
    have : ((9007199254740992 : Nat) : ℚ) = (9007199254740992 : ℚ) := by norm_num
    rw [this]
    decide!

theorem toLocaleStringEnUS_ne_nil (x : Num) : toLocaleStringEnUS x ≠ [] := by
  cases x with
  | nan => decide
  | pinf => decide
  | ninf => decide
  | fin q =>
    unfold toLocaleStringEnUS
    simp only []
    generalize (if q = 0 then (0 : ℚ) else shortestDecimal |q|) = d
    have hip : groupThousands (natToStr (⌊d * 1000 + 1 / 2⌋.toNat / 1000)) ≠ [] :=
      groupThousands_ne_nil _ (natToStr_ne_nil _) (natToStr_isDigit _)
    split_ifs
    · simp
    · simp
    · exact hip
    · simp [hip]

theorem formatWithCommas_eq_nil_iff (text : Str) :
    formatWithCommas text = [] ↔ ∀ c ∈ text, c.isDigit = false := by
  unfold formatWithCommas
  simp only []
  constructor
  · intro h
    by_cases hd : text.filter Char.isDigit = []
    · intro c hc
      have := List.filter_eq_nil_iff.mp hd c hc
      simpa using this
    · rw [if_neg hd] at h
      exact absurd h (toLocaleStringEnUS_ne_nil _)
  · intro h
    rw [if_pos]
    rw [List.filter_eq_nil_iff]
    intro c hc
    simp [h c hc]

theorem formatWithCommas_of_le (text : Str) (hne : ∃ c ∈ text, c.isDigit = true)
    (hd : digitsVal (text.filter Char.isDigit) ≤ 9007199254740992) :
    formatWithCommas text
      = groupThousands (natToStr (digitsVal (text.filter Char.isDigit))) := by
  obtain ⟨c, hc, hcd⟩ := hne
  have hds : text.filter Char.isDigit ≠ [] :=
    List.ne_nil_of_mem (List.mem_filter.mpr ⟨hc, hcd⟩)
  unfold formatWithCommas
  simp only []
  rw [if_neg hds, parseNumber_digits _ hds (fun c hc => (List.mem_filter.mp hc).2)]
  have hdbl := isDouble_nat _ hd
  unfold IsDouble at hdbl
  rw [hdbl, toLocaleStringEnUS_nat _ hd]

/-- C21 (as stated) fails: the digits `9007199254740993` (2^53 + 1) come back
as 9007199254740992, the nearest double; and four hundred nines format as `∞`,
which formats as the empty string, so `formatWithCommas` is not idempotent
there. -/
theorem formatWithCommas_roundtrip_counterexample :
    digitsVal ("9007199254740993".toList.filter Char.isDigit) = 9007199254740993
    ∧ formatWithCommas "9007199254740993".toList = "9,007,199,254,740,992".toList
    ∧ sanitizeNumber (formatWithCommas "9007199254740993".toList) = Num.fin 9007199254740992
    ∧ formatWithCommas (List.replicate 400 '9') = "∞".toList
    ∧ formatWithCommas (formatWithCommas (List.replicate 400 '9')) = []
    ∧ sanitizeNumber (formatWithCommas (List.replicate 400 '9')) = Num.fin 0 := by
  refine ⟨by decide!, by decide!, by decide!, by decide!, by decide!, by decide!⟩

/-- C21 (amended): `formatWithCommas(text)` is the empty string exactly when the
text has no digit, and it is idempotent at such a text.  When the text has a
digit and the natural number that its digits spell is at most 2^53,
`formatWithCommas(text)` is that number in groups of three,
`sanitizeNumber(formatWithCommas(text))` is that number, and
`formatWithCommas` is idempotent at the text. -/
theorem formatWithCommas_roundtrip (text : Str) :
    (formatWithCommas text = [] ↔ ∀ c ∈ text, c.isDigit = false)
    ∧ ((∀ c ∈ text, c.isDigit = false) →
        formatWithCommas (formatWithCommas text) = formatWithCommas text)
    ∧ ((∃ c ∈ text, c.isDigit = true) →
        digitsVal (text.filter Char.isDigit) ≤ 9007199254740992 →
        formatWithCommas text
            = groupThousands (natToStr (digitsVal (text.filter Char.isDigit)))
        ∧ sanitizeNumber (formatWithCommas text)
            = Num.fin (digitsVal (text.filter Char.isDigit) : ℚ)
        ∧ formatWithCommas (formatWithCommas text) = formatWithCommas text) := by
  refine ⟨formatWithCommas_eq_nil_iff text, ?_, ?_⟩
  · intro h
    have hnil := (formatWithCommas_eq_nil_iff text).mpr h
    rw [hnil]
    rfl
  · intro hne hd
    have hfmt := formatWithCommas_of_le text hne hd
    generalize digitsVal (text.filter Char.isDigit) = n at hd hfmt
    have hmem := groupThousands_mem (natToStr n) (natToStr_isDigit n)
    have hfil := groupThousands_filter (natToStr n) (natToStr_isDigit n)
    refine ⟨hfmt, ?_, ?_⟩
    · rw [hfmt]
      unfold sanitizeNumber
      simp only []
      rw [stripCommas_digits _ hmem, hfil,
        parseNumber_digits _ (natToStr_ne_nil n) (natToStr_isDigit n), digitsVal_natToStr]
      have hdbl := isDouble_nat n hd
      unfold IsDouble at hdbl
      rw [hdbl]
      simp [Num.isFinite, Num.ge]
    · rw [hfmt]
      obtain ⟨c, t, hct⟩ := List.exists_cons_of_ne_nil (natToStr_ne_nil n)
      have hcm : c ∈ (groupThousands (natToStr n)).filter Char.isDigit := by
        rw [hfil, hct]; exact List.mem_cons_self _ _
      have hex : ∃ c ∈ groupThousands (natToStr n), c.isDigit = true :=
        ⟨c, (List.mem_filter.mp hcm).1, (List.mem_filter.mp hcm).2⟩
      have hd2 : digitsVal ((groupThousands (natToStr n)).filter Char.isDigit)
          ≤ 9007199254740992 := by
        rw [hfil, digitsVal_natToStr]; exact hd
      rw [formatWithCommas_of_le _ hex hd2, hfil, digitsVal_natToStr]

/-- C21 (amended) at the text `12a3.4,5`: its digits spell 12345, and the
formatted text `12,345` sanitises to 12345 and formats to itself. -/
theorem formatWithCommas_roundtrip_witness :
    formatWithCommas "12a3.4,5".toList
        = groupThousands (natToStr (digitsVal ("12a3.4,5".toList.filter Char.isDigit)))
    ∧ sanitizeNumber (formatWithCommas "12a3.4,5".toList)
        = Num.fin (digitsVal ("12a3.4,5".toList.filter Char.isDigit) : ℚ)
    ∧ formatWithCommas (formatWithCommas "12a3.4,5".toList)
        = formatWithCommas "12a3.4,5".toList :=
  (formatWithCommas_roundtrip "12a3.4,5".toList).2.2 ⟨'1', by decide, by decide⟩ (by decide)

end CostCalc
